import Mathlib

/-!
# Chat server and register servers: buffers, registry, task pipeline, thread pool, data file

A shallow embedding of the chat server under `src/linux/chat_server`:

* `network/socket/socket_wrapper.cc` (`SocketWrapper`),
* `network/connection/connection_holder.cc` (`ConnectionHolder`),
* `network/connection/connection_manager.cc` (`ConnectionManager`),
* `core/data_processing/*.cc` (`ReceiveDataTask`, `ProcessMessageTask`, `WriteAnswerTask`),
* `tools/thread_pool/thread_pool.cc` (`ThreadPool`, `ThreadPool::WorkerQueue`),

and of the request handling of the two register servers:

* `src/linux/user_register_server_#2`: `datafile.cpp` (`DataFile`) and `request.cpp`
  (`Request`),
* `src/linux/user_register_server`: `ipc/ProcessData.cpp` (`CProcessData` and its grammar) and
  `ipc/ThreadPoolModule.cpp` (`CBaseTask::ProcessData`, `CBaseTask::ReadFile`).

Conventions of the embedding.

* A `std::string` is a `List Char`; one `Char` stands for one byte.
* A `shared_ptr<ConnectionHolder>` is an index into `ConnectionManager.heap`, which maps the
  index of every `ConnectionHolder` object constructed so far to its state; a null pointer is
  `none`.
* `std::map<SocketDescriptor, ConnectionHolderPtr>` is a list of pairs kept in ascending key order,
  which is the order in which the source iterates it.
* A C++ exception is the `Except.error` carrying the result code that
  `ExceptionDispatcher::Dispatch` extracts from it.
* What the kernel answers (`::read`, `::epoll_ctl`, `::time`) is an argument of the function that
  makes the call.
* A task handed to `ConnectionManager::PostSlowTask` or `PostFastTask` is recorded, in call order,
  in the list of posted tasks that the posting function returns.
* The data file of a register server is the list of its bytes, `none` when it cannot be opened;
  a function that writes the file returns the bytes of the file after the call. A stream read
  with `std::getline` is the list of the lines that the calls deliver.
-/

namespace ChatServer

/-! ## common/result_code.h, network/descriptor.h, message_description.h -/

/-- The result codes of `common/result_code.h`. -/
inductive result_code where
  | sOk
  | eFail
  | eNotFound
  | eNotReady
  | eInvalidArgument
  | eBufferOverflow
  | eConnectionClosed
  | eAlreadyDefined
  | eUnexpected
  deriving DecidableEq, Repr

/-- Socket descriptors are C `int`s. -/
abbrev SocketDescriptor := Int

/-- Value of an invalid descriptor. -/
def INVALID_DESCRIPTOR : SocketDescriptor := -1

/-- Termination symbol, the end-of-sequence mark of client data. -/
def ChatTerminationSymbol : Char := '\n'

/-- Service symbol, the start-of-command flag. -/
def ChatServiceSymbol : Char := '\\'

/-- Nickname used in responses from the server. -/
def ServerSenderName : List Char := ['S', 'E', 'R', 'V', 'E', 'R']

/-- The zero byte. -/
def nul : Char := Char.ofNat 0

/-! ## std::string operations used by the source -/

/-- The call `s.rfind(c)`: index of the last occurrence of `c`, `none` for `npos`. -/
def rfind : List Char → Char → Option Nat
  | [], _ => none
  | x :: xs, c =>
    match rfind xs c with
    | some i => some (i + 1)
    | none => if x = c then some 0 else none

/-- First index of `c` in `s`, `none` when `c` does not occur. -/
def findFirst : List Char → Char → Option Nat
  | [], _ => none
  | x :: xs, c => if x = c then some 0 else (findFirst xs c).map (· + 1)

/-- The call `s.find(c, pos)`: first index `>= pos` holding `c`, `none` for `npos`. -/
def find (s : List Char) (c : Char) (pos : Nat) : Option Nat :=
  (findFirst (s.drop pos) c).map (· + pos)

/-- The call `s.substr(pos, n)` for `pos <= s.size()`. -/
def substr (s : List Char) (pos n : Nat) : List Char :=
  (s.drop pos).take n

/-- The bytes of a NUL-terminated C string stored in `buf`: everything before the first zero
byte. -/
def cstr (buf : List Char) : List Char :=
  buf.takeWhile (fun ch => ch != nul)

/-- The text that `operator<<` writes for a `long`. -/
def showLong (n : Int) : List Char :=
  match n with
  | .ofNat k => Nat.toDigits 10 k
  | .negSucc k => '-' :: Nat.toDigits 10 (k + 1)

/-! ## network/socket/socket_wrapper.cc -/

/-- State of a `SocketWrapper`. -/
structure SocketWrapper where
  m_socket : SocketDescriptor
  m_isClosed : Bool
  deriving DecidableEq, Repr

/-- Answer of the kernel to one `::read` on the non-blocking socket. -/
inductive SysRead where
  /-- The call delivered these bytes and returned their number; the empty list is the return
  value 0 of an orderly close. -/
  | data (bs : List Char)
  /-- The call returned -1 with `errno == EAGAIN`. -/
  | eagain
  /-- The call returned -1 with another `errno`. -/
  | fail
  deriving DecidableEq, Repr

namespace SocketWrapper

/-- `SocketWrapper::GetDescriptor`. -/
def GetDescriptor (s : SocketWrapper) : SocketDescriptor := s.m_socket

/-- `SocketWrapper::IsValid`. -/
def IsValid (s : SocketWrapper) : Bool :=
  !s.m_isClosed && (s.m_socket != INVALID_DESCRIPTOR)

/-- `SocketWrapper::Read`: returns `readResult` and the contents of `dataBuffer` after the call.
The kernel stores at most `bytesCount` bytes at the front of the buffer; on a positive result the
code stores a zero byte at index `readResult` (a store past the end of the buffer is dropped by
`List.set`). A failure other than `EAGAIN` throws with `eFail`. -/
def Read (ev : SysRead) (dataBuffer : List Char) (bytesCount : Nat) :
    Except result_code (Int × List Char) :=
  match ev with
  | .data bs =>
    let got := bs.take bytesCount
    let readResult : Int := got.length
    let stored := got ++ dataBuffer.drop got.length
    if readResult > 0 then .ok (readResult, stored.set got.length nul)
    else .ok (readResult, stored)
  | .eagain => .ok (-1, dataBuffer)
  | .fail => .error .eFail

/-- The index of the store `((char*)dataBuffer)[readResult] = 0` that `SocketWrapper::Read` makes
into the buffer of its caller after a read with a positive result; `none` when it makes no
store. -/
def zeroIndex (ev : SysRead) (bytesCount : Nat) : Option Nat :=
  match ev with
  | .data bs => if (bs.take bytesCount).length > 0 then some (bs.take bytesCount).length else none
  | .eagain => none
  | .fail => none

/-- `SocketWrapper::Close`. -/
def Close (s : SocketWrapper) : SocketWrapper :=
  if s.m_isClosed then s
  else if s.m_socket = INVALID_DESCRIPTOR then { s with m_isClosed := true }
  else { m_socket := INVALID_DESCRIPTOR, m_isClosed := true }

end SocketWrapper

/-! ## network/connection/connection_holder.cc -/

/-- Size of the stack buffer of `ReadAndAppendSocketData`. -/
def MaxDataBufferSize : Nat := 1024

/-- Limit of the per-connection receive buffer. -/
def MaximumMessageLength : Nat := 8192

/-- State of a `ConnectionHolder`. -/
structure ConnectionHolder where
  m_socketWrapper : SocketWrapper
  m_isListeningSocket : Bool
  m_isConnectionClosed : Bool
  m_socketData : List Char
  m_username : List Char
  deriving DecidableEq, Repr

namespace ConnectionHolder

/-- The constructor `ConnectionHolder(socket, isListeningSocket)`; its two `CHECK_ARGUMENT`s
throw `eInvalidArgument` on an invalid socket. -/
def new (socket : SocketWrapper) (isListeningSocket : Bool) : Except result_code ConnectionHolder :=
  if socket.IsValid then
    .ok { m_socketWrapper := socket, m_isListeningSocket := isListeningSocket,
          m_isConnectionClosed := false, m_socketData := [], m_username := [] }
  else .error .eInvalidArgument

/-- `ConnectionHolder::IsListeningSocket`. -/
def IsListeningSocket (c : ConnectionHolder) : Bool := c.m_isListeningSocket

/-- `ConnectionHolder::IsConnectionClosed`. -/
def IsConnectionClosed (c : ConnectionHolder) : Bool := c.m_isConnectionClosed

/-- `ConnectionHolder::GetUsername`. -/
def GetUsername (c : ConnectionHolder) : List Char := c.m_username

/-- `ConnectionHolder::IsSocketValid`. -/
def IsSocketValid (c : ConnectionHolder) : Bool := c.m_socketWrapper.IsValid

/-- `ConnectionHolder::GetSocketDescriptor`. -/
def GetSocketDescriptor (c : ConnectionHolder) : SocketDescriptor := c.m_socketWrapper.GetDescriptor

/-- The `do ... while (readResult > 0)` loop of `ReadAndAppendSocketData`. `reads` lists the
answers of the kernel to the successive `::read` calls; once it is used up the socket has nothing
more (`EAGAIN`). Returns the last `readResult` and `tempData`. -/
def readLoop : List SysRead → List Char → Except result_code (Int × List Char)
  | [], tempData => .ok (-1, tempData)
  | ev :: rest, tempData =>
    match SocketWrapper.Read ev (List.replicate MaxDataBufferSize nul) MaxDataBufferSize with
    | .error e => .error e
    | .ok (readResult, dataBuffer) =>
      if readResult > 0 then readLoop rest (tempData ++ cstr dataBuffer)
      else .ok (readResult, tempData ++ cstr dataBuffer)

/-- `ConnectionHolder::ReadAndAppendSocketData`. -/
def ReadAndAppendSocketData (c : ConnectionHolder) (reads : List SysRead) :
    result_code × ConnectionHolder :=
  match readLoop reads [] with
  | .error e => (e, c)
  | .ok (readResult, tempData) =>
    let sumLength := tempData.length + c.m_socketData.length
    if sumLength ≥ MaximumMessageLength then (.eBufferOverflow, c)
    else
      let c1 := { c with m_socketData := c.m_socketData ++ tempData }
      if readResult = 0 then (.eConnectionClosed, c1) else (.sOk, c1)

/-- `ConnectionHolder::GetNextSocketData`: result code, the output string and the connection. -/
def GetNextSocketData (c : ConnectionHolder) (tempString : List Char) :
    result_code × List Char × ConnectionHolder :=
  match rfind c.m_socketData ChatTerminationSymbol with
  | none => (.eNotFound, tempString, c)
  | some pos =>
    let terminationPosition := pos + 1
    (.sOk, substr c.m_socketData 0 terminationPosition,
      { c with m_socketData := c.m_socketData.drop terminationPosition })

end ConnectionHolder

/-- One call on the receive buffer of a connection: `ReadAndAppendSocketData` with what the
socket delivers during the call, or `GetNextSocketData` with the output string passed in. -/
inductive BufferCall where
  | ReadAndAppendSocketData (reads : List SysRead)
  | GetNextSocketData (tempString : List Char)
  deriving DecidableEq, Repr

/-- The connection after one call on its receive buffer. -/
def BufferCall.run (c : ConnectionHolder) : BufferCall → ConnectionHolder
  | .ReadAndAppendSocketData reads => (c.ReadAndAppendSocketData reads).2
  | .GetNextSocketData tempString => (c.GetNextSocketData tempString).2.2

/-- The connection after a sequence of calls on its receive buffer. -/
def runBufferCalls (c : ConnectionHolder) (calls : List BufferCall) : ConnectionHolder :=
  calls.foldl BufferCall.run c

/-- A value of `long` arithmetic brought back into the range of 64 bits in two's complement. -/
def wrapLong (x : Int) : Int :=
  (x + 9223372036854775808) % 18446744073709551616 - 9223372036854775808

/-- The name that `ConnectionHolder::SetUsername` generates at time `rawTime` when the counter
has reached `userId`. -/
def autoUsername (rawTime : Int) (userId : Int) : List Char :=
  String.toList "user_" ++ showLong rawTime ++ ['_'] ++ showLong userId

/-- `ConnectionHolder::SetUsername`. `userId` is the function's `static long userId`, `rawTime` the
answer of `::time`; returns the connection and the new value of the counter. -/
def ConnectionHolder.SetUsername (c : ConnectionHolder) (newUsername : List Char) (userId : Int)
    (rawTime : Int) : ConnectionHolder × Int :=
  if newUsername ≠ [] then ({ c with m_username := newUsername }, userId)
  else
    ({ c with m_username := autoUsername rawTime (wrapLong (userId + 1)) }, wrapLong (userId + 1))

/-! ## core/data_processing/message_description.h and the task types -/

/-- A `ConnectionHolderPtr` that is not null: the index of the object in the heap. -/
abbrev ConnectionHolderPtr := Nat

/-- Chat commands. -/
inductive ChatCommandId where
  | CommandHelp
  | CommandListParticipants
  | CommandNickName
  | CommandPrivateMessage
  | CommandQuit
  | CommandIntro
  deriving DecidableEq, Repr

/-- Message context passed between the data processing tasks. -/
structure MessageDescription where
  senderSocket : SocketDescriptor
  sender : Option ConnectionHolderPtr
  receiver : Option ConnectionHolderPtr
  senderName : List Char
  data : List Char
  deriving DecidableEq, Repr

/-- The default constructor of `MessageDescription`. -/
def MessageDescription.new : MessageDescription :=
  { senderSocket := INVALID_DESCRIPTOR, sender := none, receiver := none, senderName := [],
    data := [] }

/-- List of chat messages, `std::list<std::string>`. -/
abbrev MessageList := List (List Char)

/-- The three tasks, each with its member variables. -/
inductive Task where
  | ReceiveDataTask (m_connection : ConnectionHolderPtr)
  | ProcessMessageTask (m_messageDescription : MessageDescription)
  | WriteAnswerTask (m_activeConnections : List ConnectionHolderPtr)
      (m_messageDescription : MessageDescription) (m_messageList : MessageList)
  deriving DecidableEq, Repr

/-- A call of `ConnectionManager::PostFastTask` or `ConnectionManager::PostSlowTask`. -/
inductive Posted where
  | PostFastTask (task : Task)
  | PostSlowTask (task : Task)
  deriving DecidableEq, Repr

/-! ## network/connection/connection_manager.cc -/

/-- Container of the active connections, `std::map<SocketDescriptor, ConnectionHolderPtr>`, as
the list of its entries in iteration order. -/
abbrev ConnectionStorage := List (SocketDescriptor × ConnectionHolderPtr)

/-- The call `m.erase(key)`. -/
def ConnectionStorage.erase (m : ConnectionStorage) (key : SocketDescriptor) : ConnectionStorage :=
  m.filter (fun e => e.1 != key)

/-- The call `m.insert(std::make_pair(key, value))`: ascending key order, an existing key is kept. -/
def ConnectionStorage.insert : ConnectionStorage → SocketDescriptor → ConnectionHolderPtr →
    ConnectionStorage
  | [], key, value => [(key, value)]
  | (k, v) :: rest, key, value =>
    if key < k then (key, value) :: (k, v) :: rest
    else if key = k then (k, v) :: rest
    else (k, v) :: ConnectionStorage.insert rest key value

/-- The call `m.find(key)`, `none` for `end()`. -/
def ConnectionStorage.find (m : ConnectionStorage) (key : SocketDescriptor) :
    Option ConnectionHolderPtr :=
  (List.find? (fun e => e.1 == key) m).map (fun e => e.2)

/-- The process-wide state around the `ConnectionManager` singleton: the `ConnectionHolder`
objects (`heap`, with `heapSize` the number of objects constructed so far), the members
`m_activeConnections` and `m_pendingConnectionsToDelete`, the descriptors registered in the kernel
epoll object and the counter `userId` of `ConnectionHolder::SetUsername`. -/
structure ConnectionManager where
  heap : ConnectionHolderPtr → ConnectionHolder
  heapSize : Nat
  m_activeConnections : ConnectionStorage
  m_pendingConnectionsToDelete : List SocketDescriptor
  epollSet : List SocketDescriptor
  userId : Int

namespace ConnectionManager

/-- Replaces the object behind a pointer. -/
def store (m : ConnectionManager) (p : ConnectionHolderPtr) (c : ConnectionHolder) :
    ConnectionManager :=
  { m with heap := Function.update m.heap p c }

/-- The expression `new ConnectionHolder(...)` for an object already built by the constructor. -/
def alloc (m : ConnectionManager) (c : ConnectionHolder) : ConnectionManager × ConnectionHolderPtr :=
  ({ m with heap := Function.update m.heap m.heapSize c, heapSize := m.heapSize + 1 }, m.heapSize)

/-- `ConnectionManager::RemoveConnection`. -/
def RemoveConnection (m : ConnectionManager) (socket : SocketDescriptor) : ConnectionManager :=
  { m with m_pendingConnectionsToDelete := m.m_pendingConnectionsToDelete ++ [socket] }

/-- `ConnectionManager::AddConnection`; `epollCtl` is the return value of
`::epoll_ctl(EPOLL_CTL_ADD)`. -/
def AddConnection (m : ConnectionManager) (connectionHolder : Option ConnectionHolderPtr)
    (epollCtl : Int) : Except result_code ConnectionManager :=
  match connectionHolder with
  | none => .error .eInvalidArgument
  | some p =>
    if !(m.heap p).IsSocketValid then .error .eInvalidArgument
    else
      let socket := (m.heap p).GetSocketDescriptor
      if epollCtl ≠ 0 then .error .eFail
      else
        .ok { m with
          epollSet := socket :: m.epollSet
          m_activeConnections := (m.m_activeConnections.erase socket).insert socket p }

/-- `ConnectionManager::GetActiveConnections`. -/
def GetActiveConnections (m : ConnectionManager) : List ConnectionHolderPtr :=
  m.m_activeConnections.map (fun e => e.2)

/-- The loop of `FindConnectionByUsername`. -/
def findByUsername (heap : ConnectionHolderPtr → ConnectionHolder) (username : List Char) :
    ConnectionStorage → Option ConnectionHolderPtr
  | [] => none
  | (_, p) :: rest =>
    if (heap p).GetUsername = username then some p else findByUsername heap username rest

/-- `ConnectionManager::FindConnectionByUsername`: the result code and the value of the output
argument `connectionHolder`. -/
def FindConnectionByUsername (m : ConnectionManager) (username : List Char)
    (connectionHolder : Option ConnectionHolderPtr) :
    Except result_code (result_code × Option ConnectionHolderPtr) :=
  if username = [] then .error .eInvalidArgument
  else
    match findByUsername m.heap username m.m_activeConnections with
    | some p => .ok (.sOk, some p)
    | none => .ok (.eNotFound, connectionHolder)

/-- The loop of `SetClientUsername`: `none` when it returns `eAlreadyDefined` from inside the
loop, otherwise the final value of `sourceConnection`. -/
def scanUsernames (heap : ConnectionHolderPtr → ConnectionHolder) (sourceSocket : SocketDescriptor)
    (username : List Char) :
    ConnectionStorage → Option ConnectionHolderPtr → Option (Option ConnectionHolderPtr)
  | [], sourceConnection => some sourceConnection
  | (k, p) :: rest, sourceConnection =>
    if (heap p).GetUsername = username then none
    else if k = sourceSocket then scanUsernames heap sourceSocket username rest (some p)
    else scanUsernames heap sourceSocket username rest sourceConnection

/-- `ConnectionManager::SetClientUsername`; `rawTime` is what `::time` answers to
`ConnectionHolder::SetUsername`. -/
def SetClientUsername (m : ConnectionManager) (sourceSocket : SocketDescriptor)
    (username : List Char) (rawTime : Int) : Except result_code (result_code × ConnectionManager) :=
  if sourceSocket = INVALID_DESCRIPTOR then .error .eInvalidArgument
  else
    match scanUsernames m.heap sourceSocket username m.m_activeConnections none with
    | none => .ok (.eAlreadyDefined, m)
    | some none => .ok (.eNotFound, m)
    | some (some p) =>
      let r := (m.heap p).SetUsername username m.userId rawTime
      .ok (.sOk, { m.store p r.1 with userId := r.2 })

/-- One round of the loop of `ApplyDeleteList`. -/
def applyDelete (m : ConnectionManager) (socket : SocketDescriptor) : ConnectionManager :=
  let m1 := { m with epollSet := m.epollSet.filter (fun fd => fd != socket) }
  match m1.m_activeConnections.find socket with
  | some p =>
    if (m1.heap p).IsConnectionClosed then
      { m1 with m_activeConnections := m1.m_activeConnections.erase socket }
    else m1
  | none => m1

/-- `ConnectionManager::ApplyDeleteList`. -/
def ApplyDeleteList (m : ConnectionManager) : ConnectionManager :=
  if m.m_pendingConnectionsToDelete.length = 0 then m
  else
    { m.m_pendingConnectionsToDelete.foldl applyDelete m with m_pendingConnectionsToDelete := [] }

end ConnectionManager

/-- `ConnectionHolder::Close` on the object behind `self`: sets the closed flag, calls
`RemoveConnection` with the current descriptor and closes the socket wrapper; the `::close` of an
open descriptor takes it out of the epoll set. -/
def ConnectionHolder.Close (m : ConnectionManager) (self : ConnectionHolderPtr) :
    ConnectionManager :=
  let c := m.heap self
  let m1 := (m.store self { c with m_isConnectionClosed := true }).RemoveConnection
    c.m_socketWrapper.GetDescriptor
  let m2 := m1.store self
    { c with m_isConnectionClosed := true, m_socketWrapper := c.m_socketWrapper.Close }
  if c.m_socketWrapper.m_isClosed || c.m_socketWrapper.m_socket == INVALID_DESCRIPTOR then m2
  else { m2 with epollSet := m2.epollSet.filter (fun fd => fd != c.m_socketWrapper.m_socket) }

/-- The lines `new ConnectionHolder(socket, true)` and `AddConnection` of
`NetworkManager::Initialize` for one bound address: the state afterwards and the code of the
exception that ended them, if any. -/
def NetworkManager.addListeningConnection (m : ConnectionManager) (socket : SocketWrapper)
    (epollCtl : Int) : ConnectionManager × Option result_code :=
  match ConnectionHolder.new socket true with
  | .error e => (m, some e)
  | .ok c =>
    let r := m.alloc c
    match r.1.AddConnection (some r.2) epollCtl with
    | .error e => (r.1, some e)
    | .ok m1 => (m1, none)

/-- The lines `new ConnectionHolder(newSocket, false)`, `SetUsername()` and `AddConnection` of
`ConnectionManager::OnConnectionEvent` for one accepted socket: the state afterwards and the code
of the exception that ended them, if any. -/
def ConnectionManager.addAcceptedConnection (m : ConnectionManager) (newSocket : SocketWrapper)
    (rawTime : Int) (epollCtl : Int) : ConnectionManager × Option result_code :=
  match ConnectionHolder.new newSocket false with
  | .error e => (m, some e)
  | .ok c =>
    let named := c.SetUsername [] m.userId rawTime
    let r := { m with userId := named.2 }.alloc named.1
    match r.1.AddConnection (some r.2) epollCtl with
    | .error e => (r.1, some e)
    | .ok m1 => (m1, none)

/-- A call that changes the registry. -/
inductive RegistryCall where
  | addListeningConnection (socket : SocketWrapper) (epollCtl : Int)
  | addAcceptedConnection (newSocket : SocketWrapper) (rawTime : Int) (epollCtl : Int)
  | SetClientUsername (sourceSocket : SocketDescriptor) (username : List Char) (rawTime : Int)
  | Close (connection : ConnectionHolderPtr)
  | ApplyDeleteList
  deriving DecidableEq, Repr

/-- The state after one call that changes the registry. -/
def RegistryCall.run (m : ConnectionManager) : RegistryCall → ConnectionManager
  | .addListeningConnection socket epollCtl =>
    (NetworkManager.addListeningConnection m socket epollCtl).1
  | .addAcceptedConnection newSocket rawTime epollCtl =>
    (m.addAcceptedConnection newSocket rawTime epollCtl).1
  | .SetClientUsername sourceSocket username rawTime =>
    match m.SetClientUsername sourceSocket username rawTime with
    | .ok r => r.2
    | .error _ => m
  | .Close connection => ConnectionHolder.Close m connection
  | .ApplyDeleteList => m.ApplyDeleteList

/-- The state after a sequence of calls that change the registry. -/
def runRegistryCalls (m : ConnectionManager) (calls : List RegistryCall) : ConnectionManager :=
  calls.foldl RegistryCall.run m

/-- The server before any connection exists. -/
def emptyManager : ConnectionManager :=
  { heap := fun _ =>
      { m_socketWrapper := { m_socket := INVALID_DESCRIPTOR, m_isClosed := true },
        m_isListeningSocket := false, m_isConnectionClosed := true, m_socketData := [],
        m_username := [] },
    heapSize := 0, m_activeConnections := [], m_pendingConnectionsToDelete := [],
    epollSet := [], userId := 0 }

/-! ## core/data_processing/write_answer_task.cc -/

/-- A call `WriteDataToSocket(data)` on the connection behind `connection`. -/
structure SocketWrite where
  connection : ConnectionHolderPtr
  data : List Char
  deriving DecidableEq, Repr

/-- Ways in which a call does not return normally. -/
inductive Failure where
  /-- A C++ exception carrying this result code. -/
  | thrown (code : result_code)
  /-- The call `operator->` on an empty `shared_ptr`. -/
  | nullDereference
  /-- The loop was still running when the fuel of the model ran out. -/
  | outOfFuel
  deriving DecidableEq, Repr

namespace WriteAnswerTask

/-- The constructor `WriteAnswerTask(message, messageList)` followed by
`CaptureActiveConnections`, as `PostMultipleMessages` calls them. -/
def newBroadcast (m : ConnectionManager) (message : MessageDescription)
    (messageList : MessageList) : Task :=
  .WriteAnswerTask m.GetActiveConnections { message with sender := none } messageList

/-- The constructor `WriteAnswerTask(message)`. -/
def newSingle (message : MessageDescription) : Task :=
  .WriteAnswerTask [] { message with sender := none } []

/-- The test of the inner loop of `Execute`: no sending to a listening socket nor to the sender
itself. -/
def skips (heap : ConnectionHolderPtr → ConnectionHolder) (senderSocket : SocketDescriptor)
    (it : ConnectionHolderPtr) : Bool :=
  (heap it).IsListeningSocket || (heap it).GetSocketDescriptor == senderSocket

/-- The inner loop of `Execute`: one message over the captured connections. -/
def writeToAll (heap : ConnectionHolderPtr → ConnectionHolder) (senderSocket : SocketDescriptor)
    (msg : List Char) : List ConnectionHolderPtr → List SocketWrite
  | [] => []
  | it :: rest =>
    if skips heap senderSocket it then writeToAll heap senderSocket msg rest
    else { connection := it, data := msg } :: writeToAll heap senderSocket msg rest

/-- The outer loop of `Execute` over the message list. -/
def writeList (heap : ConnectionHolderPtr → ConnectionHolder) (senderSocket : SocketDescriptor)
    (m_activeConnections : List ConnectionHolderPtr) : MessageList → List SocketWrite
  | [] => []
  | msg :: rest =>
    writeToAll heap senderSocket msg m_activeConnections ++
      writeList heap senderSocket m_activeConnections rest

/-- `WriteAnswerTask::Execute`: the calls of `WriteDataToSocket` it makes, in order. -/
def Execute (heap : ConnectionHolderPtr → ConnectionHolder)
    (m_activeConnections : List ConnectionHolderPtr) (m_messageDescription : MessageDescription)
    (m_messageList : MessageList) : Except Failure (List SocketWrite) :=
  if m_messageList ≠ [] then
    .ok (writeList heap m_messageDescription.senderSocket m_activeConnections m_messageList)
  else if m_messageDescription.data ≠ [] then
    match m_messageDescription.receiver with
    | none => .error .nullDereference
    | some r => .ok [{ connection := r, data := m_messageDescription.data }]
  else .ok []

end WriteAnswerTask

/-! ## core/data_processing/process_message_task.h -/

/-- Members of a `ProcessMessageTask`. -/
structure ProcessMessageTask where
  m_messageDescription : MessageDescription
  m_messageList : MessageList
  deriving DecidableEq, Repr

/-- The constructor `ProcessMessageTask(message)`. -/
def ProcessMessageTask.new (message : MessageDescription) :
    Except result_code ProcessMessageTask :=
  let length := message.data.length
  if ¬ (length > 1) then .error .eInvalidArgument
  else if message.data[length - 1]? ≠ some ChatTerminationSymbol then .error .eInvalidArgument
  else .ok { m_messageDescription := message, m_messageList := [] }

/-! ## core/data_processing/receive_data_task.cc -/

/-- `ReceiveDataTask::Execute` on the connection behind `m_connection`; `reads` is what the socket
delivers during the call. Returns the new state and the tasks posted. -/
def ReceiveDataTask.Execute (m : ConnectionManager) (m_connection : ConnectionHolderPtr)
    (reads : List SysRead) : ConnectionManager × List Posted :=
  let currentSocket := (m.heap m_connection).GetSocketDescriptor
  match (m.heap m_connection).ReadAndAppendSocketData reads with
  | (.sOk, c1) =>
    match c1.GetNextSocketData [] with
    | (.sOk, tempString, c2) =>
      if tempString.head? = some ChatTerminationSymbol then (m.store m_connection c2, [])
      else
        let message : MessageDescription :=
          { senderSocket := currentSocket, sender := some m_connection, receiver := none,
            senderName := c2.GetUsername, data := tempString }
        match ProcessMessageTask.new message with
        | .error _ => (m.store m_connection c2, [])
        | .ok task =>
          (m.store m_connection c2, [.PostSlowTask (.ProcessMessageTask task.m_messageDescription)])
    | (_, _, c2) => (m.store m_connection c2, [])
  | (.eBufferOverflow, c1) => (m.store m_connection c1, [])
  | (.eConnectionClosed, c1) => (ConnectionHolder.Close (m.store m_connection c1) m_connection, [])
  | (_, c1) => (m.store m_connection c1, [])

/-- The state after a series of `ReceiveDataTask::Execute` runs on one connection, one per element
of `deliveries`, and all the tasks they posted. -/
def ReceiveDataTask.runAll (m : ConnectionManager) (m_connection : ConnectionHolderPtr) :
    List (List SysRead) → ConnectionManager × List Posted
  | [] => (m, [])
  | reads :: rest =>
    let r := ReceiveDataTask.Execute m m_connection reads
    let r2 := ReceiveDataTask.runAll r.1 m_connection rest
    (r2.1, r.2 ++ r2.2)

/-! ## core/data_processing/process_message_task.cc

### The service message grammar -/

/-- Character class `[A-Za-z]`. -/
def isAlpha (c : Char) : Bool :=
  ('A' ≤ c && c ≤ 'Z') || ('a' ≤ c && c ≤ 'z')

/-- Character class `[A-Za-z0-9]`. -/
def isAlnum (c : Char) : Bool :=
  isAlpha c || ('0' ≤ c && c ≤ '9')

/-- Character class `\s`: space, `\t`, `\n`, `\v`, `\f`, `\r`. -/
def isSpace (c : Char) : Bool :=
  c == ' ' || (9 ≤ c.toNat && c.toNat ≤ 13)

/-- Length of the longest prefix of `s` made of characters of the class `p`. -/
def runLength (p : Char → Bool) (s : List Char) : Nat :=
  (s.takeWhile p).length

/-- The numbers `hi, hi - 1, ..., lo`: the lengths a greedy repetition tries, longest first. -/
def greedy (hi lo : Nat) : List Nat :=
  ((List.range (hi + 1)).reverse).filter (fun k => lo ≤ k)

/-- The end `[\r]?\n$` of `ServiceMessageRegExpression`, matched against all that is left. -/
def matchEnd (s : List Char) : Bool :=
  s == ['\r', '\n'] || s == ['\n']

/-- The part `(\s{1,}.*)?[\r]?\n$` of `ServiceMessageRegExpression`, matched against all that is
left; returns what group 3 captures (empty when the group takes no part). -/
def matchText (s : List Char) : Option (List Char) :=
  ((greedy (runLength isSpace s) 1).findSome? fun k5 =>
    (greedy (s.length - k5) 0).findSome? fun k6 =>
      if matchEnd (s.drop (k5 + k6)) then some (s.take (k5 + k6)) else none)
  <|> (if matchEnd s then some [] else none)

/-- The part `(\s{1,}[A-Za-z0-9]{1,})?(\s{1,}.*)?[\r]?\n$`; returns what groups 2 and 3 capture. -/
def matchArgument (s : List Char) : Option (List Char × List Char) :=
  ((greedy (runLength isSpace s) 1).findSome? fun k3 =>
    (greedy (runLength isAlnum (s.drop k3)) 1).findSome? fun k4 =>
      (matchText (s.drop (k3 + k4))).map fun text => (s.take (k3 + k4), text))
  <|> (matchText s).map fun text => ([], text)

/-- The call `boost::regex_match(serviceMessage, matches, ServiceMessageRegExpression)` for the
expression `^\\([A-Za-z]{1,})\s*(\s{1,}[A-Za-z0-9]{1,})?(\s{1,}.*)?[\r]?\n$`: a backtracking
search that tries the longer repetition and the present group first. Returns `matches.str(1)`,
`matches.str(2)` and `matches.str(3)`, `none` when the message does not match. -/
def regex_match (serviceMessage : List Char) : Option (List Char × List Char × List Char) :=
  match serviceMessage with
  | [] => none
  | c :: r =>
    if c ≠ '\\' then none
    else
      (greedy (runLength isAlpha r) 1).findSome? fun k1 =>
        (greedy (runLength isSpace (r.drop k1)) 0).findSome? fun k2 =>
          (matchArgument (r.drop (k1 + k2))).map fun groups => (r.take k1, groups.1, groups.2)

/-- Whether a call is one that the `\nickname` command can make: it passes to
`SetClientUsername` the trimmed group 2 of `ServiceMessageRegExpression`, a non-empty string of
the class `[A-Za-z0-9]`. -/
def RegistryCall.fromNicknameCommand : RegistryCall → Bool
  | .SetClientUsername _ username _ => username != [] && username.all isAlnum
  | _ => true

/-- What holds of the registry in every state that the calls of `RegistryCall` reach before the
counter of generated names overflows: the counter is not negative, the connections of the registry
are objects constructed before, no object is registered twice, every username is made of letters
and digits or was generated under a counter value not above the current one, and two connections
with the same username both have the empty one. -/
structure RegistryInvariant (m : ConnectionManager) : Prop where
  counter : 0 ≤ m.userId
  allocated : ∀ e ∈ m.m_activeConnections, e.2 < m.heapSize
  distinct : (m.m_activeConnections.map fun e => e.2).Nodup
  names : ∀ e ∈ m.m_activeConnections, (m.heap e.2).m_username.all isAlnum = true ∨
    ∃ (t : Int) (c : Nat), (c : Int) ≤ m.userId ∧ (m.heap e.2).m_username = autoUsername t c
  unique : ∀ e1 ∈ m.m_activeConnections, ∀ e2 ∈ m.m_activeConnections, e1.2 ≠ e2.2 →
    (m.heap e1.2).m_username = (m.heap e2.2).m_username → (m.heap e1.2).m_username = []

/-- The call `boost::trim(s)`. -/
def trim (s : List Char) : List Char :=
  ((s.dropWhile isSpace).reverse.dropWhile isSpace).reverse

/-- The call `boost::to_upper(s)`. -/
def to_upper (s : List Char) : List Char :=
  s.map Char.toUpper

/-- `GetCommandIdByName`; an unknown name throws `eInvalidArgument`. -/
def GetCommandIdByName (commandName : List Char) : Except result_code ChatCommandId :=
  if commandName = String.toList "help" then .ok .CommandHelp
  else if commandName = String.toList "listall" then .ok .CommandListParticipants
  else if commandName = String.toList "nickname" then .ok .CommandNickName
  else if commandName = String.toList "private" then .ok .CommandPrivateMessage
  else if commandName = String.toList "quit" then .ok .CommandQuit
  else if commandName = String.toList "intro" then .ok .CommandIntro
  else .error .eInvalidArgument

/-- The constant `MaxNicknameLength` of `ValidateNickname`. -/
def MaxNicknameLength : Nat := 50

/-- The apostrophe. -/
def apostrophe : Char := Char.ofNat 39

/-- `ValidateNickname`: the result code and the value of the output argument `errorMessage`. -/
def ValidateNickname (nickname : List Char) (errorMessage : List Char) : result_code × List Char :=
  let upperNickname := to_upper nickname
  if nickname = [] || nickname.length > MaxNicknameLength || upperNickname = ServerSenderName then
    (.eInvalidArgument,
      String.toList "Nickname error: \nNickname can contain only letters [a-z] and digits [0-9].\n"
        ++ String.toList "Empty nicknames are not allowed.\n"
        ++ String.toList "Maximum length of nickname is " ++ showLong (Int.ofNat MaxNicknameLength)
        ++ String.toList " symbols.\n"
        ++ String.toList "Nickname cannot be the " ++ [apostrophe] ++ ServerSenderName
        ++ [apostrophe] ++ String.toList " service name.")
  else (.sOk, errorMessage)

/-- The macros of `common/compiled_definitions.h`, a header that is not among the sources. -/
structure CompiledDefinitions where
  CORE_PRODUCT_NAME : List Char
  CORE_VERSION : List Char

/-- What a running `ProcessMessageTask` reads and writes: the process-wide state, its own members
and the tasks posted so far. -/
structure ExecState where
  manager : ConnectionManager
  task : ProcessMessageTask
  posted : List Posted

namespace ProcessMessageTask

/-- Records a call of `ConnectionManager::PostFastTask`. -/
def PostFastTask (st : ExecState) (task : Task) : ExecState :=
  { st with posted := st.posted ++ [.PostFastTask task] }

/-- `PostMultipleMessages`; the constructor of the new task swaps the list out of the caller. -/
def PostMultipleMessages (st : ExecState) : ExecState :=
  let task := WriteAnswerTask.newBroadcast st.manager st.task.m_messageDescription
    st.task.m_messageList
  { PostFastTask st task with task := { st.task with m_messageList := [] } }

/-- `PostSingleMessage`. -/
def PostSingleMessage (st : ExecState) (messageDescription : MessageDescription) : ExecState :=
  PostFastTask st (WriteAnswerTask.newSingle messageDescription)

/-- `PostServerMessage`. -/
def PostServerMessage (st : ExecState) (messageDescription : MessageDescription)
    (text : List Char) : ExecState :=
  PostSingleMessage st
    { messageDescription with
      receiver := messageDescription.sender
      data := ServerSenderName ++ String.toList "> " ++ text ++ [ChatTerminationSymbol] }

/-- `ProcessMessageTask::ProcessChatMessages`. -/
def ProcessChatMessages (st : ExecState) : ExecState :=
  if st.task.m_messageList = [] then st else PostMultipleMessages st

/-- `ProcessMessageTask::StoreChatMessage`. -/
def StoreChatMessage (st : ExecState) (senderName : List Char) (singleChatMessage : List Char) :
    ExecState :=
  { st with task := { st.task with
      m_messageList := st.task.m_messageList ++
        [senderName ++ String.toList "> " ++ singleChatMessage] } }

/-- The text of the `\help` answer. -/
def helpMessage (defs : CompiledDefinitions) : List Char :=
  String.toList "Help message for the " ++ defs.CORE_PRODUCT_NAME ++ String.toList " version "
    ++ defs.CORE_VERSION ++ String.toList ":\n"
    ++ String.toList "\tList of commands available:\n"
    ++ String.toList "\t\\help - produces this help message\n"
    ++ String.toList "\t\\quit - quit chat\n"
    ++ String.toList "\t\\listall - list all active participants\n"
    ++ String.toList "\t\\nickname <new nickname> - change your nickname to a new one\n"
    ++ String.toList "\t\\private <nickname> <message> - post a private message to the dedicated participant"

/-- The loop of the `\listall` command. -/
def listParticipants (heap : ConnectionHolderPtr → ConnectionHolder) :
    List ConnectionHolderPtr → List Char → List Char
  | [], messageText => messageText
  | it :: rest, messageText =>
    if (heap it).IsListeningSocket || (heap it).IsConnectionClosed then
      listParticipants heap rest messageText
    else
      listParticipants heap rest
        (messageText ++ [ChatTerminationSymbol] ++ String.toList " " ++ (heap it).GetUsername)

/-- The text of the `\intro` answer. -/
def introMessage (defs : CompiledDefinitions) (username : List Char) : List Char :=
  String.toList "Hello! You have just entered the chat server (" ++ defs.CORE_PRODUCT_NAME
    ++ String.toList " v" ++ defs.CORE_VERSION ++ String.toList ")."
    ++ String.toList "Your current nickname " ++ [apostrophe] ++ username ++ [apostrophe]
    ++ String.toList " is an auto-generated nickname, you "
    ++ String.toList "may want to use the " ++ [apostrophe] ++ String.toList "\\nickname"
    ++ [apostrophe]
    ++ String.toList " command to change it. For detailed list of available commands and options "
    ++ String.toList "plese use the \\help command." ++ [ChatTerminationSymbol]

/-- `ProcessMessageTask::AssembleServiceMessage`. Every exception it lets escape is thrown
before the call has changed any state. -/
def AssembleServiceMessage (defs : CompiledDefinitions) (rawTime : Int) (st : ExecState)
    (id : ChatCommandId) (commandArgument commandText : List Char) :
    Except Failure (result_code × ExecState) :=
  let md := st.task.m_messageDescription
  match id with
  | .CommandQuit =>
    match md.sender with
    | none => .error .nullDereference
    | some sender =>
      .ok (.eConnectionClosed, { st with manager := ConnectionHolder.Close st.manager sender })
  | .CommandHelp => .ok (.sOk, PostServerMessage st md (helpMessage defs))
  | .CommandListParticipants =>
    let connections := st.manager.GetActiveConnections
    let messageText := listParticipants st.manager.heap connections (String.toList "Active users: ")
    .ok (.sOk, PostServerMessage st md messageText)
  | .CommandNickName =>
    let v := ValidateNickname commandArgument []
    if v.1 ≠ .sOk then .ok (.sOk, PostServerMessage st md v.2)
    else
      let socket := md.senderSocket
      match st.manager.SetClientUsername socket commandArgument rawTime with
      | .error e => .error (.thrown e)
      | .ok (error, manager) =>
        let st1 := { st with manager := manager }
        if error = .eAlreadyDefined then
          .ok (.sOk, PostServerMessage st1 md
            (String.toList "Nickname " ++ [apostrophe] ++ commandArgument ++ [apostrophe]
              ++ String.toList " is already in use. Please try another one."))
        else if error ≠ .sOk then .ok (error, st1)
        else
          let st2 := PostServerMessage st1 md (String.toList "ok.")
          let messageText := String.toList "User " ++ [apostrophe] ++ md.senderName
            ++ [apostrophe] ++ String.toList " is now known as " ++ [apostrophe]
            ++ commandArgument ++ [apostrophe] ++ [ChatTerminationSymbol]
          let st3 := StoreChatMessage st2 ServerSenderName messageText
          .ok (.sOk, { st3 with task := { st3.task with
            m_messageDescription := { md with senderName := commandArgument } } })
  | .CommandPrivateMessage =>
    if commandArgument = md.senderName then
      .ok (.sOk, PostServerMessage st md
        (String.toList "Private loop-back messages are not allowed."))
    else
      let v := ValidateNickname commandArgument []
      if v.1 ≠ .sOk then .ok (.sOk, PostServerMessage st md v.2)
      else
        match st.manager.FindConnectionByUsername commandArgument md.receiver with
        | .error e => .error (.thrown e)
        | .ok (error, receiver) =>
          let md1 := { md with receiver := receiver }
          let st1 := { st with task := { st.task with m_messageDescription := md1 } }
          if error = .eNotFound then
            .ok (.sOk, PostServerMessage st1 md1
              (String.toList "User with the nickname " ++ [apostrophe] ++ commandArgument
                ++ [apostrophe] ++ String.toList " doesn" ++ [apostrophe]
                ++ String.toList "t exist."))
          else
            .ok (.sOk, PostSingleMessage st1
              { md1 with data := md1.senderName ++ String.toList ":private> " ++ commandText
                  ++ [ChatTerminationSymbol] })
  | .CommandIntro =>
    if md.senderName ≠ ServerSenderName then .ok (.eFail, st)
    else
      match md.receiver with
      | none => .error .nullDereference
      | some receiver =>
        let md1 := { md with
          data := md.senderName ++ String.toList "> "
            ++ introMessage defs (st.manager.heap receiver).GetUsername }
        let st1 := { st with task := { st.task with m_messageDescription := md1 } }
        .ok (.sOk, PostSingleMessage st1 md1)

/-- `ProcessMessageTask::ProcessServiceMessage`; its `catch` turns an exception into the result
code that the exception carries. -/
def ProcessServiceMessage (defs : CompiledDefinitions) (rawTime : Int) (st : ExecState)
    (serviceMessage : List Char) : Except Failure (result_code × ExecState) :=
  match regex_match serviceMessage with
  | none => .ok (.eFail, st)
  | some (chatCommand, argument, commandText) =>
    let commandArgument := trim argument
    match GetCommandIdByName chatCommand with
    | .error e => .ok (e, st)
    | .ok id =>
      match AssembleServiceMessage defs rawTime st id commandArgument commandText with
      | .error (.thrown e) => .ok (e, st)
      | .error f => .error f
      | .ok r => .ok r

/-- The body of the loop of `Execute` for one piece of the data, up to the update of
`terminationPosition`; the `Bool` tells whether the loop is left by `break`. -/
def dispatch (defs : CompiledDefinitions) (rawTime : Int) (st : ExecState)
    (singleChatMessage : List Char) : Except Failure (Bool × ExecState) :=
  if singleChatMessage.head? = some ChatServiceSymbol then
    match ProcessServiceMessage defs rawTime (ProcessChatMessages st) singleChatMessage with
    | .error f => .error f
    | .ok (error, st1) =>
      if error = .eConnectionClosed then .ok (true, st1)
      else if error ≠ .sOk then
        .ok (false, StoreChatMessage st1 st1.task.m_messageDescription.senderName singleChatMessage)
      else .ok (false, st1)
  else .ok (false, StoreChatMessage st st.task.m_messageDescription.senderName singleChatMessage)

/-- The value of `data.find(ChatTerminationSymbol, i) + 1` in `size_t` arithmetic: `npos + 1`
wraps to 0. -/
def nextTerminationPosition (data : List Char) (i : Nat) : Nat :=
  match find data ChatTerminationSymbol i with
  | some k => k + 1
  | none => 0

/-- The `for` loop of `Execute`, at most `fuel` rounds of it. -/
def executeLoop (defs : CompiledDefinitions) (rawTime : Int) :
    Nat → Nat → Nat → ExecState → Except Failure ExecState
  | 0, i, _, st =>
    if i < st.task.m_messageDescription.data.length then .error .outOfFuel else .ok st
  | fuel + 1, i, terminationPosition, st =>
    if i < st.task.m_messageDescription.data.length then
      let singleChatMessage := substr st.task.m_messageDescription.data i terminationPosition
      match dispatch defs rawTime st singleChatMessage with
      | .error f => .error f
      | .ok (true, st1) => .ok st1
      | .ok (false, st1) =>
        let terminationPosition := nextTerminationPosition st1.task.m_messageDescription.data i
        executeLoop defs rawTime fuel (i + terminationPosition) terminationPosition st1
    else .ok st

/-- `ProcessMessageTask::Execute` with `fuel` bounding the rounds of its loop. -/
def Execute (defs : CompiledDefinitions) (rawTime : Int) (fuel : Nat) (m : ConnectionManager)
    (task : ProcessMessageTask) : Except Failure ExecState :=
  let st : ExecState := { manager := m, task := task, posted := [] }
  match executeLoop defs rawTime fuel 0
      (nextTerminationPosition task.m_messageDescription.data 0) st with
  | .error f => .error f
  | .ok st1 => .ok (ProcessChatMessages st1)

/-- The pieces that the loop of `Execute` cuts out of `data` while `data` stays the same: the
index arithmetic of the loop without the dispatch; `none` when `fuel` rounds do not reach the end
of the data. -/
def cutLoop (data : List Char) : Nat → Nat → Nat → Option (List (List Char))
  | 0, i, _ => if i < data.length then none else some []
  | fuel + 1, i, terminationPosition =>
    if i < data.length then
      (cutLoop data fuel (i + nextTerminationPosition data i)
        (nextTerminationPosition data i)).map
        fun rest => substr data i terminationPosition :: rest
    else some []

/-- The pieces that the loop of `Execute` cuts out of `data`, from its start. -/
def pieces (data : List Char) (fuel : Nat) : Option (List (List Char)) :=
  cutLoop data fuel 0 (nextTerminationPosition data 0)

/-- The state after `StoreChatMessage` under the current sender name for each of the pieces. -/
def storeAll (st : ExecState) (chunks : List (List Char)) : ExecState :=
  chunks.foldl (fun s x => StoreChatMessage s s.task.m_messageDescription.senderName x) st

/-- The values of `i` and `terminationPosition` with which the loop of `Execute` cuts its pieces
out of `data` while `data` stays the same, round by round: the piece of a round is
`data.substr(i, terminationPosition)`. -/
def cutPositions (data : List Char) : Nat → Nat → Nat → Option (List (Nat × Nat))
  | 0, i, _ => if i < data.length then none else some []
  | fuel + 1, i, terminationPosition =>
    if i < data.length then
      (cutPositions data fuel (i + nextTerminationPosition data i)
        (nextTerminationPosition data i)).map
        fun rest => (i, terminationPosition) :: rest
    else some []

/-- The rounds of the loop of `Execute` for the pieces of a list in turn, up to the round that
leaves the loop by `break`. -/
def dispatchAll (defs : CompiledDefinitions) (rawTime : Int) :
    ExecState → List (List Char) → Except Failure ExecState
  | st, [] => .ok st
  | st, singleChatMessage :: rest =>
    match dispatch defs rawTime st singleChatMessage with
    | .error f => .error f
    | .ok (true, st1) => .ok st1
    | .ok (false, st1) => dispatchAll defs rawTime st1 rest

/-- The user name that `AssembleServiceMessage` passes to `ConnectionManager::SetClientUsername`.
The one call of `SetClientUsername` stands in the case `CommandNickName`, behind the test of
`ValidateNickname`, and gets `commandArgument`; `none` when the call is not reached. -/
def usernamePassedByCommand (id : ChatCommandId) (commandArgument : List Char) :
    Option (List Char) :=
  match id with
  | .CommandNickName =>
    if (ValidateNickname commandArgument []).1 ≠ .sOk then none else some commandArgument
  | _ => none

/-- The user name that `ProcessServiceMessage` passes, through `AssembleServiceMessage`, to
`ConnectionManager::SetClientUsername` for a service message; `none` when it makes no call. -/
def usernamePassed (serviceMessage : List Char) : Option (List Char) :=
  match regex_match serviceMessage with
  | none => none
  | some (chatCommand, argument, _) =>
    match GetCommandIdByName chatCommand with
    | .error _ => none
    | .ok id => usernamePassedByCommand id (trim argument)

end ProcessMessageTask

/-! ## tools/thread_pool/thread_pool.cc

The pool is generic in the type `α` of its tasks (`ThreadTask`, a `boost::function<void()>`).
Each worker thread is followed through `WorkerQueue::ProcessTasks` by the place where it stands;
the code between two such places runs as one step. -/

/-- Where the thread of a `WorkerQueue` stands in `WorkerQueue::ProcessTasks`. -/
inductive WorkerAt (α : Type) where
  /-- At the test `!m_shutdownRequested` of the `while` loop. -/
  | loopTest
  /-- At the entry of `ThreadPool::TryGetNewTask`, about to take the lock. -/
  | tryGetNewTask
  /-- Inside `m_threadBarrierSync.wait()` of `NotifyWorkerStarted`, called by
  `ThreadPool::TryGetNewTask`. -/
  | barrier
  /-- Inside `m_queueEvent.wait(lock)` of `ThreadPool::TryGetNewTask`. -/
  | wait
  /-- Inside the call `task()` of the task it dequeued. -/
  | task (t : α)
  /-- After the loop: `ProcessTasks` has returned. -/
  | returned
  deriving DecidableEq, Repr

/-- State of a `ThreadPool::WorkerQueue`: its flag and the place of its thread `m_workerThread`. -/
structure WorkerQueue (α : Type) where
  m_shutdownRequested : Bool
  m_workerThread : WorkerAt α
  deriving DecidableEq, Repr

/-- `WorkerQueue::Shutdown`: it sets the flag of the worker and waits up to five seconds for the
thread, which goes on by its own steps. -/
def WorkerQueue.Shutdown {α : Type} (w : WorkerQueue α) : WorkerQueue α :=
  { w with m_shutdownRequested := true }

/-- State of a `ThreadPool`. -/
structure ThreadPool (α : Type) where
  m_taskList : List α
  m_workerQueueStorage : List (WorkerQueue α)
  m_maxThreadCount : Int
  m_shutdownRequested : Bool
  m_isPoolInitialized : Bool
  deriving DecidableEq, Repr

/-- How a run of `ThreadPool::TryGetNewTask` ends: with a `return`, or inside one of the two
blocking calls of its loop. -/
inductive TryGetNewTaskResult (α : Type) where
  /-- The call returned `code`; `newTask` is what it assigned to its output argument, if anything. -/
  | returned (code : result_code) (newTask : Option α)
  /-- The thread is inside `caller->NotifyWorkerStarted()`, at the barrier. -/
  | notifying
  /-- The thread is inside `m_queueEvent.wait(lock)`. -/
  | waiting
  deriving DecidableEq, Repr

namespace ThreadPool

variable {α : Type}

/-- The constructor `ThreadPool(maxThreadCount)`. -/
def new (maxThreadCount : Int) : ThreadPool α :=
  { m_taskList := [], m_workerQueueStorage := [], m_maxThreadCount := maxThreadCount,
    m_shutdownRequested := false, m_isPoolInitialized := false }

/-- `ThreadPool::Initialize`. `WorkerQueue::Initialize` starts the thread of the new worker and
waits at the barrier until that thread calls `NotifyWorkerStarted`, which it does in
`TryGetNewTask` when it finds the queue empty and the pool not initialized, just before it waits.
The result is `none` in the states where the return of the call is not settled by the state of
the pool: on an initialized pool the new thread never reaches the barrier, and with tasks in the
queue it runs them first. -/
def Initialize (pool : ThreadPool α) : Option (ThreadPool α) :=
  if pool.m_maxThreadCount ≤ 0 then some { pool with m_isPoolInitialized := true }
  else if pool.m_isPoolInitialized || !pool.m_taskList.isEmpty then none
  else
    some { pool with
      m_workerQueueStorage := pool.m_workerQueueStorage ++
        List.replicate pool.m_maxThreadCount.toNat
          { m_shutdownRequested := false, m_workerThread := .wait }
      m_isPoolInitialized := true }

/-- `ThreadPool::AddTask`; the exception carries `eNotReady`. -/
def AddTask (pool : ThreadPool α) (task : α) : Except result_code (ThreadPool α) :=
  if !pool.m_isPoolInitialized then .error .eNotReady
  else if pool.m_shutdownRequested then .ok pool
  else .ok { pool with m_taskList := pool.m_taskList ++ [task] }

/-- `ThreadPool::TryGetNewTask` from the moment the caller holds the lock up to its `return` or
its next blocking call. With `afterWait = false` the run starts at the entry of the function,
with `afterWait = true` at the return of `m_queueEvent.wait(lock)`, where the test of
`m_shutdownRequested` stands. -/
def TryGetNewTask (pool : ThreadPool α) (afterWait : Bool) :
    ThreadPool α × TryGetNewTaskResult α :=
  if afterWait && pool.m_shutdownRequested then (pool, .returned .eNotFound none)
  else
    match pool.m_taskList with
    | [] => if !pool.m_isPoolInitialized then (pool, .notifying) else (pool, .waiting)
    | newTask :: rest => ({ pool with m_taskList := rest }, .returned .sOk (some newTask))

/-- The condition of the `if` of `ThreadPool::Shutdown`. -/
def shutdownApplies (pool : ThreadPool α) : Bool :=
  !pool.m_shutdownRequested && pool.m_isPoolInitialized

/-- The line `m_shutdownRequested = true` of `ThreadPool::Shutdown`. -/
def requestShutdown (pool : ThreadPool α) : ThreadPool α :=
  { pool with m_shutdownRequested := true }

/-- The call `(*it)->Shutdown()` of the loop of `ThreadPool::Shutdown` for the worker of index
`i`. -/
def shutdownWorker (pool : ThreadPool α) (i : Nat) : ThreadPool α :=
  { pool with m_workerQueueStorage := pool.m_workerQueueStorage.modify WorkerQueue.Shutdown i }

/-- The line `m_isPoolInitialized = false` of `ThreadPool::Shutdown`. -/
def finishShutdown (pool : ThreadPool α) : ThreadPool α :=
  { pool with m_isPoolInitialized := false }

/-- `ThreadPool::Shutdown` from its call to its return, as far as the members of the pool and the
flags of the workers go. -/
def Shutdown (pool : ThreadPool α) : ThreadPool α :=
  if pool.shutdownApplies then
    finishShutdown
      ((List.range pool.m_workerQueueStorage.length).foldl shutdownWorker (requestShutdown pool))
  else pool

/-- The next step of the thread of the worker of index `i` in `WorkerQueue::ProcessTasks`. A
thread inside `wait` makes its step when it is woken up; a thread at the barrier stays there,
since the other party of the barrier is `WorkerQueue::Initialize`, or `NotifyWorkerStarted`
called by the same thread. -/
def ProcessTasksStep (pool : ThreadPool α) (i : Nat) : ThreadPool α :=
  match pool.m_workerQueueStorage[i]? with
  | none => pool
  | some w =>
    let moveTo := fun (p : ThreadPool α) (place : WorkerAt α) =>
      { p with m_workerQueueStorage :=
          p.m_workerQueueStorage.set i { w with m_workerThread := place } }
    let afterCall := fun (r : ThreadPool α × TryGetNewTaskResult α) =>
      match r.2 with
      | .notifying => moveTo r.1 .barrier
      | .waiting => moveTo r.1 .wait
      | .returned .sOk (some t) => moveTo r.1 (.task t)
      | .returned _ _ => moveTo r.1 .returned
    match w.m_workerThread with
    | .loopTest => moveTo pool (if w.m_shutdownRequested then .returned else .tryGetNewTask)
    | .tryGetNewTask => afterCall (pool.TryGetNewTask false)
    | .barrier => pool
    | .wait => afterCall (pool.TryGetNewTask true)
    | .task _ => moveTo pool .loopTest
    | .returned => pool

/-- The call `AddTask(task)` for each task of a list in turn, up to the first exception. -/
def addTasks (pool : ThreadPool α) : List α → Except result_code (ThreadPool α)
  | [] => .ok pool
  | task :: rest =>
    match pool.AddTask task with
    | .error e => .error e
    | .ok pool1 => addTasks pool1 rest

/-- The tasks that `n` calls of `TryGetNewTask` in a row hand out, up to the first call that
does not return a task. -/
def takeTasks (pool : ThreadPool α) : Nat → List α
  | 0 => []
  | n + 1 =>
    match pool.TryGetNewTask false with
    | (pool1, .returned .sOk (some newTask)) => newTask :: takeTasks pool1 n
    | _ => []

end ThreadPool

/-- A pool together with the place of the thread that runs `ThreadPool::Shutdown`, if one does:
`some k` when that thread stands before the round of the loop for the worker of index `k`, or
before the last line when `k` is the number of workers. -/
structure RunningPool (α : Type) where
  pool : ThreadPool α
  shutdownAt : Option Nat
  deriving DecidableEq, Repr

/-- A step of one of the threads that work on a `ThreadPool`. -/
inductive PoolStep (α : Type) where
  /-- The call `Initialize()`. -/
  | Initialize
  /-- The call `AddTask(task)`. -/
  | AddTask (task : α)
  /-- A thread calls `Shutdown()`: it passes the `if` and sets `m_shutdownRequested`, or it
  returns at once. -/
  | Shutdown
  /-- The thread inside `Shutdown()` makes its next step: the call `Shutdown()` of the next
  worker, or the last line and the return. -/
  | shutdownStep
  /-- The thread of the worker of index `i` makes its next step. -/
  | worker (i : Nat)
  deriving DecidableEq, Repr

/-- The state after one step; a call that throws or does not return leaves the pool as it is. -/
def PoolStep.run {α : Type} (s : RunningPool α) : PoolStep α → RunningPool α
  | .Initialize => { s with pool := (s.pool.Initialize).getD s.pool }
  | .AddTask task =>
    match s.pool.AddTask task with
    | .ok pool1 => { s with pool := pool1 }
    | .error _ => s
  | .Shutdown =>
    if s.pool.shutdownApplies then { pool := s.pool.requestShutdown, shutdownAt := some 0 }
    else s
  | .shutdownStep =>
    match s.shutdownAt with
    | none => s
    | some k =>
      if k < s.pool.m_workerQueueStorage.length then
        { pool := s.pool.shutdownWorker k, shutdownAt := some (k + 1) }
      else { pool := s.pool.finishShutdown, shutdownAt := none }
  | .worker i => { s with pool := s.pool.ProcessTasksStep i }

/-- The state after a sequence of steps of a pool just constructed for `maxThreadCount`
threads. -/
def runPoolSteps {α : Type} (maxThreadCount : Int) (steps : List (PoolStep α)) : RunningPool α :=
  steps.foldl PoolStep.run { pool := ThreadPool.new maxThreadCount, shutdownAt := none }

/-! ## Concrete states used to evaluate the definitions -/

/-- An open connection with an empty receive buffer. -/
def exampleConnection (socket : SocketDescriptor) (isListeningSocket : Bool)
    (username : List Char) : ConnectionHolder :=
  { m_socketWrapper := { m_socket := socket, m_isClosed := false },
    m_isListeningSocket := isListeningSocket, m_isConnectionClosed := false, m_socketData := [],
    m_username := username }

/-- Three objects: the listening connection on descriptor 3 and the clients `alice` on 5 and
`bob` on 6. -/
def exampleHeap : ConnectionHolderPtr → ConnectionHolder
  | 0 => exampleConnection 3 true []
  | 1 => exampleConnection 5 false (String.toList "alice")
  | 2 => exampleConnection 6 false (String.toList "bob")
  | _ => exampleConnection 0 false []

/-- A server with the three connections of `exampleHeap` registered. -/
def exampleManager : ConnectionManager :=
  { heap := exampleHeap, heapSize := 3, m_activeConnections := [(3, 0), (5, 1), (6, 2)],
    m_pendingConnectionsToDelete := [], epollSet := [6, 5, 3], userId := 2 }

/-- Values for the macros of `compiled_definitions.h`. -/
def exampleDefinitions : CompiledDefinitions :=
  { CORE_PRODUCT_NAME := String.toList "chat_server", CORE_VERSION := String.toList "1.0" }

/-- The message context that `ReceiveDataTask::Execute` builds for data received from `alice`. -/
def exampleMessage (data : List Char) : MessageDescription :=
  { senderSocket := 5, sender := some 1, receiver := none, senderName := String.toList "alice",
    data := data }

/-- The message context that `ConnectionManager::OnConnectionEvent` builds for the `\intro` task
of the client `alice`, accepted on descriptor 5. -/
def introRequest : MessageDescription :=
  { senderSocket := 5, sender := none, receiver := some 1, senderName := ServerSenderName,
    data := String.toList "\\intro\n" }

/-- A frame of 8192 bytes, terminator included, as the socket delivers it in nine reads. -/
def frame8192 : List (List Char) :=
  List.replicate 8 (List.replicate 1000 'a') ++ [List.replicate 191 'a' ++ [ChatTerminationSymbol]]

/-- A start of the server with one bound address, two accepted clients of which the first takes
the name `alice`, and the removal of the second. -/
def exampleCalls : List RegistryCall :=
  [.addListeningConnection { m_socket := 3, m_isClosed := false } 0,
    .addAcceptedConnection { m_socket := 5, m_isClosed := false } 1700000000 0,
    .addAcceptedConnection { m_socket := 6, m_isClosed := false } 1700000000 0,
    .SetClientUsername 5 (String.toList "alice") 1700000001,
    .Close 2, .ApplyDeleteList]

/-- A client takes, through a direct call of `SetClientUsername`, the name that `SetUsername()`
generates for the next accepted client. -/
def nameTakenInAdvance : List RegistryCall :=
  [.addAcceptedConnection { m_socket := 5, m_isClosed := false } 1700000000 0,
    .SetClientUsername 5 (String.toList "user_1700000000_2") 1700000000,
    .addAcceptedConnection { m_socket := 6, m_isClosed := false } 1700000000 0]

/-- A start of the server with two bound addresses, as `NetworkManager::Initialize` does it for
an interface with two addresses. -/
def twoListeningConnections : List RegistryCall :=
  [.addListeningConnection { m_socket := 3, m_isClosed := false } 0,
    .addListeningConnection { m_socket := 4, m_isClosed := false } 0]

/-- Nine thousand bytes without a terminator, as the socket delivers them in nine reads. -/
def nineThousandBytes : List (List Char) :=
  List.replicate 9 (List.replicate 1000 'a')

/-- The registry with the close of `alice` pending, and with the descriptor of `bob`, whose
connection is open, in the pending list as well. -/
def pendingManager : ConnectionManager :=
  (ConnectionHolder.Close exampleManager 1).RemoveConnection 6

/-- One cycle in which the client on descriptor 5 is closed and `accept` hands out the number 5
again for the next client before `ApplyDeleteList` runs. -/
def descriptorReusedInCycle : List RegistryCall :=
  [.addListeningConnection { m_socket := 3, m_isClosed := false } 0,
    .addAcceptedConnection { m_socket := 5, m_isClosed := false } 1700000000 0,
    .ApplyDeleteList,
    .Close 1,
    .addAcceptedConnection { m_socket := 5, m_isClosed := false } 1700000001 0,
    .ApplyDeleteList]

/-- A pool of one worker: two tasks are added, the worker takes the first, `Shutdown` sets the
flag of the pool, and the worker ends the first task and comes back for the next. -/
def shutdownWhileWorking : List (PoolStep Nat) :=
  [.Initialize, .AddTask 10, .AddTask 20, .worker 0, .Shutdown, .worker 0, .worker 0]

/-- A pool of two workers after `Initialize`: both threads wait for a task. -/
def examplePool : ThreadPool Nat :=
  { m_taskList := [],
    m_workerQueueStorage :=
      [{ m_shutdownRequested := false, m_workerThread := .wait },
        { m_shutdownRequested := false, m_workerThread := .wait }],
    m_maxThreadCount := 2, m_shutdownRequested := false, m_isPoolInitialized := true }

end ChatServer

namespace RegisterServer

open ChatServer (nul findFirst substr cstr isAlpha isAlnum trim)

/-! ## Stream and string operations used by the register servers -/

/-- The lines that successive calls of `std::getline(is, line)` deliver from a stream holding
the given bytes, up to and including the call that sets `eofbit`. A call that finds a line feed
delivers the bytes before it and leaves `eofbit` clear; the call that reaches the end of the
stream delivers what is left, which is the empty line when the stream is empty or ends with a
line feed, and sets `eofbit`. -/
def getlines : List Char → List (List Char)
  | [] => [[]]
  | c :: rest =>
    if c = '\n' then [] :: getlines rest
    else
      match getlines rest with
      | line :: more => (c :: line) :: more
      | [] => [[c]]

/-- The call `s.find(str)` with a string argument: the first index at which `str` starts in
`s`, `none` for `npos`. -/
def findStr : List Char → List Char → Option Nat
  | [], str => if str = [] then some 0 else none
  | c :: s, str =>
    if str.isPrefixOf (c :: s) then some 0 else (findStr s str).map (· + 1)

/-- Character class `[[:blank:]]` of the regular expressions and `blank_p` of the parser: space
and tab. -/
def isBlank (c : Char) : Bool :=
  c == ' ' || c == '\t'

/-! ## user_register_server_#2/datafile.cpp -/

/-- Maximum number of records allowed to be stored in the file. -/
def MAX_RECORDS_ALLOWED : Nat := 100

/-- Possible error codes returned by request functions (`DataFile::ErrorCode`). -/
inductive ErrorCode where
  | E_OK
  | E_ERROR
  | E_NOT_FOUND
  | E_OVERLOADED
  | E_INVALID
  | E_CONFLICT
  | E_UNAVAILABLE
  deriving DecidableEq, Repr

/-- `trimSpaces`: trims spaces and tab characters at the beginning and at the end of the
string. -/
def trimSpaces (str : List Char) : List Char :=
  match str.dropWhile isBlank with
  | [] => []
  | c :: rest => ((c :: rest).reverse.dropWhile isBlank).reverse

/-- `validateUsername`: the trimmed name, and whether `boost::regex_match` accepts it for the
expression `[^;\r\n]+`. -/
def validateUsername (username : List Char) : Bool × List Char :=
  (!(trimSpaces username).isEmpty &&
      (trimSpaces username).all (fun c => c != ';' && c != '\r' && c != '\n'),
    trimSpaces username)

/-- Character class `[a-zA-Z0-9_\.]`. -/
def isLocalPartChar (c : Char) : Bool :=
  isAlnum c || c == '_' || c == '.'

/-- Whether the whole of `s` matches `([a-zA-Z0-9]+\.)+[a-zA-Z]{2,4}` when `labels` groups
`[a-zA-Z0-9]+\.` were matched before and `run` holds the bytes read since the last dot. A dot
can only be matched by the `\.` that ends a group, so that every dot ends a non-empty
alphanumeric group and what follows the last dot is the part `[a-zA-Z]{2,4}`. -/
def matchDomain : List Char → Nat → List Char → Bool
  | [], labels, run =>
    decide (1 ≤ labels) && decide (2 ≤ run.length) && decide (run.length ≤ 4) && run.all isAlpha
  | c :: s, labels, run =>
    if c = '.' then !run.isEmpty && run.all isAlnum && matchDomain s (labels + 1) []
    else matchDomain s labels (run ++ [c])

/-- Whether `boost::regex_match` accepts `email` for the expression
`[a-zA-Z0-9_\.]+@([a-zA-Z0-9]+\.)+[a-zA-Z]{2,4}`. The class of the first part does not hold
`@`, so that the first part of a match is the longest run of that class. -/
def matchEmail (email : List Char) : Bool :=
  !(email.takeWhile isLocalPartChar).isEmpty &&
    match email.dropWhile isLocalPartChar with
    | c :: domain => c == '@' && matchDomain domain 0 []
    | [] => false

/-- `validateEmail`: the trimmed e-mail, and whether the regular expression accepts it. -/
def validateEmail (email : List Char) : Bool × List Char :=
  (matchEmail (trimSpaces email), trimSpaces email)

/-- The call `strncasecmp(s1, s2, n)` on the C strings stored in `s1` and `s2`, in the "C"
locale: the difference of the first pair of bytes that differ after lowering, 0 when the first
`n` bytes or the bytes up to a common zero byte agree. A list that ends is followed by the zero
byte of `c_str()`. -/
def strncasecmp : List Char → List Char → Nat → Int
  | _, _, 0 => 0
  | s1, s2, n + 1 =>
    if (s1.headD nul).toLower ≠ (s2.headD nul).toLower then
      ((s1.headD nul).toLower.toNat : Int) - ((s2.headD nul).toLower.toNat : Int)
    else if s1.headD nul = nul then 0
    else strncasecmp s1.tail s2.tail n

/-- `findUser` on the lines that `getline` delivers until `eofbit` is set: whether a record of
`user` was found, the e-mail of that record, and the number of lines read, counted from
`linesRead`. The source counts in an `int`; the count here agrees with it while it stays below
2^31. -/
def findUser (user : List Char) : List (List Char) → Nat → Bool × List Char × Nat
  | [], linesRead => (false, [], linesRead)
  | line :: more, linesRead =>
    match findFirst line ';' with
    | none => findUser user more (linesRead + 1)
    | some delimPos =>
      if (substr line 0 delimPos).length = user.length ∧
          strncasecmp (substr line 0 delimPos) user (substr line 0 delimPos).length = 0 then
        (true, line.drop (delimPos + 1), linesRead + 1)
      else findUser user more (linesRead + 1)

/-- The test of `findUser` on one line: the line holds a `;`, and the bytes before the first
`;` have the length of `user` and compare equal to it under `strncasecmp`. -/
def isRecordOf (user line : List Char) : Bool :=
  match findFirst line ';' with
  | none => false
  | some delimPos =>
    decide ((substr line 0 delimPos).length = user.length ∧
      strncasecmp (substr line 0 delimPos) user (substr line 0 delimPos).length = 0)

/-- `checkUser`: `findUser` without the e-mail. -/
def checkUser (lines : List (List Char)) (user : List Char) (linesRead : Nat) : Bool × Nat :=
  ((findUser user lines linesRead).1, (findUser user lines linesRead).2.2)

/-- `findEmail`: `findUser` without the line count; `emailOut` keeps its value when no record
is found. -/
def findEmail (lines : List (List Char)) (user : List Char) (emailOut : List Char) :
    Bool × List Char :=
  if (findUser user lines 0).1 then (true, (findUser user lines 0).2.1) else (false, emailOut)

namespace DataFile

/-- `DataFile::registerUser`. `file` holds the bytes of the data file, `none` when the file
cannot be opened for reading and writing; `writeOk` tells whether the stream is good after the
record was written. Returns the error code and the bytes of the file after the call. The write
takes place where the reading stopped, which is the end of the file. -/
def registerUser (file : Option (List Char)) (writeOk : Bool) (user mail : List Char) :
    ErrorCode × Option (List Char) :=
  if !(validateUsername user).1 then (.E_INVALID, file)
  else if !(validateEmail mail).1 then (.E_INVALID, file)
  else
    match file with
    | none => (.E_UNAVAILABLE, file)
    | some contents =>
      if !(checkUser (getlines contents) (validateUsername user).2 0).1 then
        if (checkUser (getlines contents) (validateUsername user).2 0).2 > MAX_RECORDS_ALLOWED then
          (.E_OVERLOADED, file)
        else if writeOk then
          (.E_OK,
            some (contents ++ (validateUsername user).2 ++ [';'] ++ (validateEmail mail).2
              ++ ['\n']))
        else (.E_UNAVAILABLE, file)
      else (.E_CONFLICT, file)

/-- `DataFile::getEmail`: the error code and the value of `retEmail` after the call. -/
def getEmail (file : Option (List Char)) (username retEmail : List Char) :
    ErrorCode × List Char :=
  match file with
  | none => (.E_UNAVAILABLE, retEmail)
  | some contents =>
    if !(findEmail (getlines contents) username retEmail).1 then
      (.E_NOT_FOUND, (findEmail (getlines contents) username retEmail).2)
    else (.E_OK, (findEmail (getlines contents) username retEmail).2)

/-- A sequence of calls of `registerUser` on one data file, each with its answer `writeOk`, its
user name and its e-mail: the bytes of the data file after the calls. -/
def registerUsers (file : Option (List Char)) :
    List (Bool × List Char × List Char) → Option (List Char)
  | [] => file
  | call :: calls => registerUsers (registerUser file call.1 call.2.1 call.2.2).2 calls

end DataFile

/-- The line `<user>;<email>` of a record. -/
def record (entry : List Char × List Char) : List Char :=
  entry.1 ++ ';' :: entry.2

/-- The bytes of a data file that holds the given lines, each ended by a line feed. -/
def fileOf (lines : List (List Char)) : List Char :=
  (lines.map fun line => line ++ ['\n']).flatten

/-! ## user_register_server_#2/request.cpp -/

def RESP_OK : List Char := String.toList "200 OK"
def RESP_CONFLICT : List Char := String.toList "409 Conflict"
def RESP_NOT_FOUND : List Char := String.toList "404 Not Found"
def RESP_NOT_ACCEPTABLE : List Char := String.toList "406 Not Acceptable"
def RESP_OVERLOADED : List Char := String.toList "405 Overloaded"
def RESP_BAD_REQUEST : List Char := String.toList "400 Bad request"
def RESP_UNAVAILABLE : List Char := String.toList "503 Service unavailable"

/-- `errorToResponse`: fills the text response according to the code. -/
def errorToResponse : ErrorCode → List Char
  | .E_OK => RESP_OK
  | .E_ERROR => RESP_BAD_REQUEST
  | .E_NOT_FOUND => RESP_NOT_FOUND
  | .E_OVERLOADED => RESP_OVERLOADED
  | .E_INVALID => RESP_NOT_ACCEPTABLE
  | .E_CONFLICT => RESP_CONFLICT
  | .E_UNAVAILABLE => RESP_UNAVAILABLE

/-- A literal of a regular expression compiled with `icase`, matched at the start of `s`: what
follows the literal in `s`. -/
def literal : List Char → List Char → Option (List Char)
  | [], s => some s
  | _ :: _, [] => none
  | w :: word, c :: s => if w.toLower = c.toLower then literal word s else none

/-- The run `[[:blank:]]*` at the start of `s`, all of it: what follows the run. In the two
expressions a run is followed by a letter, `=` or `;`, which no shorter run can supply, or by a
group `(.*?)` or `(.*)`, for which a shorter run matches nothing that the whole run does not
match. -/
def skipBlank (s : List Char) : List Char :=
  s.dropWhile isBlank

/-- The part `[[:blank:]]*;[[:blank:]]*email[[:blank:]]*=[[:blank:]]*(.*?)` of `REGISTER_EXP`
matched against the whole of `s`: the second group, which reaches to the end of the request. -/
def matchRegisterTail (s : List Char) : Option (List Char) :=
  match skipBlank s with
  | c :: s1 =>
    if c = ';' then
      match literal (String.toList "email") (skipBlank s1) with
      | some s2 =>
        match skipBlank s2 with
        | d :: s3 => if d = '=' then some (skipBlank s3) else none
        | [] => none
      | none => none
    else none
  | [] => none

/-- The first group `(.*?)` of `REGISTER_EXP`, which is not greedy: the shortest start of `s`,
appended to `group`, after which the rest of the expression matches; with it the second
group. -/
def matchRegisterGroups : List Char → List Char → Option (List Char × List Char)
  | [], group => (matchRegisterTail []).map fun email => (group, email)
  | c :: s, group =>
    match matchRegisterTail (c :: s) with
    | some email => some (group, email)
    | none => matchRegisterGroups s (group ++ [c])

/-- The expression `[[:blank:]]+` at the start of `s`. -/
def skipBlank1 (s : List Char) : Option (List Char) :=
  match s with
  | c :: rest => if isBlank c then some (skipBlank rest) else none
  | [] => none

/-- The call `boost::regex_match(req, matches, REGISTER_EXP)` for
`[[:blank:]]*REGISTER[[:blank:]]+username[[:blank:]]*=[[:blank:]]*(.*?)[[:blank:]]*;`
`[[:blank:]]*email[[:blank:]]*=[[:blank:]]*(.*?)` with `icase`: the two groups, `none` when
the request does not match. -/
def matchRegister (req : List Char) : Option (List Char × List Char) :=
  match literal (String.toList "REGISTER") (skipBlank req) with
  | some s1 =>
    match skipBlank1 s1 with
    | some s2 =>
      match literal (String.toList "username") s2 with
      | some s3 =>
        match skipBlank s3 with
        | c :: s4 => if c = '=' then matchRegisterGroups (skipBlank s4) [] else none
        | [] => none
      | none => none
    | none => none
  | none => none

/-- The call `boost::regex_match(req, matches, GET_EXP)` for
`[[:blank:]]*GET[[:blank:]]+username[[:blank:]]*=[[:blank:]]*(.*)` with `icase`: the group,
`none` when the request does not match. -/
def matchGet (req : List Char) : Option (List Char) :=
  match literal (String.toList "GET") (skipBlank req) with
  | some s1 =>
    match skipBlank1 s1 with
    | some s2 =>
      match literal (String.toList "username") s2 with
      | some s3 =>
        match skipBlank s3 with
        | c :: s4 => if c = '=' then some (skipBlank s4) else none
        | [] => none
      | none => none
    | none => none
  | none => none

namespace Request

/-- The response that `Request::execute` forms for the request, before the line end is added, and
the bytes of the data file after the call. -/
def response (req : List Char) (file : Option (List Char)) (writeOk : Bool) :
    List Char × Option (List Char) :=
  match matchRegister req with
  | some (username, email) =>
    (errorToResponse (DataFile.registerUser file writeOk username email).1,
      (DataFile.registerUser file writeOk username email).2)
  | none =>
    match matchGet req with
    | some username =>
      if (DataFile.getEmail file username []).2.length > 0 then
        (errorToResponse (DataFile.getEmail file username []).1 ++ String.toList " email="
          ++ (DataFile.getEmail file username []).2, file)
      else (errorToResponse (DataFile.getEmail file username []).1, file)
    | none => (RESP_BAD_REQUEST, file)

/-- `Request::execute`: the bytes handed to `Connection::send`, `none` when nothing is sent,
and the bytes of the data file after the call. `connection` tells whether `_connection` is set
when the response is formed, `connectionAfterDelay` whether it is still set after the delay. -/
def execute (req : List Char) (file : Option (List Char)) (writeOk : Bool)
    (connection connectionAfterDelay : Bool) : Option (List Char) × Option (List Char) :=
  if !connection then (none, (response req file writeOk).2)
  else if connectionAfterDelay then
    (some ((response req file writeOk).1 ++ String.toList "\r\n"),
      (response req file writeOk).2)
  else (none, (response req file writeOk).2)

end Request

/-! ## user_register_server/ipc/ProcessData.cpp -/

/-- `Entry`: a key and its value. -/
abbrev Entry := List Char × List Char
abbrev Entries := List Entry
/-- `RequestData`: the name of a section and its entries. -/
abbrev RequestData := List Char × Entries
abbrev RequestMessage := List RequestData

/-- Applies `f` to `back()` of a list. -/
def modifyBack {α : Type} (f : α → α) : List α → List α
  | [] => []
  | [x] => [f x]
  | x :: y :: rest => x :: modifyBack f (y :: rest)

/-- The semantic action `add_section`. -/
def add_section (data : RequestMessage) (s : List Char) : RequestMessage :=
  data ++ [(trim s, [])]

/-- The semantic action `add_key`. -/
def add_key (data : RequestMessage) (s : List Char) : RequestMessage :=
  modifyBack (fun sec => (sec.1, sec.2 ++ [(trim s, [])])) data

/-- The semantic action `add_value`. -/
def add_value (data : RequestMessage) (s : List Char) : RequestMessage :=
  modifyBack (fun sec => (sec.1, modifyBack (fun entry => (entry.1, s)) sec.2)) data

/-- The semantic action `append_value`. -/
def append_value (data : RequestMessage) (s : List Char) : RequestMessage :=
  modifyBack
    (fun sec => (sec.1, modifyBack (fun entry => (entry.1, entry.2 ++ s)) sec.2)) data

/-- A rule `+(p)` at the start of `s`: the text that it matches, which is the longest run of the
class, and what follows; `none` when the run is empty. -/
def plus (p : Char → Bool) (s : List Char) : Option (List Char × List Char) :=
  if (s.takeWhile p).isEmpty then none else some (s.takeWhile p, s.dropWhile p)

/-- The rule `serviceData = +(alpha_p)`. -/
def serviceData (s : List Char) : Option (List Char × List Char) :=
  plus isAlpha s

/-- The rule `username = +(alnum_p | chset<>(" ."))`. -/
def username (s : List Char) : Option (List Char × List Char) :=
  plus (fun c => isAlnum c || c == ' ' || c == '.') s

/-- The rule `mail = +(alnum_p | chset<>("-_."))`. -/
def mail (s : List Char) : Option (List Char × List Char) :=
  plus (fun c => isAlnum c || c == '-' || c == '_' || c == '.') s

/-- The rule `paramName`: what follows the match, `none` when the rule fails, and the data
after the actions that ran; an action that ran is not undone by a later failure. -/
def paramName (s : List Char) (data : RequestMessage) : Option (List Char) × RequestMessage :=
  match serviceData (s.dropWhile isBlank) with
  | none => (none, data)
  | some (key, s1) =>
    match s1.dropWhile isBlank with
    | c :: s2 =>
      if c = '=' then (some (s2.dropWhile isBlank), add_key data key)
      else (none, add_key data key)
    | [] => (none, add_key data key)

/-- The rule `entryUsr`. -/
def entryUsr (s : List Char) (data : RequestMessage) : Option (List Char) × RequestMessage :=
  match paramName s data with
  | (none, data1) => (none, data1)
  | (some s1, data1) =>
    match username s1 with
    | none => (none, data1)
    | some (value, s2) =>
      (some ((s2.dropWhile isBlank).dropWhile (· == ';')), add_value data1 value)

/-- The rule `entryMail`. -/
def entryMail (s : List Char) (data : RequestMessage) : Option (List Char) × RequestMessage :=
  match paramName s data with
  | (none, data1) => (none, data1)
  | (some s1, data1) =>
    match mail s1 with
    | none => (none, data1)
    | some (value, s2) =>
      match s2 with
      | c :: s3 =>
        if c = '@' then
          match mail s3 with
          | none => (none, append_value (add_value data1 value) ['@'])
          | some (domain, s4) =>
            (some ((s4.dropWhile isBlank).dropWhile (· == ';')),
              append_value (append_value (add_value data1 value) ['@']) domain)
        else (none, add_value data1 value)
      | [] => (none, add_value data1 value)

/-- The rule `*entryMail`, at most `fuel` rounds of it: a round that fails ends the rule at the
position before that round. -/
def entryMails : Nat → List Char → RequestMessage → List Char × RequestMessage
  | 0, s, data => (s, data)
  | fuel + 1, s, data =>
    match entryMail s data with
    | (some s1, data1) => entryMails fuel s1 data1
    | (none, data1) => (s, data1)

/-- The rule `section`. -/
def sectionRule (fuel : Nat) (s : List Char) (data : RequestMessage) :
    Option (List Char) × RequestMessage :=
  match serviceData (s.dropWhile isBlank) with
  | none => (none, data)
  | some (name, s1) =>
    match entryUsr s1 (add_section data name) with
    | (none, data1) => (none, data1)
    | (some s2, data1) => (some (entryMails fuel s2 data1).1, (entryMails fuel s2 data1).2)

/-- The rule `requestdata = *section`, at most `fuel` rounds of it. -/
def requestdata : Nat → List Char → RequestMessage → List Char × RequestMessage
  | 0, s, data => (s, data)
  | fuel + 1, s, data =>
    match sectionRule s.length s data with
    | (some s1, data1) => requestdata fuel s1 data1
    | (none, data1) => (s, data1)

/-- `find_value`: the value of the first entry with key `p` in the first section named `s`. -/
def find_value (msg : RequestMessage) (s p : List Char) : Option (List Char) :=
  match msg.find? (fun sec => sec.1 == s) with
  | none => none
  | some sec =>
    match sec.2.find? (fun entry => entry.1 == p) with
    | none => none
    | some entry => some entry.2

namespace CProcessData

/-- `CProcessData::Parse` on a parser that holds `m_Data`: `info.hit`, which a rule `*section`
always sets, and `m_Data` after the call. The parser reads the C string of its argument; every
round of a rule `*` takes at least one byte, so that the length of the input bounds the
rounds. -/
def Parse (m_Data : RequestMessage) (strTargetString : List Char) : Bool × RequestMessage :=
  (true, (requestdata (cstr strTargetString).length (cstr strTargetString) m_Data).2)

/-- `CProcessData::GetValue`: the value written to `strReturnValue`, `none` for `false`. -/
def GetValue (m_Data : RequestMessage) (szRequestType szRequestField : List Char) :
    Option (List Char) :=
  find_value m_Data szRequestType szRequestField

/-- `CProcessData::Clean`. -/
def Clean (_m_Data : RequestMessage) : RequestMessage := []

end CProcessData

/-! ## user_register_server/ipc/ThreadPoolModule.cpp -/

/-- Terminating symbol. -/
def g_strRequestTerminator : List Char := ['\r', '\n']
/-- Max length of the username. -/
def g_iMaxUsernameLength : Nat := 160
/-- The constant `g_iMaxBufferSize` of ThreadPoolModule.h. -/
def g_iMaxBufferSize : Nat := 1600
/-- Max message length. -/
def g_iMaxMessageLength : Nat := 4 * g_iMaxBufferSize
/-- Username tag. -/
def g_strUsernameTag : List Char := String.toList "username"
/-- Email tag. -/
def g_strEmailTag : List Char := String.toList "email"
/-- Max records in a file. -/
def g_iMaxRecords : Nat := 100

/-- The array `g_szRequestNames`, indexed by `etRequestID`. -/
def g_szRequestNames : List (List Char) := [String.toList "REGISTER", String.toList "GET"]

def eREQUEST_REGISTER : Int := 0
def eREQUEST_GET : Int := 1

def eRESPONSE_UNDEFINED : Int := -1
def eRESPONSE_OK : Int := 200
def eRESPONSE_BAD_REQUEST : Int := 400
def eRESPONSE_NOT_FOUND : Int := 404
def eRESPONSE_OVERLOADED : Int := 405
def eRESPONSE_NOT_ACCEPTABLE : Int := 406
def eRESPONSE_CONFLICT : Int := 409
def eRESPONSE_SERVICE_UNAVAILABLE : Int := 503

namespace CThreadPoolModule

/-- The map `m_mapResponseMessages` that the constructor of `CThreadPoolModule` fills. -/
def m_mapResponseMessages : List (Int × List Char) :=
  [(eRESPONSE_OK, String.toList "200"),
    (eRESPONSE_BAD_REQUEST, String.toList "400 Bad request"),
    (eRESPONSE_NOT_FOUND, String.toList "404 Not Found"),
    (eRESPONSE_OVERLOADED, String.toList "405 Overloaded"),
    (eRESPONSE_NOT_ACCEPTABLE, String.toList "406 Not Acceptable"),
    (eRESPONSE_CONFLICT, String.toList "409 Conflict"),
    (eRESPONSE_SERVICE_UNAVAILABLE, String.toList "503 Service Unavailable")]

/-- `CThreadPoolModule::GetResponseMessage`: the empty string for a code that the map does not
hold. -/
def GetResponseMessage (iResponseCode : Int) : List Char :=
  match m_mapResponseMessages.find? (fun entry => entry.1 == iResponseCode) with
  | some entry => entry.2
  | none => []

end CThreadPoolModule

/-- The state of a `CBaseTask` that `ProcessData` reads and writes: the message buffer and the
data `m_Data` of its parser `m_spProcessData`. -/
structure CBaseTask where
  m_strMsgBuffer : List Char
  m_Data : RequestMessage
  deriving DecidableEq, Repr

/-- What one request of `ProcessData` leaves behind: the response code, the request index
after the `for` loop, the e-mail, and the bytes of the data file. -/
structure RequestOutcome where
  respCode : Int
  iRequestIndex : Int
  strEmail : List Char
  file : Option (List Char)
  deriving DecidableEq, Repr

namespace CBaseTask

/-- The loop of `ReadFile` on the lines that `getline` delivers until `eofbit` is set: the
records pushed to `listRecords` and the value of `iLinesRead` after the loop. -/
def readLoop : List (List Char) → Nat → List (List Char) × Nat
  | [], iLinesRead => ([], iLinesRead)
  | strTemp :: more, iLinesRead =>
    if iLinesRead ≤ g_iMaxRecords then
      (strTemp :: (readLoop more (iLinesRead + 1)).1, (readLoop more (iLinesRead + 1)).2)
    else ([], iLinesRead)

/-- `CBaseTask::ReadFile` when nothing throws: `listRecords` and the returned number. `file` is
`none` when the stream is not good after it was opened; the loop is skipped then and 0 is
returned. -/
def ReadFile (file : Option (List Char)) : List (List Char) × Int :=
  match file with
  | none => ([], 0)
  | some contents =>
    ((readLoop (getlines contents) 0).1, ((readLoop (getlines contents) 0).2 : Int) - 1)

/-- The case `eREQUEST_REGISTER` of the `switch` once both values were found: the response
code and the bytes of the data file. `appendOk` tells whether the stream opened for appending
is good. -/
def registerRequest (file : Option (List Char)) (appendOk : Bool)
    (strUsername strEmail : List Char) : Int × Option (List Char) :=
  if (trim strUsername).isEmpty || (trim strEmail).isEmpty ||
      decide ((trim strUsername).length > g_iMaxUsernameLength) ||
      (findFirst (trim strEmail) '@').isNone then
    (eRESPONSE_NOT_ACCEPTABLE, file)
  else if (ReadFile file).2 = g_iMaxRecords then (eRESPONSE_OVERLOADED, file)
  else if (ReadFile file).2 = -1 then (eRESPONSE_SERVICE_UNAVAILABLE, file)
  else if (ReadFile file).1.any
      (fun strTemp => (findStr strTemp (trim strUsername ++ [';'])).isSome) then
    (eRESPONSE_CONFLICT, file)
  else if appendOk then
    (eRESPONSE_OK, some (file.getD [] ++ (trim strUsername ++ [';']) ++ trim strEmail ++ ['\n']))
  else (eRESPONSE_SERVICE_UNAVAILABLE, file)

/-- The case `eREQUEST_GET` of the `switch` once the value was found: the response code and
`strEmail`. The first record in which `strUsername`, with the `;` added, occurs at any position
ends the search; the e-mail is what follows the first `strUsername.length()` bytes of that
record. -/
def getRequest (file : Option (List Char)) (strUsername : List Char) : Int × List Char :=
  if (trim strUsername).isEmpty || decide ((trim strUsername).length > g_iMaxUsernameLength) then
    (eRESPONSE_NOT_ACCEPTABLE, [])
  else if (ReadFile file).2 = -1 then (eRESPONSE_SERVICE_UNAVAILABLE, [])
  else
    match (ReadFile file).1.find?
        (fun strTemp => (findStr strTemp (trim strUsername ++ [';'])).isSome) with
    | some strTemp =>
      (eRESPONSE_OK,
        substr strTemp (trim strUsername ++ [';']).length
          (strTemp.length - (trim strUsername ++ [';']).length))
    | none => (eRESPONSE_NOT_FOUND, [])

/-- The `for` loop over the request types for one parsed request, started with the values that
the locals have at the start of a round of the `while` loop. -/
def processRequest (m_Data : RequestMessage) (file : Option (List Char)) (appendOk : Bool) :
    RequestOutcome :=
  match CProcessData.GetValue m_Data (String.toList "REGISTER") g_strUsernameTag,
      CProcessData.GetValue m_Data (String.toList "REGISTER") g_strEmailTag with
  | some strUsername, some strEmail =>
    { respCode := (registerRequest file appendOk strUsername strEmail).1,
      iRequestIndex := eREQUEST_REGISTER + 1,
      strEmail := trim strEmail,
      file := (registerRequest file appendOk strUsername strEmail).2 }
  | _, _ =>
    match CProcessData.GetValue m_Data (String.toList "GET") g_strUsernameTag with
    | some strUsername =>
      { respCode := (getRequest file strUsername).1,
        iRequestIndex := eREQUEST_GET + 1,
        strEmail := (getRequest file strUsername).2,
        file := file }
    | none =>
      { respCode := eRESPONSE_UNDEFINED, iRequestIndex := eREQUEST_GET + 1, strEmail := [],
        file := file }

/-- The response message that a round of the `while` loop assembles from the outcome of its
request. -/
def responseMessage (outcome : RequestOutcome) : List Char :=
  let respCode :=
    if outcome.respCode = eRESPONSE_UNDEFINED then eRESPONSE_NOT_ACCEPTABLE else outcome.respCode
  (if respCode = eRESPONSE_OK then
      if outcome.iRequestIndex - 1 = eREQUEST_GET then
        CThreadPoolModule.GetResponseMessage respCode ++ String.toList " " ++ outcome.strEmail
      else CThreadPoolModule.GetResponseMessage respCode ++ String.toList " OK"
    else CThreadPoolModule.GetResponseMessage respCode)
  ++ g_strRequestTerminator

/-- The `while` loop of `ProcessData`, at most `fuel` rounds of it, entered with `posTerm`: the
task, the bytes of the data file and the messages handed to `write` or `sendto`, in their
order; `none` when `fuel` rounds do not end the loop. -/
def requestLoop (appendOk : Bool) :
    Nat → Option Nat → CBaseTask → Option (List Char) → List (List Char) →
      Option (CBaseTask × Option (List Char) × List (List Char))
  | _, none, task, file, sent => some (task, file, sent)
  | 0, some _, _, _, _ => none
  | fuel + 1, some posTerm, task, file, sent =>
    let strTempMessage := substr task.m_strMsgBuffer 0 (posTerm + g_strRequestTerminator.length)
    let m_strMsgBuffer := task.m_strMsgBuffer.drop (posTerm + g_strRequestTerminator.length)
    let m_Data := (CProcessData.Parse task.m_Data strTempMessage).2
    let outcome := processRequest m_Data file appendOk
    requestLoop appendOk fuel (findStr m_strMsgBuffer g_strRequestTerminator)
      { m_strMsgBuffer := m_strMsgBuffer,
        m_Data :=
          if (findStr m_strMsgBuffer g_strRequestTerminator).isSome then CProcessData.Clean m_Data
          else m_Data }
      outcome.file (sent ++ [responseMessage outcome])

/-- `CBaseTask::ProcessData` outside the maintenance mode, with `fuel` bounding the rounds of
its loop: the task and the bytes of the data file after the call, and the messages handed to
`write` or `sendto`. -/
def ProcessData (fuel : Nat) (task : CBaseTask) (file : Option (List Char)) (appendOk : Bool) :
    Option (CBaseTask × Option (List Char) × List (List Char)) :=
  match findStr task.m_strMsgBuffer g_strRequestTerminator with
  | none =>
    if task.m_strMsgBuffer.length > g_iMaxMessageLength * 2 then
      some ({ task with m_strMsgBuffer := [] }, file,
        [CThreadPoolModule.GetResponseMessage eRESPONSE_BAD_REQUEST])
    else some (task, file, [])
  | some posTerm => requestLoop appendOk fuel (some posTerm) task file []

end CBaseTask

/-! ## Concrete data used to evaluate the definitions -/

/-- A data file with the one record of `John`. -/
def johnFile : List Char := String.toList "John;john@a.com\n"

/-- A data file whose last record, the one of `John`, is not ended by a line feed. -/
def unterminatedFile : List Char := String.toList "John;john@a.com"

/-- A data file in which the record of `xJohn` stands before the record of `John`. -/
def twoJohnsFile : List Char := String.toList "xJohn;x@a.com\nJohn;john@a.com\n"

/-- A task that was just made, with the bytes received so far in its buffer. -/
def freshTask (received : List Char) : CBaseTask :=
  { m_strMsgBuffer := received, m_Data := [] }

end RegisterServer

namespace ChatServer

/-! ## Lemmas on the string operations -/

theorem rfind_eq_none_iff (s : List Char) (c : Char) : rfind s c = none ↔ c ∉ s := by
  induction s with
  | nil => simp [rfind]
  | cons x xs ih =>
    unfold rfind
    cases h : rfind xs c with
    | some i =>
      have : ¬ (c ∉ xs) := fun hc => by rw [ih.mpr hc] at h; cases h
      simp only [List.mem_cons, not_or]
      constructor
      · intro h0; cases h0
      · intro h0; exact absurd h0.2 this
    | none =>
      have hc : c ∉ xs := ih.mp h
      by_cases hx : x = c
      · subst hx; simp
      · simp [hx, hc, Ne.symm hx]

theorem rfind_some_split (s : List Char) (c : Char) (i : Nat) (h : rfind s c = some i) :
    (s.take (i + 1)).getLast? = some c ∧ c ∉ s.drop (i + 1) := by
  induction s generalizing i with
  | nil => simp [rfind] at h
  | cons x xs ih =>
    unfold rfind at h
    cases hr : rfind xs c with
    | some j =>
      rw [hr] at h
      simp only [Option.some.injEq] at h
      subst h
      obtain ⟨h1, h2⟩ := ih j hr
      refine ⟨?_, by simpa using h2⟩
      rw [List.take_succ_cons]
      cases ht : xs.take (j + 1) with
      | nil => rw [ht] at h1; simp at h1
      | cons y ys => rw [ht] at h1; simpa [List.getLast?_cons_cons] using h1
    | none =>
      rw [hr] at h
      by_cases hx : x = c
      · simp only [hx, if_true, Option.some.injEq] at h
        subst h
        subst hx
        exact ⟨by simp, by simpa using (rfind_eq_none_iff xs x).mp hr⟩
      · simp [hx] at h

/-! ## The receive buffer: `GetNextSocketData`, `ReadAndAppendSocketData`, `ReceiveDataTask` -/

/-- C2: on a buffer holding a terminator, `GetNextSocketData` returns `sOk`, outputs the prefix that
ends at the last terminator and keeps the remaining suffix (output followed by the new buffer is
the old buffer, the output ends with the terminator, the new buffer holds none); on a buffer
without terminator it returns `eNotFound` and changes neither the buffer nor the output string. -/
theorem GetNextSocketData_prefix_to_last_terminator (c : ConnectionHolder) (tempString : List Char) :
    (ChatTerminationSymbol ∈ c.m_socketData →
      ∃ out rest, c.GetNextSocketData tempString = (.sOk, out, { c with m_socketData := rest }) ∧
        out ++ rest = c.m_socketData ∧ out.getLast? = some ChatTerminationSymbol ∧
        ChatTerminationSymbol ∉ rest) ∧
    (ChatTerminationSymbol ∉ c.m_socketData →
      c.GetNextSocketData tempString = (.eNotFound, tempString, c)) := by
  constructor
  · intro hmem
    cases hr : rfind c.m_socketData ChatTerminationSymbol with
    | none => exact absurd hmem ((rfind_eq_none_iff _ _).mp hr)
    | some i =>
      obtain ⟨h1, h2⟩ := rfind_some_split _ _ _ hr
      refine ⟨c.m_socketData.take (i + 1), c.m_socketData.drop (i + 1), ?_, ?_, h1, h2⟩
      · simp [ConnectionHolder.GetNextSocketData, hr, substr]
      · exact List.take_append_drop _ _
  · intro hnot
    have hr := (rfind_eq_none_iff _ _).mpr hnot
    simp [ConnectionHolder.GetNextSocketData, hr]


/-- Witness of C2: the buffer `ab\ncd\nef` is cut after its second terminator. -/
theorem GetNextSocketData_prefix_to_last_terminator_witness :
    ChatTerminationSymbol ∈ String.toList "ab\ncd\nef" ∧
    ∃ out rest,
      ({ exampleConnection 5 false (String.toList "u") with
          m_socketData := String.toList "ab\ncd\nef" }).GetNextSocketData []
        = (.sOk, out, { exampleConnection 5 false (String.toList "u") with m_socketData := rest }) ∧
      out ++ rest = String.toList "ab\ncd\nef" ∧ out.getLast? = some ChatTerminationSymbol ∧
      ChatTerminationSymbol ∉ rest :=
  ⟨by decide,
    (GetNextSocketData_prefix_to_last_terminator
      { exampleConnection 5 false (String.toList "u") with
        m_socketData := String.toList "ab\ncd\nef" } []).1 (by decide)⟩

theorem cstr_append_nuls (bs : List Char) (k : Nat) :
    cstr (bs ++ List.replicate k nul) = cstr bs := by
  induction bs with
  | nil => cases k <;> simp [cstr, List.replicate, List.takeWhile]
  | cons x xs ih =>
    simp only [cstr, List.cons_append, List.takeWhile] at ih ⊢
    split <;> simp_all

theorem set_length_append_nuls (bs : List Char) (k : Nat) :
    (bs ++ List.replicate k nul).set bs.length nul = bs ++ List.replicate k nul := by
  induction bs with
  | nil => cases k <;> simp [List.replicate]
  | cons x xs ih => simp [ih]

theorem cstr_of_nul_free (bs : List Char) (h : nul ∉ bs) : cstr bs = bs := by
  unfold cstr
  rw [List.takeWhile_eq_self_iff]
  intro x hx
  have : x ≠ nul := fun e => h (e ▸ hx)
  simpa using this

theorem Read_data (bs : List Char) (N : Nat) :
    ∃ buf, SocketWrapper.Read (.data bs) (List.replicate N nul) N
        = .ok (((bs.take N).length : Int), buf) ∧ cstr buf = cstr (bs.take N) := by
  unfold SocketWrapper.Read
  simp only [List.drop_replicate]
  split
  · exact ⟨_, rfl, by rw [set_length_append_nuls, cstr_append_nuls]⟩
  · exact ⟨_, rfl, cstr_append_nuls _ _⟩

theorem readLoop_data (bs : List Char) (rest : List SysRead) (tempData : List Char)
    (h0 : bs ≠ []) (hN : bs.length ≤ MaxDataBufferSize) (hnul : nul ∉ bs) :
    ConnectionHolder.readLoop (.data bs :: rest) tempData
      = ConnectionHolder.readLoop rest (tempData ++ bs) := by
  obtain ⟨buf, h1, h2⟩ := Read_data bs MaxDataBufferSize
  have htake : bs.take MaxDataBufferSize = bs := List.take_of_length_le hN
  rw [htake] at h1 h2
  have hpos : ((bs.length : Int) > 0) := by
    have : 0 < bs.length := List.length_pos.mpr h0
    exact_mod_cast this
  rw [ConnectionHolder.readLoop, h1]
  simp only [hpos, if_true, h2, cstr_of_nul_free bs hnul]

theorem readLoop_eagain (rest : List SysRead) (tempData : List Char) :
    ConnectionHolder.readLoop (.eagain :: rest) tempData = .ok (-1, tempData) := by
  have h : cstr (List.replicate MaxDataBufferSize nul) = [] := by
    simp [cstr]
  simp [ConnectionHolder.readLoop, SocketWrapper.Read, h]

/-- The chunks of a message delivered by successive reads and followed by `EAGAIN` end up in
`tempData` one after the other. -/
theorem readLoop_chunks (chunks : List (List Char)) (tempData : List Char)
    (h : ∀ bs ∈ chunks, bs ≠ [] ∧ bs.length ≤ MaxDataBufferSize ∧ nul ∉ bs) :
    ConnectionHolder.readLoop (chunks.map SysRead.data ++ [.eagain]) tempData
      = .ok (-1, tempData ++ chunks.flatten) := by
  induction chunks generalizing tempData with
  | nil => simpa using readLoop_eagain [] tempData
  | cons bs rest ih =>
    obtain ⟨h0, hN, hnul⟩ := h bs (List.mem_cons_self _ _)
    simp only [List.map_cons, List.cons_append]
    rw [readLoop_data bs _ tempData h0 hN hnul, ih _ (fun b hb => h b (List.mem_cons_of_mem _ hb))]
    simp

/-- What `ReadAndAppendSocketData` answers when the socket delivers well-formed chunks and then
`EAGAIN`: `eBufferOverflow` from a total of 8192 bytes on, `sOk` with the bytes appended below
that. -/
theorem ReadAndAppendSocketData_chunks (c : ConnectionHolder) (chunks : List (List Char))
    (h : ∀ bs ∈ chunks, bs ≠ [] ∧ bs.length ≤ MaxDataBufferSize ∧ nul ∉ bs) :
    c.ReadAndAppendSocketData (chunks.map SysRead.data ++ [.eagain])
      = if chunks.flatten.length + c.m_socketData.length ≥ MaximumMessageLength
        then (.eBufferOverflow, c)
        else (.sOk, { c with m_socketData := c.m_socketData ++ chunks.flatten }) := by
  unfold ConnectionHolder.ReadAndAppendSocketData
  rw [readLoop_chunks chunks [] h]
  simp

theorem ReadAndAppendSocketData_length (c : ConnectionHolder) (reads : List SysRead) :
    (c.ReadAndAppendSocketData reads).2.m_socketData.length
      ≤ max c.m_socketData.length MaximumMessageLength := by
  unfold ConnectionHolder.ReadAndAppendSocketData
  split
  · simp
  · dsimp only
    split
    · simp
    · rename_i hlt
      split <;> simp only [List.length_append] <;> omega

theorem GetNextSocketData_length (c : ConnectionHolder) (tempString : List Char) :
    (c.GetNextSocketData tempString).2.2.m_socketData.length ≤ c.m_socketData.length := by
  unfold ConnectionHolder.GetNextSocketData
  split <;> simp

theorem runBufferCalls_length (calls : List BufferCall) (c : ConnectionHolder)
    (h : c.m_socketData.length ≤ MaximumMessageLength) :
    (runBufferCalls c calls).m_socketData.length ≤ MaximumMessageLength := by
  induction calls generalizing c with
  | nil => simpa [runBufferCalls] using h
  | cons call rest ih =>
    simp only [runBufferCalls, List.foldl_cons]
    apply ih
    cases call with
    | ReadAndAppendSocketData reads =>
      have := ReadAndAppendSocketData_length c reads
      simp only [BufferCall.run]
      omega
    | GetNextSocketData tempString =>
      have := GetNextSocketData_length c tempString
      simp only [BufferCall.run]
      omega

theorem rfind_append_singleton (body : List Char) (c : Char) :
    rfind (body ++ [c]) c = some body.length := by
  induction body with
  | nil => simp [rfind]
  | cons x xs ih => simp [rfind, ih]

theorem GetNextSocketData_no_terminator (c : ConnectionHolder) (tempString : List Char)
    (h : ChatTerminationSymbol ∉ c.m_socketData) :
    c.GetNextSocketData tempString = (.eNotFound, tempString, c) := by
  simp [ConnectionHolder.GetNextSocketData, (rfind_eq_none_iff _ _).mpr h]

theorem GetNextSocketData_whole_frame (c : ConnectionHolder) (tempString body : List Char)
    (h : c.m_socketData = body ++ [ChatTerminationSymbol]) :
    c.GetNextSocketData tempString
      = (.sOk, body ++ [ChatTerminationSymbol], { c with m_socketData := [] }) := by
  simp [ConnectionHolder.GetNextSocketData, h, rfind_append_singleton, substr]

theorem Execute_chunk_without_terminator (m : ConnectionManager) (p : ConnectionHolderPtr)
    (bs : List Char) (h0 : bs ≠ []) (hN : bs.length ≤ MaxDataBufferSize) (hnul : nul ∉ bs)
    (hlen : bs.length + (m.heap p).m_socketData.length < MaximumMessageLength)
    (hterm : ChatTerminationSymbol ∉ (m.heap p).m_socketData ++ bs) :
    ReceiveDataTask.Execute m p [.data bs, .eagain]
      = (m.store p { m.heap p with m_socketData := (m.heap p).m_socketData ++ bs }, []) := by
  have hr := ReadAndAppendSocketData_chunks (m.heap p) [bs]
    (by intro b hb; simp only [List.mem_singleton] at hb; subst hb; exact ⟨h0, hN, hnul⟩)
  simp only [List.map_cons, List.map_nil, List.singleton_append, List.flatten_cons,
    List.flatten_nil, List.append_nil, ge_iff_le, not_le.mpr hlen, if_false] at hr
  unfold ReceiveDataTask.Execute
  rw [hr]
  simp only
  rw [GetNextSocketData_no_terminator _ _ hterm]

theorem Execute_chunk_completing_frame (m : ConnectionManager) (p : ConnectionHolderPtr)
    (bs body : List Char) (h0 : bs ≠ []) (hN : bs.length ≤ MaxDataBufferSize) (hnul : nul ∉ bs)
    (hlen : bs.length + (m.heap p).m_socketData.length < MaximumMessageLength)
    (hbody : body ≠ []) (hterm : ChatTerminationSymbol ∉ body)
    (hframe : (m.heap p).m_socketData ++ bs = body ++ [ChatTerminationSymbol]) :
    ReceiveDataTask.Execute m p [.data bs, .eagain]
      = (m.store p { m.heap p with m_socketData := [] },
          [.PostSlowTask (.ProcessMessageTask
            { senderSocket := (m.heap p).GetSocketDescriptor, sender := some p, receiver := none,
              senderName := (m.heap p).GetUsername, data := body ++ [ChatTerminationSymbol] })]) := by
  have hr := ReadAndAppendSocketData_chunks (m.heap p) [bs]
    (by intro b hb; simp only [List.mem_singleton] at hb; subst hb; exact ⟨h0, hN, hnul⟩)
  simp only [List.map_cons, List.map_nil, List.singleton_append, List.flatten_cons,
    List.flatten_nil, List.append_nil, ge_iff_le, not_le.mpr hlen, if_false] at hr
  unfold ReceiveDataTask.Execute
  rw [hr]
  simp only
  rw [GetNextSocketData_whole_frame _ _ body hframe]
  obtain ⟨x, xs, rfl⟩ := List.exists_cons_of_ne_nil hbody
  have hx : x ≠ ChatTerminationSymbol := fun e => hterm (e ▸ List.mem_cons_self _ _)
  simp [hx, ProcessMessageTask.new, ConnectionHolder.GetUsername,
    ConnectionHolder.GetSocketDescriptor]

theorem runAll_append (m : ConnectionManager) (p : ConnectionHolderPtr)
    (a b : List (List SysRead)) :
    ReceiveDataTask.runAll m p (a ++ b)
      = ((ReceiveDataTask.runAll (ReceiveDataTask.runAll m p a).1 p b).1,
          (ReceiveDataTask.runAll m p a).2
            ++ (ReceiveDataTask.runAll (ReceiveDataTask.runAll m p a).1 p b).2) := by
  induction a generalizing m with
  | nil => simp [ReceiveDataTask.runAll]
  | cons x xs ih => simp [ReceiveDataTask.runAll, ih]

theorem runAll_without_terminator (p : ConnectionHolderPtr) (chunks : List (List Char))
    (m : ConnectionManager)
    (h : ∀ bs ∈ chunks, bs ≠ [] ∧ bs.length ≤ MaxDataBufferSize ∧ nul ∉ bs)
    (hlen : chunks.flatten.length + (m.heap p).m_socketData.length < MaximumMessageLength)
    (hterm : ChatTerminationSymbol ∉ (m.heap p).m_socketData ++ chunks.flatten) :
    ∃ m1, ReceiveDataTask.runAll m p (chunks.map fun bs => [.data bs, .eagain]) = (m1, []) ∧
      m1.heap p = { m.heap p with m_socketData := (m.heap p).m_socketData ++ chunks.flatten } := by
  induction chunks generalizing m with
  | nil => exact ⟨m, rfl, by simp⟩
  | cons bs rest ih =>
    obtain ⟨h0, hN, hnul⟩ := h bs (List.mem_cons_self _ _)
    simp only [List.flatten_cons, List.length_append] at hlen
    simp only [List.flatten_cons, List.mem_append, not_or] at hterm
    have hstep := Execute_chunk_without_terminator m p bs h0 hN hnul (by omega)
      (by simp only [List.mem_append, not_or]; exact ⟨hterm.1, hterm.2.1⟩)
    have hheap : (m.store p { m.heap p with m_socketData := (m.heap p).m_socketData ++ bs }).heap p
        = { m.heap p with m_socketData := (m.heap p).m_socketData ++ bs } := by
      simp [ConnectionManager.store]
    obtain ⟨m1, hrun, hm1⟩ := ih (m.store p { m.heap p with
        m_socketData := (m.heap p).m_socketData ++ bs })
      (fun b hb => h b (List.mem_cons_of_mem _ hb))
      (by rw [hheap]; simp only [List.length_append]; omega)
      (by rw [hheap]; simp only [List.mem_append, not_or]; exact ⟨⟨hterm.1, hterm.2.1⟩, hterm.2.2⟩)
    refine ⟨m1, ?_, ?_⟩
    · simp only [List.map_cons, ReceiveDataTask.runAll, hstep, hrun, List.append_nil]
    · rw [hm1, hheap]; simp

/-- C5: a frame `body ++ "\n"` shorter than 8192 bytes, with a non-empty body free of terminators
and zero bytes, is cut into non-empty chunks of fewer than 1024 bytes, and each chunk is delivered
to one `ReceiveDataTask::Execute` (the chunk, then `EAGAIN`) on a connection whose buffer starts
empty. Then the runs before the last chunk post nothing, and all the runs together post exactly
one `ProcessMessageTask`, whose data is the frame. -/
theorem chunked_frame_posts_one_task (m : ConnectionManager) (p : ConnectionHolderPtr)
    (body : List Char) (chunks : List (List Char))
    (hempty : (m.heap p).m_socketData = [])
    (hbody : body ≠ []) (hterm : ChatTerminationSymbol ∉ body) (hnul : nul ∉ body)
    (hlen : (body ++ [ChatTerminationSymbol]).length < 8192)
    (hchunks : ∀ bs ∈ chunks, bs ≠ [] ∧ bs.length < 1024)
    (hcut : chunks.flatten = body ++ [ChatTerminationSymbol]) :
    (∀ k, k < chunks.length →
      (ReceiveDataTask.runAll m p ((chunks.take k).map fun bs => [.data bs, .eagain])).2 = []) ∧
    (ReceiveDataTask.runAll m p (chunks.map fun bs => [.data bs, .eagain])).2
      = [.PostSlowTask (.ProcessMessageTask
          { senderSocket := (m.heap p).GetSocketDescriptor, sender := some p, receiver := none,
            senderName := (m.heap p).GetUsername, data := body ++ [ChatTerminationSymbol] })] := by
  -- the chunks are all but the last, then the last
  have hne : chunks ≠ [] := by
    intro h; rw [h] at hcut; simp at hcut
  obtain ⟨init, last, rfl⟩ : ∃ init last, chunks = init ++ [last] :=
    ⟨chunks.dropLast, chunks.getLast hne, (List.dropLast_append_getLast hne).symm⟩
  have hlast0 : last ≠ [] := (hchunks last (by simp)).1
  obtain ⟨last1, x, rfl⟩ : ∃ l x, last = l ++ [x] :=
    ⟨last.dropLast, last.getLast hlast0, (List.dropLast_append_getLast hlast0).symm⟩
  have hcut2 : (init.flatten ++ last1) ++ [x] = body ++ [ChatTerminationSymbol] := by
    simpa [List.flatten_append] using hcut
  obtain ⟨hbody_eq, hx⟩ := List.append_inj' hcut2 rfl
  simp only [List.cons.injEq, and_true] at hx
  subst hx
  -- facts on the bytes
  have hnt : nul ≠ ChatTerminationSymbol := by decide
  have hwf : ∀ bs ∈ init ++ [last1 ++ [ChatTerminationSymbol]],
      bs ≠ [] ∧ bs.length ≤ MaxDataBufferSize ∧ nul ∉ bs := by
    intro bs hbs
    obtain ⟨h0, hN⟩ := hchunks bs hbs
    refine ⟨h0, by simp only [MaxDataBufferSize]; omega, ?_⟩
    intro hmem
    have : nul ∈ (init ++ [last1 ++ [ChatTerminationSymbol]]).flatten :=
      List.mem_flatten.mpr ⟨bs, hbs, hmem⟩
    rw [hcut] at this
    simp only [List.mem_append, List.mem_singleton] at this
    rcases this with h | h
    · exact hnul h
    · exact hnt h
  have hlen2 : init.flatten.length + last1.length + 1 < 8192 := by
    have := congrArg List.length hbody_eq
    simp only [List.length_append, List.length_singleton] at this hlen
    omega
  have hinit_term : ChatTerminationSymbol ∉ init.flatten := by
    intro h; exact hterm (hbody_eq ▸ List.mem_append_left _ h)
  have hsplit : ∀ k, init.flatten = (init.take k).flatten ++ (init.drop k).flatten := by
    intro k
    rw [← List.flatten_append, List.take_append_drop]
  constructor
  · intro k hk
    have hk2 : k ≤ init.length := by
      simp only [List.length_append, List.length_singleton] at hk; omega
    rw [List.take_append_of_le_length hk2]
    obtain ⟨m1, hrun, _⟩ := runAll_without_terminator p (init.take k) m
      (fun bs hbs => hwf bs (List.mem_append_left _ (List.mem_of_mem_take hbs)))
      (by
        have := congrArg List.length (hsplit k)
        simp only [List.length_append] at this
        rw [hempty]; simp only [MaximumMessageLength, List.length_nil]; omega)
      (by
        rw [hempty, List.nil_append]
        intro h; exact hinit_term (by rw [hsplit k]; exact List.mem_append_left _ h))
    rw [hrun]
  · obtain ⟨m1, hrun, hm1⟩ := runAll_without_terminator p init m
      (fun bs hbs => hwf bs (List.mem_append_left _ hbs))
      (by rw [hempty]; simp only [MaximumMessageLength, List.length_nil]; omega)
      (by rw [hempty, List.nil_append]; exact hinit_term)
    rw [hempty, List.nil_append] at hm1
    obtain ⟨h0, hN, hnul1⟩ := hwf (last1 ++ [ChatTerminationSymbol]) (by simp)
    have hstep := Execute_chunk_completing_frame m1 p (last1 ++ [ChatTerminationSymbol]) body
      h0 hN hnul1
      (by rw [hm1]; simp only [MaximumMessageLength, List.length_append, List.length_singleton]
          omega)
      hbody hterm
      (by rw [hm1]; simp only [← List.append_assoc, hbody_eq])
    rw [List.map_append, runAll_append, hrun]
    simp only [List.map_cons, List.map_nil, ReceiveDataTask.runAll, hstep, List.nil_append,
      List.append_nil]
    simp [hm1, ConnectionHolder.GetSocketDescriptor, ConnectionHolder.GetUsername]

theorem frame8192_flatten :
    frame8192.flatten = List.replicate 8191 'a' ++ [ChatTerminationSymbol] := by
  have h : ∀ n k : Nat, (List.replicate n (List.replicate k 'a')).flatten
      = List.replicate (n * k) 'a' := by
    intro n k
    induction n with
    | zero => simp
    | succ n ih =>
      rw [List.replicate_succ, List.flatten_cons, ih, ← List.replicate_add]
      congr 1
      ring
  have h1 : (List.replicate 8191 'a' : List Char)
      = List.replicate (8 * 1000) 'a' ++ List.replicate 191 'a' := by
    rw [← List.replicate_add]
  rw [frame8192, List.flatten_append, h, h1, List.flatten_cons, List.flatten_nil,
    List.append_nil, List.append_assoc]

/-- C3: a frame of exactly 8192 bytes, terminator included, arrives on the empty buffer of a
fresh connection. `ReadAndAppendSocketData` answers `eBufferOverflow` and appends nothing, because
it compares the total with `>=`. -/
theorem ReadAndAppendSocketData_rejects_8192_bytes :
    frame8192.flatten.length = 8192 ∧
    frame8192.flatten.getLast? = some ChatTerminationSymbol ∧
    (exampleConnection 5 false []).ReadAndAppendSocketData
        (frame8192.map SysRead.data ++ [.eagain])
      = (.eBufferOverflow, exampleConnection 5 false []) := by
  have hlen : frame8192.flatten.length = 8192 := by
    rw [frame8192_flatten, List.length_append, List.length_replicate, List.length_singleton]
  refine ⟨hlen, ?_, ?_⟩
  · rw [frame8192_flatten, List.getLast?_append]
    rfl
  · have ha : ('a' : Char) ≠ nul := by decide
    have hn : nul ≠ ChatTerminationSymbol := by decide
    rw [ReadAndAppendSocketData_chunks]
    · rw [hlen, if_pos]
      exact Nat.le_add_right _ _
    · intro bs hbs
      simp only [frame8192, List.mem_append, List.mem_replicate, List.mem_singleton] at hbs
      rcases hbs with ⟨_, rfl⟩ | rfl
      · refine ⟨?_, ?_, ?_⟩
        · intro h
          have := congrArg List.length h
          rw [List.length_replicate] at this
          cases this
        · rw [List.length_replicate]; decide
        · intro h
          exact ha (List.eq_of_mem_replicate h).symm
      · refine ⟨?_, ?_, ?_⟩
        · intro h
          have := congrArg List.length h
          rw [List.length_append, List.length_replicate] at this
          cases this
        · rw [List.length_append, List.length_replicate]; decide
        · intro h
          rcases List.mem_append.mp h with h | h
          · exact ha (List.eq_of_mem_replicate h).symm
          · exact hn (List.mem_singleton.mp h)

/-- C4: starting from a newly constructed `ConnectionHolder`, after any sequence of
`ReadAndAppendSocketData` calls (with any answers of the socket) and `GetNextSocketData` calls the
receive buffer holds at most 8192 bytes. -/
theorem receive_buffer_never_exceeds_limit (socket : SocketWrapper) (isListeningSocket : Bool)
    (c : ConnectionHolder) (hnew : ConnectionHolder.new socket isListeningSocket = .ok c)
    (calls : List BufferCall) :
    (runBufferCalls c calls).m_socketData.length ≤ 8192 := by
  have hc : c.m_socketData = [] := by
    unfold ConnectionHolder.new at hnew
    split at hnew
    · injection hnew with h; rw [← h]
    · cases hnew
  exact runBufferCalls_length calls c (by rw [hc]; simp [MaximumMessageLength])

/-- Witness of C4: a read of 2000 bytes in two pieces, a frame and a `GetNextSocketData`. -/
theorem receive_buffer_never_exceeds_limit_witness :
    ConnectionHolder.new { m_socket := 5, m_isClosed := false } false
        = .ok (exampleConnection 5 false []) ∧
    (runBufferCalls (exampleConnection 5 false [])
      [.ReadAndAppendSocketData [.data (List.replicate 1000 'a'),
          .data (List.replicate 1000 'b'), .eagain],
        .ReadAndAppendSocketData [.data (String.toList "hi\n"), .eagain],
        .GetNextSocketData []]).m_socketData.length ≤ 8192 :=
  ⟨rfl, receive_buffer_never_exceeds_limit { m_socket := 5, m_isClosed := false } false
    (exampleConnection 5 false []) rfl _⟩

/-- Witness of C5: the frame `hello\n` cut into `he`, `l` and `lo\n`. -/
theorem chunked_frame_posts_one_task_witness :
    (∀ k, k < 3 →
      (ReceiveDataTask.runAll exampleManager 1
        (([String.toList "he", String.toList "l", String.toList "lo\n"].take k).map
          fun bs => [.data bs, .eagain])).2 = []) ∧
    (ReceiveDataTask.runAll exampleManager 1
        ([String.toList "he", String.toList "l", String.toList "lo\n"].map
          fun bs => [.data bs, .eagain])).2
      = [.PostSlowTask (.ProcessMessageTask (exampleMessage (String.toList "hello\n")))] :=
  chunked_frame_posts_one_task exampleManager 1 (String.toList "hello")
    [String.toList "he", String.toList "l", String.toList "lo\n"]
    rfl (by decide) (by decide) (by decide) (by decide) (by decide) (by decide)

/-- C6: the socket delivers `\nhello\n` to a connection with an empty buffer.
`ReadAndAppendSocketData` returns `sOk`, `GetNextSocketData` yields the whole prefix `\nhello\n`
and takes it out of the buffer, and `ReceiveDataTask::Execute` posts nothing, because it tests
only the first byte of the prefix. -/
theorem Execute_drops_prefix_starting_with_terminator :
    (exampleManager.heap 1).ReadAndAppendSocketData [.data (String.toList "\nhello\n"), .eagain]
      = (.sOk, { exampleManager.heap 1 with m_socketData := String.toList "\nhello\n" }) ∧
    ({ exampleManager.heap 1 with m_socketData := String.toList "\nhello\n" }).GetNextSocketData []
      = (.sOk, String.toList "\nhello\n", exampleManager.heap 1) ∧
    (ReceiveDataTask.Execute exampleManager 1 [.data (String.toList "\nhello\n"), .eagain]).2
      = [] ∧
    ((ReceiveDataTask.Execute exampleManager 1
        [.data (String.toList "\nhello\n"), .eagain]).1.heap 1).m_socketData = [] := by
  refine ⟨by decide, by decide, by decide, by decide⟩


/-! ## The registry: `SetClientUsername` -/

theorem scanUsernames_eq_none_iff (heap : ConnectionHolderPtr → ConnectionHolder)
    (d : SocketDescriptor) (n : List Char) (es : ConnectionStorage)
    (acc : Option ConnectionHolderPtr) :
    ConnectionManager.scanUsernames heap d n es acc = none
      ↔ ∃ e ∈ es, (heap e.2).GetUsername = n := by
  induction es generalizing acc with
  | nil => simp [ConnectionManager.scanUsernames]
  | cons e rest ih =>
    obtain ⟨k, p⟩ := e
    unfold ConnectionManager.scanUsernames
    by_cases hp : (heap p).GetUsername = n
    · simp [hp]
    · by_cases hk : k = d
      · simp [hp, hk, ih]
      · simp [hp, hk, ih]

theorem scanUsernames_no_key (heap : ConnectionHolderPtr → ConnectionHolder)
    (d : SocketDescriptor) (n : List Char) (es : ConnectionStorage)
    (acc : Option ConnectionHolderPtr)
    (hfree : ∀ e ∈ es, (heap e.2).GetUsername ≠ n) (hkey : ∀ e ∈ es, e.1 ≠ d) :
    ConnectionManager.scanUsernames heap d n es acc = some acc := by
  induction es generalizing acc with
  | nil => rfl
  | cons e rest ih =>
    obtain ⟨k, p⟩ := e
    unfold ConnectionManager.scanUsernames
    have hp := hfree (k, p) (List.mem_cons_self _ _)
    have hk := hkey (k, p) (List.mem_cons_self _ _)
    simp only at hp hk
    simp only [hp, hk, if_false]
    exact ih acc (fun e he => hfree e (List.mem_cons_of_mem _ he))
      (fun e he => hkey e (List.mem_cons_of_mem _ he))

theorem find_eq_none_iff (es : ConnectionStorage) (d : SocketDescriptor) :
    es.find d = none ↔ ∀ e ∈ es, e.1 ≠ d := by
  simp [ConnectionStorage.find, List.find?_eq_none]

theorem scanUsernames_key (heap : ConnectionHolderPtr → ConnectionHolder)
    (d : SocketDescriptor) (n : List Char) (es : ConnectionStorage)
    (acc : Option ConnectionHolderPtr) (p : ConnectionHolderPtr)
    (hfree : ∀ e ∈ es, (heap e.2).GetUsername ≠ n)
    (hsorted : es.Pairwise (fun a b => a.1 < b.1)) (hfind : es.find d = some p) :
    ConnectionManager.scanUsernames heap d n es acc = some (some p) := by
  induction es generalizing acc with
  | nil => simp [ConnectionStorage.find] at hfind
  | cons e rest ih =>
    obtain ⟨k, v⟩ := e
    unfold ConnectionManager.scanUsernames
    have hp := hfree (k, v) (List.mem_cons_self _ _)
    simp only at hp
    simp only [hp, if_false]
    rw [List.pairwise_cons] at hsorted
    by_cases hk : k = d
    · subst hk
      simp only [ConnectionStorage.find, List.find?_cons, beq_self_eq_true, Option.map_some',
        Option.some.injEq] at hfind
      subst hfind
      simp only [if_true]
      apply scanUsernames_no_key _ _ _ _ _ (fun e he => hfree e (List.mem_cons_of_mem _ he))
      intro e he
      have hlt : k < e.1 := hsorted.1 e he
      exact ne_of_gt hlt
    · simp only [hk, if_false]
      apply ih acc (fun e he => hfree e (List.mem_cons_of_mem _ he)) hsorted.2
      have hkb : ((k, v).1 == d) = false := by simpa using hk
      simpa [ConnectionStorage.find, List.find?_cons, hkb] using hfind

/-- C7 as the code has it: `SetClientUsername(d, n)` is called with a valid descriptor `d` and a
non-empty `n` on a registry whose keys are distinct (ascending, as in a `std::map`). If some
connection of the registry, the caller's own included, has the username `n`, it returns
`eAlreadyDefined`; otherwise, if `d` is not a key, it returns `eNotFound`; in both cases the state
is unchanged. Otherwise it returns `sOk` and the only change is that the username of the
connection at `d` is `n`; a second call with the same arguments then returns `eAlreadyDefined`. -/
theorem SetClientUsername_result (m : ConnectionManager) (d : SocketDescriptor) (n : List Char)
    (rawTime : Int) (hd : d ≠ INVALID_DESCRIPTOR) (hn : n ≠ [])
    (hsorted : m.m_activeConnections.Pairwise (fun a b => a.1 < b.1)) :
    ((∃ e ∈ m.m_activeConnections, (m.heap e.2).GetUsername = n) →
      m.SetClientUsername d n rawTime = .ok (.eAlreadyDefined, m)) ∧
    ((¬ ∃ e ∈ m.m_activeConnections, (m.heap e.2).GetUsername = n) →
      ((∀ e ∈ m.m_activeConnections, e.1 ≠ d) →
        m.SetClientUsername d n rawTime = .ok (.eNotFound, m)) ∧
      (∀ p, m.m_activeConnections.find d = some p →
        m.SetClientUsername d n rawTime
          = .ok (.sOk, m.store p { m.heap p with m_username := n }) ∧
        (m.store p { m.heap p with m_username := n }).SetClientUsername d n rawTime
          = .ok (.eAlreadyDefined, m.store p { m.heap p with m_username := n }))) := by
  refine ⟨?_, ?_⟩
  · intro htaken
    have := (scanUsernames_eq_none_iff m.heap d n m.m_activeConnections none).mpr htaken
    simp [ConnectionManager.SetClientUsername, hd, this]
  · intro hfree
    have hfree2 : ∀ e ∈ m.m_activeConnections, (m.heap e.2).GetUsername ≠ n :=
      fun e he h => hfree ⟨e, he, h⟩
    refine ⟨?_, ?_⟩
    · intro hkey
      have := scanUsernames_no_key m.heap d n m.m_activeConnections none hfree2 hkey
      simp [ConnectionManager.SetClientUsername, hd, this]
    · intro p hfind
      have hscan := scanUsernames_key m.heap d n m.m_activeConnections none p hfree2 hsorted hfind
      refine ⟨?_, ?_⟩
      · simp [ConnectionManager.SetClientUsername, hd, hscan, ConnectionHolder.SetUsername, hn,
          ConnectionManager.store]
      · have hmem : (d, p) ∈ m.m_activeConnections := by
          simp only [ConnectionStorage.find, Option.map_eq_some'] at hfind
          obtain ⟨e, he, hp⟩ := hfind
          have h1 := List.find?_some he
          have h2 := List.mem_of_find?_eq_some he
          obtain ⟨k, v⟩ := e
          simp only [beq_iff_eq] at h1
          simp only at hp
          subst h1; subst hp
          exact h2
        have htaken : ∃ e ∈ (m.store p { m.heap p with m_username := n }).m_activeConnections,
            ((m.store p { m.heap p with m_username := n }).heap e.2).GetUsername = n :=
          ⟨(d, p), hmem, by simp [ConnectionManager.store, ConnectionHolder.GetUsername]⟩
        have := (scanUsernames_eq_none_iff _ d n _ none).mpr htaken
        simp [ConnectionManager.SetClientUsername, hd, this]

/-- Witness of C7: in the example registry no connection is named `carol`, so `alice`
(descriptor 5, object 1) gets the name, and a second call returns `eAlreadyDefined`. -/
theorem SetClientUsername_result_witness :
    exampleManager.SetClientUsername 5 (String.toList "carol") 0
      = .ok (.sOk, exampleManager.store 1
          { exampleManager.heap 1 with m_username := String.toList "carol" }) ∧
    (exampleManager.store 1
        { exampleManager.heap 1 with m_username := String.toList "carol" }).SetClientUsername
          5 (String.toList "carol") 0
      = .ok (.eAlreadyDefined, exampleManager.store 1
          { exampleManager.heap 1 with m_username := String.toList "carol" }) :=
  ((SetClientUsername_result exampleManager 5 (String.toList "carol") 0 (by decide) (by decide)
    (by decide)).2 (by decide)).2 1 (by decide)

/-- Counterexample to C7 as stated: `bob` is a username of the registry, yet the call with the
descriptor `INVALID_DESCRIPTOR` does not return `eAlreadyDefined`: its `CHECK_ARGUMENT` throws
`eInvalidArgument`. -/
theorem SetClientUsername_invalid_descriptor_throws :
    (String.toList "bob" ≠ []) ∧
    (∃ e ∈ exampleManager.m_activeConnections,
      (exampleManager.heap e.2).GetUsername = String.toList "bob") ∧
    exampleManager.SetClientUsername INVALID_DESCRIPTOR (String.toList "bob") 0
      = .error .eInvalidArgument ∧
    exampleManager.SetClientUsername INVALID_DESCRIPTOR (String.toList "bob") 0
      ≠ .ok (.eAlreadyDefined, exampleManager) := by
  refine ⟨by decide, ⟨(6, 2), by decide, by decide⟩, rfl, ?_⟩
  intro h
  cases h

/-! ## The broadcast of `WriteAnswerTask` -/

theorem writeToAll_eq (heap : ConnectionHolderPtr → ConnectionHolder) (senderSocket : SocketDescriptor)
    (msg : List Char) (S : List ConnectionHolderPtr) :
    WriteAnswerTask.writeToAll heap senderSocket msg S
      = (S.filter fun it => !WriteAnswerTask.skips heap senderSocket it).map
          fun it => { connection := it, data := msg } := by
  induction S with
  | nil => rfl
  | cons it rest ih =>
    unfold WriteAnswerTask.writeToAll
    cases h : WriteAnswerTask.skips heap senderSocket it
    · rw [List.filter_cons_of_pos (by simp [h])]
      simp [ih]
    · rw [List.filter_cons_of_neg (by simp [h])]
      simp [ih]

theorem writeList_eq (heap : ConnectionHolderPtr → ConnectionHolder) (senderSocket : SocketDescriptor)
    (S : List ConnectionHolderPtr) (msgs : MessageList) :
    WriteAnswerTask.writeList heap senderSocket S msgs
      = msgs.flatMap fun msg => WriteAnswerTask.writeToAll heap senderSocket msg S := by
  induction msgs with
  | nil => rfl
  | cons msg rest ih => simp [WriteAnswerTask.writeList, ih]

theorem writeToAll_to_one (heap : ConnectionHolderPtr → ConnectionHolder)
    (senderSocket : SocketDescriptor) (msg : List Char) (S : List ConnectionHolderPtr)
    (hS : S.Nodup) (p : ConnectionHolderPtr) :
    ((WriteAnswerTask.writeToAll heap senderSocket msg S).filter
        fun w => decide (w.connection = p)).map (fun w => w.data)
      = if p ∈ S ∧ WriteAnswerTask.skips heap senderSocket p = false then [msg] else [] := by
  induction S with
  | nil => simp [WriteAnswerTask.writeToAll]
  | cons it rest ih =>
    rw [List.nodup_cons] at hS
    have ih2 := ih hS.2
    unfold WriteAnswerTask.writeToAll
    by_cases hit : it = p
    · subst hit
      have hrest : ((WriteAnswerTask.writeToAll heap senderSocket msg rest).filter
          fun w => decide (w.connection = it)).map (fun w => w.data) = [] := by
        rw [ih2, if_neg (fun h => hS.1 h.1)]
      cases h : WriteAnswerTask.skips heap senderSocket it
      · rw [if_neg (by simp), List.filter_cons_of_pos (by simp), List.map_cons, hrest,
          if_pos ⟨List.mem_cons_self _ _, rfl⟩]
      · rw [if_pos rfl, hrest, if_neg (by simp)]
    · have hmem : p ∈ it :: rest ↔ p ∈ rest := by
        rw [List.mem_cons]
        exact ⟨fun h => h.resolve_left (fun e => hit e.symm), Or.inr⟩
      cases h : WriteAnswerTask.skips heap senderSocket it
      · rw [if_neg (by simp), List.filter_cons_of_neg (by simpa using hit), ih2]
        simp only [hmem]
      · rw [if_pos rfl, ih2]
        simp only [hmem]

theorem skips_eq_false_iff (heap : ConnectionHolderPtr → ConnectionHolder)
    (senderSocket : SocketDescriptor) (p : ConnectionHolderPtr) :
    WriteAnswerTask.skips heap senderSocket p = false
      ↔ (heap p).IsListeningSocket = false ∧ (heap p).GetSocketDescriptor ≠ senderSocket := by
  simp [WriteAnswerTask.skips]

/-- C9: `Execute` of a broadcast `WriteAnswerTask` (non-empty message list `msgs`, snapshot `S` of
distinct connections) returns normally; its writes are, message by message in list order, one
write to every connection of `S` that the loop does not skip. So each connection of `S` that is
not a listening socket and whose descriptor differs from `senderSocket` gets exactly the messages
of the list, each once and in list order, and every other connection, the sender and the listening
sockets included, gets nothing. -/
theorem broadcast_writes_each_message_once (heap : ConnectionHolderPtr → ConnectionHolder)
    (S : List ConnectionHolderPtr) (m_messageDescription : MessageDescription)
    (msgs : MessageList) (hmsgs : msgs ≠ []) (hS : S.Nodup) :
    ∃ writes, WriteAnswerTask.Execute heap S m_messageDescription msgs = .ok writes ∧
      writes = (msgs.flatMap fun msg =>
        (S.filter fun it =>
            !WriteAnswerTask.skips heap m_messageDescription.senderSocket it).map
          fun it => { connection := it, data := msg }) ∧
      ∀ p, ((writes.filter fun w => decide (w.connection = p)).map fun w => w.data)
        = if p ∈ S ∧ (heap p).IsListeningSocket = false
              ∧ (heap p).GetSocketDescriptor ≠ m_messageDescription.senderSocket
          then msgs else [] := by
  have hexec : WriteAnswerTask.Execute heap S m_messageDescription msgs
      = .ok (WriteAnswerTask.writeList heap m_messageDescription.senderSocket S msgs) := by
    simp [WriteAnswerTask.Execute, hmsgs]
  refine ⟨_, hexec, ?_, ?_⟩
  · rw [writeList_eq]
    simp only [writeToAll_eq]
  · intro p
    simp only [← skips_eq_false_iff]
    clear hexec hmsgs
    induction msgs with
    | nil => simp [WriteAnswerTask.writeList]
    | cons msg rest ih =>
      simp only [WriteAnswerTask.writeList, List.filter_append, List.map_append, ih,
        writeToAll_to_one heap _ msg S hS p]
      split <;> simp

/-- Witness of C9: `alice` (descriptor 5) broadcasts two lines to the snapshot of the example
registry; only `bob` is written to. -/
theorem broadcast_writes_each_message_once_witness :
    ∃ writes, WriteAnswerTask.Execute exampleHeap [0, 1, 2]
        (exampleMessage (String.toList "hi\nyou\n"))
        [String.toList "alice> hi\n", String.toList "alice> you\n"] = .ok writes ∧
      writes = ([String.toList "alice> hi\n", String.toList "alice> you\n"].flatMap fun msg =>
        ([0, 1, 2].filter fun it => !WriteAnswerTask.skips exampleHeap
              (exampleMessage (String.toList "hi\nyou\n")).senderSocket it).map
          fun it => { connection := it, data := msg }) ∧
      ∀ p, ((writes.filter fun w => decide (w.connection = p)).map fun w => w.data)
        = if p ∈ [0, 1, 2] ∧ (exampleHeap p).IsListeningSocket = false
              ∧ (exampleHeap p).GetSocketDescriptor
                  ≠ (exampleMessage (String.toList "hi\nyou\n")).senderSocket
          then [String.toList "alice> hi\n", String.toList "alice> you\n"] else [] :=
  broadcast_writes_each_message_once exampleHeap [0, 1, 2]
    (exampleMessage (String.toList "hi\nyou\n"))
    [String.toList "alice> hi\n", String.toList "alice> you\n"] (by decide) (by decide)


/-! ## The loop of `ProcessMessageTask::Execute` -/

namespace ProcessMessageTask

theorem dispatch_chat (defs : CompiledDefinitions) (rawTime : Int) (st : ExecState)
    (x : List Char) (hx : x.head? ≠ some ChatServiceSymbol) :
    dispatch defs rawTime st x
      = .ok (false, StoreChatMessage st st.task.m_messageDescription.senderName x) := by
  simp [dispatch, hx]

theorem storeAll_eq (st : ExecState) (chunks : List (List Char)) :
    storeAll st chunks
      = { st with task := { st.task with
          m_messageList := st.task.m_messageList ++ chunks.map fun x =>
            st.task.m_messageDescription.senderName ++ String.toList "> " ++ x } } := by
  induction chunks generalizing st with
  | nil => simp [storeAll]
  | cons x rest ih =>
    have h : storeAll st (x :: rest)
        = storeAll (StoreChatMessage st st.task.m_messageDescription.senderName x) rest := rfl
    rw [h, ih]
    simp [StoreChatMessage]

theorem executeLoop_of_cut_nil (defs : CompiledDefinitions) (rawTime : Int) (fuel i tp : Nat)
    (st : ExecState) (h : cutLoop st.task.m_messageDescription.data fuel i tp = some []) :
    executeLoop defs rawTime fuel i tp st = .ok st := by
  cases fuel with
  | zero =>
    unfold cutLoop at h
    unfold executeLoop
    split at h
    · cases h
    · rename_i hi; simp [hi]
  | succ f =>
    unfold cutLoop at h
    unfold executeLoop
    split at h
    · simp at h
    · rename_i hi; simp [hi]

/-- The rounds of the loop over pieces that are chat messages store them and lead to the round
of the next piece. -/
theorem executeLoop_chat_prefix (defs : CompiledDefinitions) (rawTime : Int)
    (pre rest : List (List Char)) (hpre : ∀ x ∈ pre, x.head? ≠ some ChatServiceSymbol) :
    ∀ (fuel i tp : Nat) (st : ExecState),
      cutLoop st.task.m_messageDescription.data fuel i tp = some (pre ++ rest) →
      ∃ fuel1 i1 tp1, cutLoop st.task.m_messageDescription.data fuel1 i1 tp1 = some rest ∧
        executeLoop defs rawTime fuel i tp st
          = executeLoop defs rawTime fuel1 i1 tp1 (storeAll st pre) := by
  induction pre with
  | nil => intro fuel i tp st h; exact ⟨fuel, i, tp, h, rfl⟩
  | cons x pre1 ih =>
    intro fuel i tp st h
    have hx := hpre x (List.mem_cons_self _ _)
    cases fuel with
    | zero =>
      unfold cutLoop at h
      split at h <;> simp at h
    | succ f =>
      unfold cutLoop at h
      split at h
      · rename_i hi
        simp only [Option.map_eq_some', List.cons_append] at h
        obtain ⟨tail, hcut, htail⟩ := h
        simp only [List.cons.injEq] at htail
        obtain ⟨hsub, htl⟩ := htail
        subst htl
        have hdata : (StoreChatMessage st st.task.m_messageDescription.senderName
            x).task.m_messageDescription.data = st.task.m_messageDescription.data := rfl
        obtain ⟨fuel1, i1, tp1, hc1, he1⟩ := ih (fun y hy => hpre y (List.mem_cons_of_mem _ hy)) f
          (i + nextTerminationPosition st.task.m_messageDescription.data i)
          (nextTerminationPosition st.task.m_messageDescription.data i)
          (StoreChatMessage st st.task.m_messageDescription.senderName x)
          (by rw [hdata]; exact hcut)
        refine ⟨fuel1, i1, tp1, by rw [hdata] at hc1; exact hc1, ?_⟩
        rw [executeLoop]
        simp only [hi, if_true, hsub, dispatch_chat defs rawTime st x hx, hdata]
        exact he1
      · simp at h

theorem regex_match_head (c : List Char) (r : List Char × List Char × List Char)
    (h : regex_match c = some r) : c.head? = some ChatServiceSymbol := by
  unfold regex_match at h
  split at h
  · cases h
  · rename_i ch rest
    by_cases hc : ch = '\\'
    · subst hc; rfl
    · simp [hc] at h

theorem ProcessChatMessages_manager (st : ExecState) :
    (ProcessChatMessages st).manager = st.manager := by
  unfold ProcessChatMessages
  split <;> rfl

theorem ProcessChatMessages_description (st : ExecState) :
    (ProcessChatMessages st).task.m_messageDescription = st.task.m_messageDescription := by
  unfold ProcessChatMessages
  split <;> rfl

theorem ProcessChatMessages_list (st : ExecState) :
    (ProcessChatMessages st).task.m_messageList = [] := by
  unfold ProcessChatMessages
  split
  · assumption
  · rfl

theorem ProcessChatMessages_posted (st : ExecState) :
    (ProcessChatMessages st).posted
      = st.posted ++ (if st.task.m_messageList = [] then []
          else [.PostFastTask (.WriteAnswerTask st.manager.GetActiveConnections
            { st.task.m_messageDescription with sender := none } st.task.m_messageList)]) := by
  unfold ProcessChatMessages
  split
  · simp
  · rfl

/-- The round of the loop for a piece that parses as a `\nickname` command with a valid argument
that the registry accepts. -/
theorem dispatch_nickname (defs : CompiledDefinitions) (rawTime : Int) (st : ExecState)
    (c arg text : List Char) (m1 : ConnectionManager)
    (hparse : regex_match c = some (String.toList "nickname", arg, text))
    (hvalid : (ValidateNickname (trim arg) []).1 = .sOk)
    (hset : st.manager.SetClientUsername st.task.m_messageDescription.senderSocket (trim arg)
      rawTime = .ok (.sOk, m1)) :
    dispatch defs rawTime st c = .ok (false,
      { manager := m1,
        task :=
          { m_messageDescription :=
              { st.task.m_messageDescription with senderName := trim arg },
            m_messageList :=
              [String.toList "SERVER> User " ++ [apostrophe]
                ++ st.task.m_messageDescription.senderName ++ [apostrophe]
                ++ String.toList " is now known as " ++ [apostrophe] ++ trim arg
                ++ [apostrophe] ++ String.toList "\n"] },
        posted := (ProcessChatMessages st).posted ++
          [.PostFastTask (.WriteAnswerTask []
            { st.task.m_messageDescription with
              sender := none
              receiver := st.task.m_messageDescription.sender
              data := String.toList "SERVER> ok.\n" } [])] }) := by
  have hhead := regex_match_head c _ hparse
  have hcmd : GetCommandIdByName (String.toList "nickname") = .ok .CommandNickName := rfl
  have hok : ServerSenderName ++ String.toList "> " ++ String.toList "ok."
      ++ [ChatTerminationSymbol] = String.toList "SERVER> ok.\n" := by decide
  have hline : ∀ a b : List Char,
      ServerSenderName ++ String.toList "> " ++ (String.toList "User " ++ [apostrophe] ++ a
        ++ [apostrophe] ++ String.toList " is now known as " ++ [apostrophe] ++ b
        ++ [apostrophe] ++ [ChatTerminationSymbol])
      = String.toList "SERVER> User " ++ [apostrophe] ++ a ++ [apostrophe]
        ++ String.toList " is now known as " ++ [apostrophe] ++ b ++ [apostrophe]
        ++ String.toList "\n" := by
    intro a b
    have h1 : ServerSenderName ++ String.toList "> " ++ String.toList "User "
        = String.toList "SERVER> User " := by decide
    have h2 : [ChatTerminationSymbol] = String.toList "\n" := by decide
    rw [← h1, h2]
    simp only [List.append_assoc]
  unfold dispatch
  rw [if_pos hhead]
  unfold ProcessServiceMessage
  simp only [hparse, hcmd]
  unfold AssembleServiceMessage
  simp only [hvalid, ProcessChatMessages_manager, ProcessChatMessages_description, hset,
    ne_eq, not_true_eq_false, if_false, reduceCtorEq]
  simp only [PostServerMessage, PostSingleMessage, PostFastTask, StoreChatMessage,
    WriteAnswerTask.newSingle, ProcessChatMessages_list, ProcessChatMessages_description,
    hok, hline, List.nil_append]

theorem storeAll_manager (st : ExecState) (chunks : List (List Char)) :
    (storeAll st chunks).manager = st.manager := by
  rw [storeAll_eq]

theorem storeAll_posted (st : ExecState) (chunks : List (List Char)) :
    (storeAll st chunks).posted = st.posted := by
  rw [storeAll_eq]

theorem storeAll_description (st : ExecState) (chunks : List (List Char)) :
    (storeAll st chunks).task.m_messageDescription = st.task.m_messageDescription := by
  rw [storeAll_eq]

theorem storeAll_list (st : ExecState) (chunks : List (List Char)) :
    (storeAll st chunks).task.m_messageList
      = st.task.m_messageList ++ chunks.map fun x =>
          st.task.m_messageDescription.senderName ++ String.toList "> " ++ x := by
  rw [storeAll_eq]

theorem dispatch_nickname_state (defs : CompiledDefinitions) (rawTime : Int) (st : ExecState)
    (c arg text : List Char) (m1 : ConnectionManager)
    (hparse : regex_match c = some (String.toList "nickname", arg, text))
    (hvalid : (ValidateNickname (trim arg) []).1 = .sOk)
    (hset : st.manager.SetClientUsername st.task.m_messageDescription.senderSocket (trim arg)
      rawTime = .ok (.sOk, m1)) :
    ∃ st2, dispatch defs rawTime st c = .ok (false, st2) ∧ st2.manager = m1 ∧
      st2.task.m_messageDescription
        = { st.task.m_messageDescription with senderName := trim arg } ∧
      st2.task.m_messageList
        = [String.toList "SERVER> User " ++ [apostrophe]
            ++ st.task.m_messageDescription.senderName ++ [apostrophe]
            ++ String.toList " is now known as " ++ [apostrophe] ++ trim arg
            ++ [apostrophe] ++ String.toList "\n"] ∧
      st2.posted = (ProcessChatMessages st).posted ++
        [.PostFastTask (.WriteAnswerTask []
          { st.task.m_messageDescription with
            sender := none
            receiver := st.task.m_messageDescription.sender
            data := String.toList "SERVER> ok.\n" } [])] :=
  ⟨_, dispatch_nickname defs rawTime st c arg text m1 hparse hvalid hset, rfl, rfl, rfl, rfl⟩

/-- The rounds of the loop from any of its states over chat pieces `pre`, a piece that parses as
a `\nickname` command which the registry accepts, and chat pieces `later`: the pending lines and
the lines of `pre` are flushed, the sender gets `SERVER> ok.\n`, and the new pending list is the
line of the server followed by the lines of `later` under the new name. The loop goes on with
the remaining pieces `rest`. -/
theorem executeLoop_nickname (defs : CompiledDefinitions) (rawTime : Int) (fuel i tp : Nat)
    (st : ExecState) (m1 : ConnectionManager) (pre later rest : List (List Char))
    (c arg text : List Char)
    (hpre : ∀ x ∈ pre, x.head? ≠ some ChatServiceSymbol)
    (hlater : ∀ x ∈ later, x.head? ≠ some ChatServiceSymbol)
    (hcut : cutLoop st.task.m_messageDescription.data fuel i tp
      = some (pre ++ c :: (later ++ rest)))
    (hparse : regex_match c = some (String.toList "nickname", arg, text))
    (hvalid : (ValidateNickname (trim arg) []).1 = .sOk)
    (hset : st.manager.SetClientUsername st.task.m_messageDescription.senderSocket (trim arg)
      rawTime = .ok (.sOk, m1)) :
    ∃ fuel1 i1 tp1 st1,
      executeLoop defs rawTime fuel i tp st = executeLoop defs rawTime fuel1 i1 tp1 st1 ∧
      cutLoop st1.task.m_messageDescription.data fuel1 i1 tp1 = some rest ∧
      st1.manager = m1 ∧
      st1.task.m_messageDescription
        = { st.task.m_messageDescription with senderName := trim arg } ∧
      st1.task.m_messageList
        = (String.toList "SERVER> User " ++ [apostrophe]
            ++ st.task.m_messageDescription.senderName ++ [apostrophe]
            ++ String.toList " is now known as " ++ [apostrophe] ++ trim arg
            ++ [apostrophe] ++ String.toList "\n")
          :: later.map (fun x => trim arg ++ String.toList "> " ++ x) ∧
      st1.posted = st.posted ++
        (if st.task.m_messageList ++ pre.map (fun x =>
            st.task.m_messageDescription.senderName ++ String.toList "> " ++ x) = [] then []
          else [.PostFastTask (.WriteAnswerTask st.manager.GetActiveConnections
            { st.task.m_messageDescription with sender := none }
            (st.task.m_messageList ++ pre.map fun x =>
              st.task.m_messageDescription.senderName ++ String.toList "> " ++ x))])
        ++ [.PostFastTask (.WriteAnswerTask []
            { st.task.m_messageDescription with
              sender := none
              receiver := st.task.m_messageDescription.sender
              data := String.toList "SERVER> ok.\n" } [])] := by
  -- the rounds over `pre`
  obtain ⟨fuel1, i1, tp1, hcut1, hrun1⟩ := executeLoop_chat_prefix defs rawTime pre
    (c :: (later ++ rest)) hpre fuel i tp st hcut
  -- the round of the command
  cases fuel1 with
  | zero =>
    unfold cutLoop at hcut1
    split at hcut1 <;> simp at hcut1
  | succ f =>
    unfold cutLoop at hcut1
    split at hcut1
    · rename_i hi
      simp only [Option.map_eq_some', List.cons.injEq] at hcut1
      obtain ⟨tail, hcut2, hsub, htl⟩ := hcut1
      subst htl
      obtain ⟨st2, hstep, h2m, h2d, h2l, h2p⟩ := dispatch_nickname_state defs rawTime
        (storeAll st pre) c arg text m1 hparse hvalid
        (by rw [storeAll_manager, storeAll_description]; exact hset)
      rw [storeAll_description] at h2d h2l h2p
      have h2data : st2.task.m_messageDescription.data = st.task.m_messageDescription.data := by
        rw [h2d]
      rw [executeLoop] at hrun1
      simp only [storeAll_description, hi, if_true, hsub, hstep, h2data] at hrun1
      -- the rounds over `later`
      obtain ⟨fuel2, i2, tp2, hcut3, hrun2⟩ := executeLoop_chat_prefix defs rawTime later rest
        hlater f
        (i1 + nextTerminationPosition st.task.m_messageDescription.data i1)
        (nextTerminationPosition st.task.m_messageDescription.data i1)
        st2 (by rw [h2data]; exact hcut2)
      refine ⟨fuel2, i2, tp2, storeAll st2 later, by rw [hrun1, hrun2], ?_, ?_, ?_, ?_, ?_⟩
      · rw [storeAll_description]; exact hcut3
      · rw [storeAll_manager, h2m]
      · rw [storeAll_description, h2d]
      · rw [storeAll_list, h2l, h2d]
        rfl
      · rw [storeAll_posted, h2p, ProcessChatMessages_posted, storeAll_posted, storeAll_list,
          storeAll_manager, storeAll_description]
    · simp at hcut1

/-- C10: the loop of `Execute` cuts the data of a sender named `O` into chat pieces `pre`, a
piece that parses as `\nickname N` and chat pieces `later`; `N` passes `ValidateNickname` and
`SetClientUsername` returns `sOk`. Then `Execute` posts, in this order: the broadcast of the lines
`O> x` for `x` in `pre` (when there are any), the single message `SERVER> ok.\n` for the sender,
and the broadcast whose list starts with `SERVER> User 'O' is now known as 'N'\n` and goes on
with the lines `N> x` for `x` in `later`. -/
theorem nickname_change_is_announced_in_order (defs : CompiledDefinitions) (rawTime : Int)
    (fuel : Nat) (m m1 : ConnectionManager) (md : MessageDescription)
    (pre later : List (List Char)) (c arg text : List Char)
    (hpre : ∀ x ∈ pre, x.head? ≠ some ChatServiceSymbol)
    (hlater : ∀ x ∈ later, x.head? ≠ some ChatServiceSymbol)
    (hcut : pieces md.data fuel = some (pre ++ c :: later))
    (hparse : regex_match c = some (String.toList "nickname", arg, text))
    (hvalid : (ValidateNickname (trim arg) []).1 = .sOk)
    (hset : m.SetClientUsername md.senderSocket (trim arg) rawTime = .ok (.sOk, m1)) :
    ∃ st, Execute defs rawTime fuel m { m_messageDescription := md, m_messageList := [] }
        = .ok st ∧
      st.manager = m1 ∧
      st.posted =
        (if pre = [] then []
          else [.PostFastTask (.WriteAnswerTask m.GetActiveConnections { md with sender := none }
            (pre.map fun x => md.senderName ++ String.toList "> " ++ x))])
        ++ [.PostFastTask (.WriteAnswerTask []
            { md with sender := none, receiver := md.sender,
                      data := String.toList "SERVER> ok.\n" } [])]
        ++ [.PostFastTask (.WriteAnswerTask m1.GetActiveConnections
            { md with sender := none, senderName := trim arg }
            ((String.toList "SERVER> User " ++ [apostrophe] ++ md.senderName ++ [apostrophe]
                ++ String.toList " is now known as " ++ [apostrophe] ++ trim arg
                ++ [apostrophe] ++ String.toList "\n")
              :: later.map fun x => trim arg ++ String.toList "> " ++ x))] := by
  obtain ⟨st0, hst0⟩ : ∃ s : ExecState, s = ExecState.mk m (ProcessMessageTask.mk md []) [] :=
    ⟨_, rfl⟩
  have h0m : st0.manager = m := by rw [hst0]
  have h0d : st0.task.m_messageDescription = md := by rw [hst0]
  have h0l : st0.task.m_messageList = [] := by rw [hst0]
  have h0p : st0.posted = [] := by rw [hst0]
  have hexec : Execute defs rawTime fuel m { m_messageDescription := md, m_messageList := [] }
      = match executeLoop defs rawTime fuel 0 (nextTerminationPosition md.data 0) st0 with
        | .error f => .error f
        | .ok st1 => .ok (ProcessChatMessages st1) := by
    rw [hst0]; rfl
  obtain ⟨fuel1, i1, tp1, st1, hrun, hcut1, h1m, h1d, h1l, h1p⟩ := executeLoop_nickname defs
    rawTime fuel 0 (nextTerminationPosition md.data 0) st0 m1 pre later [] c arg text hpre hlater
    (by rw [h0d, List.append_nil]; exact hcut) hparse hvalid (by rw [h0m, h0d]; exact hset)
  rw [h0d, h0l, h0p, h0m] at h1p
  rw [h0d] at h1d h1l
  rw [hexec, hrun, executeLoop_of_cut_nil defs rawTime fuel1 i1 tp1 st1 hcut1]
  refine ⟨_, rfl, ?_, ?_⟩
  · rw [ProcessChatMessages_manager, h1m]
  · rw [ProcessChatMessages_posted, h1p, h1l, h1m, h1d]
    simp only [List.nil_append, List.map_eq_nil_iff, List.cons_ne_nil, if_false,
      List.append_assoc]

/-- Witness of C10: `alice` sends a chat line, `\nickname carol` and, at the place where the loop
cuts its third piece, the chat line `hello`. -/
theorem nickname_change_is_announced_in_order_witness :
    pieces (String.toList "0123456789abcde\n\\nickname carol\nskipped frame..\nhello\n") 3
      = some [String.toList "0123456789abcde\n", String.toList "\\nickname carol\n",
          String.toList "hello\n"] ∧
    regex_match (String.toList "\\nickname carol\n")
      = some (String.toList "nickname", String.toList " carol", []) ∧
    ∃ st, Execute exampleDefinitions 0 3 exampleManager
        { m_messageDescription := exampleMessage
            (String.toList "0123456789abcde\n\\nickname carol\nskipped frame..\nhello\n"),
          m_messageList := [] } = .ok st ∧
      st.manager = exampleManager.store 1
        { exampleManager.heap 1 with m_username := String.toList "carol" } ∧
      st.posted =
        [.PostFastTask (.WriteAnswerTask [0, 1, 2]
          { exampleMessage
              (String.toList "0123456789abcde\n\\nickname carol\nskipped frame..\nhello\n") with
            sender := none }
          [String.toList "alice> 0123456789abcde\n"]),
        .PostFastTask (.WriteAnswerTask []
          { exampleMessage
              (String.toList "0123456789abcde\n\\nickname carol\nskipped frame..\nhello\n") with
            sender := none, receiver := some 1, data := String.toList "SERVER> ok.\n" } []),
        .PostFastTask (.WriteAnswerTask [0, 1, 2]
          { exampleMessage
              (String.toList "0123456789abcde\n\\nickname carol\nskipped frame..\nhello\n") with
            sender := none, senderName := String.toList "carol" }
          [String.toList "SERVER> User " ++ [apostrophe] ++ String.toList "alice" ++ [apostrophe]
              ++ String.toList " is now known as " ++ [apostrophe] ++ String.toList "carol"
              ++ [apostrophe] ++ String.toList "\n",
            String.toList "carol> hello\n"])] :=
  ⟨by decide, by decide,
    nickname_change_is_announced_in_order exampleDefinitions 0 3 exampleManager
      (exampleManager.store 1 { exampleManager.heap 1 with m_username := String.toList "carol" })
      (exampleMessage
        (String.toList "0123456789abcde\n\\nickname carol\nskipped frame..\nhello\n"))
      [String.toList "0123456789abcde\n"] [String.toList "hello\n"]
      (String.toList "\\nickname carol\n") (String.toList " carol") []
      (by decide) (by decide) (by decide) (by decide) (by decide) rfl⟩

/-- C1: the payload `a\nbcd\n` of two frames passes the constructor, and `Execute` posts one
broadcast whose list is `alice> a\n`, `alice> bc`: the second piece is cut with the length of the
first frame, because `terminationPosition` is set to an absolute position. -/
theorem Execute_cuts_second_frame_short :
    ProcessMessageTask.new (exampleMessage (String.toList "a\nbcd\n"))
      = .ok { m_messageDescription := exampleMessage (String.toList "a\nbcd\n"),
              m_messageList := [] } ∧
    ∃ st, Execute exampleDefinitions 0 6 exampleManager
        { m_messageDescription := exampleMessage (String.toList "a\nbcd\n"),
          m_messageList := [] } = .ok st ∧
      st.posted =
        [.PostFastTask (.WriteAnswerTask [0, 1, 2]
          { exampleMessage (String.toList "a\nbcd\n") with sender := none }
          [String.toList "alice> a\n", String.toList "alice> bc"])] :=
  ⟨rfl, _, rfl, by decide⟩

end ProcessMessageTask



/-! ## Uniqueness of usernames

### Generated usernames -/

theorem toDigitsCore_eq_digits : ∀ (fuel n : Nat) (ds : List Char), n < fuel → 0 < n →
    Nat.toDigitsCore 10 fuel n ds = ((Nat.digits 10 n).reverse.map Nat.digitChar) ++ ds := by
  intro fuel
  induction fuel with
  | zero => intro n ds h; omega
  | succ f ih =>
    intro n ds hn hpos
    unfold Nat.toDigitsCore
    by_cases h : n / 10 = 0
    · have hlt : n < 10 := by omega
      have hmod : n % 10 = n := Nat.mod_eq_of_lt hlt
      simp only [h, if_true, hmod]
      rw [Nat.digits_of_lt 10 n (by omega) hlt]
      rfl
    · simp only [h, if_false]
      rw [ih (n / 10) _ (by omega) (by omega), Nat.digits_def' (by omega) hpos]
      simp

theorem toDigits_eq_digits (n : Nat) (hpos : 0 < n) :
    Nat.toDigits 10 n = (Nat.digits 10 n).reverse.map Nat.digitChar := by
  unfold Nat.toDigits
  rw [toDigitsCore_eq_digits (n + 1) n [] (by omega) hpos]
  simp

/-- The value of a decimal digit character. -/
theorem digitChar_value : ∀ d, d < 10 → (Nat.digitChar d).toNat - 48 = d := by decide

theorem digitChar_ne_underscore : ∀ d, d < 10 → Nat.digitChar d ≠ '_' := by decide

theorem map_digitChar_injective (l1 l2 : List Nat) (h1 : ∀ d ∈ l1, d < 10)
    (h2 : ∀ d ∈ l2, d < 10) (h : l1.map Nat.digitChar = l2.map Nat.digitChar) : l1 = l2 := by
  have key : ∀ l : List Nat, (∀ d ∈ l, d < 10) →
      (l.map Nat.digitChar).map (fun ch => ch.toNat - 48) = l := by
    intro l hl
    induction l with
    | nil => rfl
    | cons d rest ih =>
      simp only [List.map_cons, List.cons.injEq]
      exact ⟨digitChar_value d (hl d (List.mem_cons_self _ _)),
        ih (fun x hx => hl x (List.mem_cons_of_mem _ hx))⟩
  rw [← key l1 h1, ← key l2 h2, h]

theorem toDigits_injective (a b : Nat) (h : Nat.toDigits 10 a = Nat.toDigits 10 b) : a = b := by
  have hzero : Nat.toDigits 10 0 = [Nat.digitChar 0] := by decide
  have hrepr : ∀ n, ∃ l : List Nat, (∀ d ∈ l, d < 10) ∧ Nat.toDigits 10 n = l.map Nat.digitChar
      ∧ Nat.ofDigits 10 l.reverse = n := by
    intro n
    rcases Nat.eq_zero_or_pos n with h0 | hpos
    · subst h0
      exact ⟨[0], by simp, hzero, by simp [Nat.ofDigits]⟩
    · refine ⟨(Nat.digits 10 n).reverse, ?_, by rw [toDigits_eq_digits n hpos], ?_⟩
      · intro d hd
        exact Nat.digits_lt_base (by omega) (List.mem_reverse.mp hd)
      · rw [List.reverse_reverse, Nat.ofDigits_digits]
  obtain ⟨la, ha1, ha2, ha3⟩ := hrepr a
  obtain ⟨lb, hb1, hb2, hb3⟩ := hrepr b
  have : la = lb := map_digitChar_injective la lb ha1 hb1 (by rw [← ha2, ← hb2, h])
  rw [← ha3, ← hb3, this]

theorem underscore_not_mem_toDigits (n : Nat) : '_' ∉ Nat.toDigits 10 n := by
  rcases Nat.eq_zero_or_pos n with h0 | hpos
  · subst h0; decide
  · rw [toDigits_eq_digits n hpos]
    intro hmem
    obtain ⟨d, hd, hch⟩ := List.mem_map.mp hmem
    exact digitChar_ne_underscore d (Nat.digits_lt_base (by omega) (List.mem_reverse.mp hd)) hch

theorem split_at_first (x : Char) : ∀ (a a1 b b1 : List Char), x ∉ a → x ∉ a1 →
    a ++ x :: b = a1 ++ x :: b1 → a = a1 := by
  intro a
  induction a with
  | nil =>
    intro a1 b b1 _ h1 h
    cases a1 with
    | nil => rfl
    | cons y ys =>
      simp only [List.nil_append, List.cons_append, List.cons.injEq] at h
      exact absurd (h.1 ▸ List.mem_cons_self _ _) h1
  | cons z zs ih =>
    intro a1 b b1 h0 h1 h
    cases a1 with
    | nil =>
      simp only [List.nil_append, List.cons_append, List.cons.injEq] at h
      exact absurd (h.1 ▸ List.mem_cons_self _ _) h0
    | cons y ys =>
      simp only [List.cons_append, List.cons.injEq] at h
      rw [h.1, ih ys b b1 (fun hm => h0 (List.mem_cons_of_mem _ hm))
        (fun hm => h1 (List.mem_cons_of_mem _ hm)) h.2]

theorem autoUsername_injective (t1 t2 : Int) (c1 c2 : Nat)
    (h : autoUsername t1 (c1 : Int) = autoUsername t2 (c2 : Int)) : c1 = c2 := by
  unfold autoUsername at h
  have hshow : ∀ c : Nat, showLong (c : Int) = Nat.toDigits 10 c := fun _ => rfl
  rw [hshow, hshow] at h
  have hrev := congrArg List.reverse h
  simp only [List.reverse_append, List.reverse_cons, List.reverse_nil, List.nil_append,
    List.append_assoc, List.singleton_append] at hrev
  have := split_at_first '_' _ _ _ _
    (fun hm => underscore_not_mem_toDigits c1 (List.mem_reverse.mp hm))
    (fun hm => underscore_not_mem_toDigits c2 (List.mem_reverse.mp hm)) hrev
  exact toDigits_injective c1 c2 (List.reverse_injective this)

theorem autoUsername_ne_nil (t c : Int) : autoUsername t c ≠ [] := by
  simp [autoUsername]

theorem autoUsername_not_alnum (t c : Int) : (autoUsername t c).all isAlnum = false := by
  have hmem : '_' ∈ autoUsername t c := by simp [autoUsername]
  have hu : isAlnum '_' = false := by decide
  rw [List.all_eq_false]
  exact ⟨'_', hmem, by simp [hu]⟩

theorem wrapLong_of_in_range (x : Int) (h0 : 0 ≤ x) (h1 : x < 9223372036854775808) :
    wrapLong x = x := by
  unfold wrapLong
  omega

/-! ### The registry invariant -/

theorem RegistryInvariant.of_subregistry (m m1 : ConnectionManager) (h : RegistryInvariant m)
    (hsub : ∀ e ∈ m1.m_activeConnections, e ∈ m.m_activeConnections)
    (hnodup : (m1.m_activeConnections.map fun e => e.2).Nodup)
    (hnames : ∀ e ∈ m1.m_activeConnections,
      (m1.heap e.2).m_username = (m.heap e.2).m_username)
    (hsize : m.heapSize ≤ m1.heapSize) (hid : m.userId ≤ m1.userId) :
    RegistryInvariant m1 := by
  refine ⟨le_trans h.counter hid, ?_, hnodup, ?_, ?_⟩
  · intro e he
    exact lt_of_lt_of_le (h.allocated e (hsub e he)) hsize
  · intro e he
    rw [hnames e he]
    rcases h.names e (hsub e he) with hn | ⟨t, c, hc, hn⟩
    · exact Or.inl hn
    · exact Or.inr ⟨t, c, le_trans hc hid, hn⟩
  · intro e1 he1 e2 he2 hne heq
    rw [hnames e1 he1] at heq ⊢
    rw [hnames e2 he2] at heq
    exact h.unique e1 (hsub e1 he1) e2 (hsub e2 he2) hne heq

theorem mem_insert (es : ConnectionStorage) (k : SocketDescriptor) (v : ConnectionHolderPtr)
    (e : SocketDescriptor × ConnectionHolderPtr) (he : e ∈ es.insert k v) :
    e = (k, v) ∨ e ∈ es := by
  induction es with
  | nil =>
    simp only [ConnectionStorage.insert, List.mem_singleton] at he
    exact Or.inl he
  | cons x rest ih =>
    obtain ⟨k1, v1⟩ := x
    unfold ConnectionStorage.insert at he
    split at he
    · rcases List.mem_cons.mp he with h | h
      · exact Or.inl h
      · exact Or.inr h
    · split at he
      · exact Or.inr he
      · rcases List.mem_cons.mp he with h | h
        · exact Or.inr (h ▸ List.mem_cons_self _ _)
        · rcases ih h with h2 | h2
          · exact Or.inl h2
          · exact Or.inr (List.mem_cons_of_mem _ h2)

theorem nodup_insert (es : ConnectionStorage) (k : SocketDescriptor) (v : ConnectionHolderPtr)
    (hes : (es.map fun e => e.2).Nodup) (hv : v ∉ es.map fun e => e.2) :
    ((es.insert k v).map fun e => e.2).Nodup := by
  induction es with
  | nil => simp [ConnectionStorage.insert]
  | cons x rest ih =>
    obtain ⟨k1, v1⟩ := x
    simp only [List.map_cons, List.nodup_cons, List.mem_cons, not_or] at hes hv
    unfold ConnectionStorage.insert
    split
    · simp only [List.map_cons, List.nodup_cons, List.mem_cons, not_or]
      exact ⟨⟨hv.1, hv.2⟩, hes.1, hes.2⟩
    · split
      · simp only [List.map_cons, List.nodup_cons]
        exact hes
      · simp only [List.map_cons, List.nodup_cons]
        refine ⟨?_, ih hes.2 hv.2⟩
        intro hmem
        obtain ⟨e, he, hev⟩ := List.mem_map.mp hmem
        rcases mem_insert rest k v e he with h | h
        · subst h
          exact hv.1 hev
        · exact hes.1 (hev ▸ List.mem_map_of_mem (fun e => e.2) h)

theorem mem_erase (es : ConnectionStorage) (k : SocketDescriptor)
    (e : SocketDescriptor × ConnectionHolderPtr) (he : e ∈ es.erase k) : e ∈ es :=
  List.mem_of_mem_filter he

theorem nodup_erase (es : ConnectionStorage) (k : SocketDescriptor)
    (hes : (es.map fun e => e.2).Nodup) : ((es.erase k).map fun e => e.2).Nodup :=
  List.Nodup.sublist (List.Sublist.map _ (List.filter_sublist es)) hes

/-- Registering a further object keeps the invariant, if its username is well-formed and is
not in use unless it is empty. -/
theorem RegistryInvariant.register (m : ConnectionManager) (p : ConnectionHolderPtr)
    (es : ConnectionStorage) (fd : SocketDescriptor) (epoll : List SocketDescriptor)
    (h : RegistryInvariant m) (hp : p < m.heapSize)
    (hfresh : p ∉ m.m_activeConnections.map fun e => e.2)
    (hname : (m.heap p).m_username.all isAlnum = true ∨
      ∃ (t : Int) (c : Nat), (c : Int) ≤ m.userId ∧ (m.heap p).m_username = autoUsername t c)
    (hfree : ∀ e ∈ m.m_activeConnections,
      (m.heap e.2).m_username = (m.heap p).m_username → (m.heap p).m_username = [])
    (hes : es = (m.m_activeConnections.erase fd).insert fd p) :
    RegistryInvariant { m with m_activeConnections := es, epollSet := epoll } := by
  subst hes
  have hmem : ∀ e ∈ (m.m_activeConnections.erase fd).insert fd p,
      e = (fd, p) ∨ e ∈ m.m_activeConnections := by
    intro e he
    rcases mem_insert _ _ _ _ he with h1 | h1
    · exact Or.inl h1
    · exact Or.inr (mem_erase _ _ _ h1)
  refine ⟨h.counter, ?_, ?_, ?_, ?_⟩
  · intro e he
    rcases hmem e he with h1 | h1
    · subst h1; exact hp
    · exact h.allocated e h1
  · apply nodup_insert _ _ _ (nodup_erase _ _ h.distinct)
    intro hm
    obtain ⟨e, he, hev⟩ := List.mem_map.mp hm
    exact hfresh (hev ▸ List.mem_map_of_mem (fun e => e.2) (mem_erase _ _ _ he))
  · intro e he
    rcases hmem e he with h1 | h1
    · subst h1; exact hname
    · exact h.names e h1
  · intro e1 he1 e2 he2 hne heq
    rcases hmem e1 he1 with h1 | h1 <;> rcases hmem e2 he2 with h2 | h2
    · subst h1; subst h2; exact absurd rfl hne
    · subst h1; exact hfree e2 h2 heq.symm
    · subst h2
      have := hfree e1 h1 heq
      simp only at heq this ⊢
      rw [heq]; exact this
    · exact h.unique e1 h1 e2 h2 hne heq

theorem RegistryInvariant.alloc (m : ConnectionManager) (c : ConnectionHolder)
    (h : RegistryInvariant m) : RegistryInvariant (m.alloc c).1 := by
  apply RegistryInvariant.of_subregistry m _ h
  · intro e he; exact he
  · exact h.distinct
  · intro e he
    have hlt : e.2 < m.heapSize := h.allocated e he
    have hne : e.2 ≠ m.heapSize := Nat.ne_of_lt hlt
    simp [ConnectionManager.alloc, Function.update_noteq hne]
  · simp [ConnectionManager.alloc]
  · exact le_refl _

theorem AddConnection_ok (m m1 : ConnectionManager) (p : ConnectionHolderPtr) (epollCtl : Int)
    (h : m.AddConnection (some p) epollCtl = .ok m1) :
    ∃ fd epoll, m1 = { m with
      m_activeConnections := (m.m_activeConnections.erase fd).insert fd p, epollSet := epoll } := by
  unfold ConnectionManager.AddConnection at h
  simp only at h
  split at h
  · cases h
  · split at h
    · cases h
    · injection h with h
      exact ⟨_, _, by rw [← h]⟩

theorem RegistryInvariant.alloc_register (m m1 : ConnectionManager) (c : ConnectionHolder)
    (epollCtl : Int) (h : RegistryInvariant m)
    (hname : c.m_username.all isAlnum = true ∨
      ∃ (t : Int) (k : Nat), (k : Int) ≤ m.userId ∧ c.m_username = autoUsername t k)
    (hfree : ∀ e ∈ m.m_activeConnections,
      (m.heap e.2).m_username = c.m_username → c.m_username = [])
    (hadd : (m.alloc c).1.AddConnection (some (m.alloc c).2) epollCtl = .ok m1) :
    RegistryInvariant m1 := by
  obtain ⟨fd, epoll, hm1⟩ := AddConnection_ok _ _ _ _ hadd
  rw [hm1]
  have hheap : (m.alloc c).1.heap (m.alloc c).2 = c := by simp [ConnectionManager.alloc]
  have hold : ∀ e ∈ m.m_activeConnections, (m.alloc c).1.heap e.2 = m.heap e.2 := by
    intro e he
    have hne : e.2 ≠ m.heapSize := Nat.ne_of_lt (h.allocated e he)
    simp [ConnectionManager.alloc, Function.update_noteq hne]
  apply RegistryInvariant.register (m.alloc c).1 (m.alloc c).2 _ fd epoll
    (RegistryInvariant.alloc m c h)
  · simp [ConnectionManager.alloc]
  · intro hm
    obtain ⟨e, he, hev⟩ := List.mem_map.mp hm
    have h2 : e.2 = m.heapSize := hev
    exact absurd h2 (Nat.ne_of_lt (h.allocated e he))
  · rw [hheap]; exact hname
  · intro e he
    rw [hheap, hold e he]
    exact hfree e he
  · rfl

theorem new_username (socket : SocketWrapper) (isListeningSocket : Bool) (c : ConnectionHolder)
    (h : ConnectionHolder.new socket isListeningSocket = .ok c) : c.m_username = [] := by
  unfold ConnectionHolder.new at h
  split at h
  · injection h with h; rw [← h]
  · cases h

theorem AddConnection_userId (m m1 : ConnectionManager) (p : ConnectionHolderPtr)
    (epollCtl : Int) (h : m.AddConnection (some p) epollCtl = .ok m1) : m1.userId = m.userId := by
  obtain ⟨fd, epoll, hm1⟩ := AddConnection_ok _ _ _ _ h
  rw [hm1]

theorem RegistryInvariant.addListeningConnection (m : ConnectionManager) (socket : SocketWrapper)
    (epollCtl : Int) (h : RegistryInvariant m) :
    RegistryInvariant (NetworkManager.addListeningConnection m socket epollCtl).1 ∧
    (NetworkManager.addListeningConnection m socket epollCtl).1.userId = m.userId := by
  unfold NetworkManager.addListeningConnection
  cases hnew : ConnectionHolder.new socket true with
  | error e => exact ⟨h, rfl⟩
  | ok c =>
    have hc := new_username _ _ _ hnew
    cases hadd : (m.alloc c).1.AddConnection (some (m.alloc c).2) epollCtl with
    | error e =>
      simp only [hadd]
      exact ⟨RegistryInvariant.alloc m c h, rfl⟩
    | ok m1 =>
      simp only [hadd]
      exact ⟨RegistryInvariant.alloc_register m m1 c epollCtl h (Or.inl (by rw [hc]; rfl))
        (fun _ _ _ => hc) hadd, by rw [AddConnection_userId _ _ _ _ hadd]; rfl⟩

theorem RegistryInvariant.addAcceptedConnection (m : ConnectionManager) (newSocket : SocketWrapper)
    (rawTime : Int) (epollCtl : Int) (h : RegistryInvariant m)
    (hbound : m.userId + 1 < 9223372036854775808) :
    RegistryInvariant (m.addAcceptedConnection newSocket rawTime epollCtl).1 ∧
    (m.addAcceptedConnection newSocket rawTime epollCtl).1.userId ≤ m.userId + 1 := by
  have hcounter := h.counter
  unfold ConnectionManager.addAcceptedConnection
  cases hnew : ConnectionHolder.new newSocket false with
  | error e => exact ⟨h, by simp only; omega⟩
  | ok c =>
    have hwrap : wrapLong (m.userId + 1) = m.userId + 1 :=
      wrapLong_of_in_range _ (by omega) hbound
    have hnat : ((m.userId + 1).toNat : Int) = m.userId + 1 := Int.toNat_of_nonneg (by omega)
    have hnamed : c.SetUsername [] m.userId rawTime
        = ({ c with m_username := autoUsername rawTime (m.userId + 1) }, m.userId + 1) := by
      simp [ConnectionHolder.SetUsername, hwrap]
    simp only [hnamed]
    have h1 : RegistryInvariant { m with userId := m.userId + 1 } :=
      RegistryInvariant.of_subregistry m _ h (fun _ he => he) h.distinct (fun _ _ => rfl)
        (le_refl _) (by simp only; omega)
    have hname : ({ c with m_username := autoUsername rawTime (m.userId + 1) }
          : ConnectionHolder).m_username.all isAlnum = true ∨
        ∃ (t : Int) (k : Nat),
          (k : Int) ≤ ({ m with userId := m.userId + 1 } : ConnectionManager).userId ∧
          ({ c with m_username := autoUsername rawTime (m.userId + 1) }
            : ConnectionHolder).m_username = autoUsername t k :=
      Or.inr ⟨rawTime, (m.userId + 1).toNat, by rw [hnat], by rw [hnat]⟩
    have hfree : ∀ e ∈ ({ m with userId := m.userId + 1 } : ConnectionManager).m_activeConnections,
        (({ m with userId := m.userId + 1 } : ConnectionManager).heap e.2).m_username
          = ({ c with m_username := autoUsername rawTime (m.userId + 1) }
              : ConnectionHolder).m_username →
        ({ c with m_username := autoUsername rawTime (m.userId + 1) }
          : ConnectionHolder).m_username = [] := by
      intro e he heq
      exfalso
      simp only at heq
      rcases h.names e he with hn | ⟨t, k, hk, hn⟩
      · rw [heq, autoUsername_not_alnum] at hn
        cases hn
      · rw [heq, ← hnat] at hn
        have := autoUsername_injective _ _ _ _ hn
        omega
    cases hadd : (ConnectionManager.alloc { m with userId := m.userId + 1 }
        { c with m_username := autoUsername rawTime (m.userId + 1) }).1.AddConnection
        (some (ConnectionManager.alloc { m with userId := m.userId + 1 }
          { c with m_username := autoUsername rawTime (m.userId + 1) }).2) epollCtl with
    | error e =>
      simp only [hadd]
      exact ⟨RegistryInvariant.alloc _ _ h1, le_refl _⟩
    | ok m1 =>
      simp only [hadd]
      refine ⟨RegistryInvariant.alloc_register _ m1 _ epollCtl h1 hname hfree hadd, ?_⟩
      rw [AddConnection_userId _ _ _ _ hadd]
      simp [ConnectionManager.alloc]

theorem scanUsernames_some (heap : ConnectionHolderPtr → ConnectionHolder)
    (d : SocketDescriptor) (n : List Char) (es : ConnectionStorage)
    (acc r : Option ConnectionHolderPtr)
    (h : ConnectionManager.scanUsernames heap d n es acc = some r) :
    (∀ e ∈ es, (heap e.2).GetUsername ≠ n) ∧ (r = acc ∨ ∃ e ∈ es, r = some e.2) := by
  induction es generalizing acc with
  | nil =>
    simp only [ConnectionManager.scanUsernames, Option.some.injEq] at h
    exact ⟨by simp, Or.inl h.symm⟩
  | cons x rest ih =>
    obtain ⟨k, p⟩ := x
    unfold ConnectionManager.scanUsernames at h
    split at h
    · cases h
    · rename_i hp
      split at h
      · obtain ⟨h1, h2⟩ := ih _ h
        refine ⟨?_, ?_⟩
        · intro e he
          rcases List.mem_cons.mp he with he | he
          · subst he; exact hp
          · exact h1 e he
        · rcases h2 with h2 | ⟨e, he, h2⟩
          · exact Or.inr ⟨(k, p), List.mem_cons_self _ _, h2⟩
          · exact Or.inr ⟨e, List.mem_cons_of_mem _ he, h2⟩
      · obtain ⟨h1, h2⟩ := ih _ h
        refine ⟨?_, ?_⟩
        · intro e he
          rcases List.mem_cons.mp he with he | he
          · subst he; exact hp
          · exact h1 e he
        · rcases h2 with h2 | ⟨e, he, h2⟩
          · exact Or.inl h2
          · exact Or.inr ⟨e, List.mem_cons_of_mem _ he, h2⟩

theorem RegistryInvariant.SetClientUsername (m : ConnectionManager) (d : SocketDescriptor)
    (n : List Char) (rawTime : Int) (h : RegistryInvariant m)
    (hn : (RegistryCall.SetClientUsername d n rawTime).fromNicknameCommand = true) :
    RegistryInvariant (RegistryCall.run m (.SetClientUsername d n rawTime)) ∧
    (RegistryCall.run m (.SetClientUsername d n rawTime)).userId = m.userId := by
  simp only [RegistryCall.fromNicknameCommand, Bool.and_eq_true, bne_iff_ne, ne_eq] at hn
  obtain ⟨hne, halnum⟩ := hn
  unfold RegistryCall.run ConnectionManager.SetClientUsername
  by_cases hd : d = INVALID_DESCRIPTOR
  · simpa [hd] using h
  · simp only [hd, if_false]
    cases hscan : ConnectionManager.scanUsernames m.heap d n m.m_activeConnections none with
    | none => exact ⟨h, rfl⟩
    | some r =>
      cases r with
      | none => exact ⟨h, rfl⟩
      | some p =>
        obtain ⟨hfree, hp⟩ := scanUsernames_some _ _ _ _ _ _ hscan
        have hp2 : ∃ e ∈ m.m_activeConnections, e.2 = p := by
          rcases hp with hp | ⟨e, he, hp⟩
          · cases hp
          · exact ⟨e, he, (Option.some.inj hp).symm⟩
        simp only [ConnectionHolder.SetUsername, ne_eq, hne, not_false_eq_true, if_true,
          ConnectionManager.store]
        have hheap : ∀ q, (Function.update m.heap p
            { m.heap p with m_username := n } q).m_username
            = if q = p then n else (m.heap q).m_username := by
          intro q
          by_cases hq : q = p
          · subst hq; simp
          · simp [Function.update_noteq hq, hq]
        refine ⟨⟨h.counter, h.allocated, h.distinct, ?_, ?_⟩, trivial⟩
        · intro e he
          simp only [hheap]
          split
          · exact Or.inl halnum
          · exact h.names e he
        · intro e1 he1 e2 he2 hne12 heq
          simp only [hheap] at heq ⊢
          by_cases h1 : e1.2 = p
          · have h2 : e2.2 ≠ p := fun h2 => hne12 (h1.trans h2.symm)
            simp only [h1, if_true, h2, if_false] at heq
            exact absurd heq.symm (hfree e2 he2)
          · by_cases h2 : e2.2 = p
            · simp only [h1, if_false, h2, if_true] at heq
              exact absurd heq (hfree e1 he1)
            · simp only [h1, if_false, h2] at heq ⊢
              exact h.unique e1 he1 e2 he2 hne12 heq

theorem RegistryInvariant.Close (m : ConnectionManager) (p : ConnectionHolderPtr)
    (h : RegistryInvariant m) :
    RegistryInvariant (ConnectionHolder.Close m p) ∧
    (ConnectionHolder.Close m p).userId = m.userId := by
  have hname : ∀ q, ((ConnectionHolder.Close m p).heap q).m_username = (m.heap q).m_username := by
    intro q
    unfold ConnectionHolder.Close
    by_cases hq : q = p
    · subst hq
      simp only [ConnectionManager.store, ConnectionManager.RemoveConnection]
      split <;> simp
    · simp only [ConnectionManager.store, ConnectionManager.RemoveConnection]
      split <;> simp [Function.update_noteq hq]
  have hmap : (ConnectionHolder.Close m p).m_activeConnections = m.m_activeConnections := by
    unfold ConnectionHolder.Close
    simp only [ConnectionManager.store, ConnectionManager.RemoveConnection]
    split <;> rfl
  have hsize : (ConnectionHolder.Close m p).heapSize = m.heapSize := by
    unfold ConnectionHolder.Close
    simp only [ConnectionManager.store, ConnectionManager.RemoveConnection]
    split <;> rfl
  have hid : (ConnectionHolder.Close m p).userId = m.userId := by
    unfold ConnectionHolder.Close
    simp only [ConnectionManager.store, ConnectionManager.RemoveConnection]
    split <;> rfl
  refine ⟨?_, hid⟩
  apply RegistryInvariant.of_subregistry m _ h
  · intro e he; rw [hmap] at he; exact he
  · rw [hmap]; exact h.distinct
  · intro e _; exact hname e.2
  · rw [hsize]
  · rw [hid]

theorem applyDelete_facts (m : ConnectionManager) (socket : SocketDescriptor) :
    (m.applyDelete socket).heap = m.heap ∧ (m.applyDelete socket).heapSize = m.heapSize ∧
    (m.applyDelete socket).userId = m.userId ∧
    List.Sublist (m.applyDelete socket).m_activeConnections m.m_activeConnections := by
  unfold ConnectionManager.applyDelete
  simp only
  split
  · split
    · exact ⟨rfl, rfl, rfl, List.filter_sublist _⟩
    · exact ⟨rfl, rfl, rfl, List.Sublist.refl _⟩
  · exact ⟨rfl, rfl, rfl, List.Sublist.refl _⟩

theorem foldl_applyDelete_facts (pending : List SocketDescriptor) (m : ConnectionManager) :
    (pending.foldl ConnectionManager.applyDelete m).heap = m.heap ∧
    (pending.foldl ConnectionManager.applyDelete m).heapSize = m.heapSize ∧
    (pending.foldl ConnectionManager.applyDelete m).userId = m.userId ∧
    List.Sublist (pending.foldl ConnectionManager.applyDelete m).m_activeConnections
      m.m_activeConnections := by
  induction pending generalizing m with
  | nil => exact ⟨rfl, rfl, rfl, List.Sublist.refl _⟩
  | cons fd rest ih =>
    obtain ⟨h1, h2, h3, h4⟩ := ih (m.applyDelete fd)
    obtain ⟨g1, g2, g3, g4⟩ := applyDelete_facts m fd
    simp only [List.foldl_cons]
    exact ⟨h1.trans g1, h2.trans g2, h3.trans g3, h4.trans g4⟩

theorem RegistryInvariant.ApplyDeleteList (m : ConnectionManager) (h : RegistryInvariant m) :
    RegistryInvariant m.ApplyDeleteList ∧ m.ApplyDeleteList.userId = m.userId := by
  unfold ConnectionManager.ApplyDeleteList
  split
  · exact ⟨h, rfl⟩
  · obtain ⟨h1, h2, h3, h4⟩ := foldl_applyDelete_facts m.m_pendingConnectionsToDelete m
    refine ⟨?_, h3⟩
    apply RegistryInvariant.of_subregistry m _ h
    · intro e he; exact h4.subset he
    · exact List.Nodup.sublist (List.Sublist.map _ h4) h.distinct
    · intro e _; simp only [h1]
    · simp only [h2]; exact le_refl _
    · simp only [h3]; exact le_refl _

theorem RegistryInvariant.run (m : ConnectionManager) (call : RegistryCall)
    (h : RegistryInvariant m) (hcall : call.fromNicknameCommand = true)
    (hbound : m.userId + 1 < 9223372036854775808) :
    RegistryInvariant (call.run m) ∧ (call.run m).userId ≤ m.userId + 1 := by
  cases call with
  | addListeningConnection socket epollCtl =>
    obtain ⟨h1, h2⟩ := RegistryInvariant.addListeningConnection m socket epollCtl h
    exact ⟨h1, by simp only [RegistryCall.run, h2]; omega⟩
  | addAcceptedConnection newSocket rawTime epollCtl =>
    exact RegistryInvariant.addAcceptedConnection m newSocket rawTime epollCtl h hbound
  | SetClientUsername d n rawTime =>
    obtain ⟨h1, h2⟩ := RegistryInvariant.SetClientUsername m d n rawTime h hcall
    exact ⟨h1, by rw [h2]; omega⟩
  | Close p =>
    obtain ⟨h1, h2⟩ := RegistryInvariant.Close m p h
    exact ⟨h1, by simp only [RegistryCall.run, h2]; omega⟩
  | ApplyDeleteList =>
    obtain ⟨h1, h2⟩ := RegistryInvariant.ApplyDeleteList m h
    exact ⟨h1, by simp only [RegistryCall.run, h2]; omega⟩

theorem RegistryInvariant.runRegistryCalls (calls : List RegistryCall) (m : ConnectionManager)
    (h : RegistryInvariant m) (hcalls : ∀ call ∈ calls, call.fromNicknameCommand = true)
    (hbound : m.userId + calls.length < 9223372036854775808) :
    RegistryInvariant (runRegistryCalls m calls) := by
  induction calls generalizing m with
  | nil => exact h
  | cons call rest ih =>
    simp only [List.length_cons, Nat.cast_add, Nat.cast_one] at hbound
    obtain ⟨h1, h2⟩ := RegistryInvariant.run m call h (hcalls call (List.mem_cons_self _ _))
      (by omega)
    simp only [ChatServer.runRegistryCalls, List.foldl_cons]
    exact ih _ h1 (fun c hc => hcalls c (List.mem_cons_of_mem _ hc)) (by omega)

theorem RegistryInvariant.emptyManager : RegistryInvariant emptyManager :=
  ⟨by simp [ChatServer.emptyManager], by simp [ChatServer.emptyManager],
    by simp [ChatServer.emptyManager], by simp [ChatServer.emptyManager],
    by simp [ChatServer.emptyManager]⟩

/-- C8 as the code has it: in every state reached from the empty registry by adding listening
connections, adding accepted connections named by `SetUsername()`, `SetClientUsername` with the
names that the `\nickname` command passes (non-empty, letters and digits), `Close` and
`ApplyDeleteList`, in fewer than 2^63 calls (so that the `long` counter of generated names has not
overflowed), no connection is registered twice and two distinct connections of the registry that
have the same username both have the empty username. -/
theorem nonempty_usernames_are_unique (calls : List RegistryCall)
    (hcalls : ∀ call ∈ calls, call.fromNicknameCommand = true)
    (hcount : calls.length < 2 ^ 63) :
    ((runRegistryCalls emptyManager calls).m_activeConnections.map fun e => e.2).Nodup ∧
    ∀ e1 ∈ (runRegistryCalls emptyManager calls).m_activeConnections,
      ∀ e2 ∈ (runRegistryCalls emptyManager calls).m_activeConnections, e1.2 ≠ e2.2 →
        ((runRegistryCalls emptyManager calls).heap e1.2).GetUsername
          = ((runRegistryCalls emptyManager calls).heap e2.2).GetUsername →
        ((runRegistryCalls emptyManager calls).heap e1.2).GetUsername = [] :=
  have hbound : emptyManager.userId + calls.length < 9223372036854775808 := by
    have h0 : emptyManager.userId = 0 := rfl
    have h63 : (2 : Nat) ^ 63 = 9223372036854775808 := by norm_num
    rw [h0]
    omega
  have h := RegistryInvariant.runRegistryCalls calls emptyManager RegistryInvariant.emptyManager
    hcalls hbound
  ⟨h.distinct, h.unique⟩

/-- Witness of C8: the calls of `exampleCalls` leave the listening connection and `alice`. -/
theorem nonempty_usernames_are_unique_witness :
    (runRegistryCalls emptyManager exampleCalls).m_activeConnections = [(3, 0), (5, 1)] ∧
    ((runRegistryCalls emptyManager exampleCalls).heap 1).GetUsername = String.toList "alice" ∧
    (((runRegistryCalls emptyManager exampleCalls).m_activeConnections.map fun e => e.2).Nodup ∧
    ∀ e1 ∈ (runRegistryCalls emptyManager exampleCalls).m_activeConnections,
      ∀ e2 ∈ (runRegistryCalls emptyManager exampleCalls).m_activeConnections, e1.2 ≠ e2.2 →
        ((runRegistryCalls emptyManager exampleCalls).heap e1.2).GetUsername
          = ((runRegistryCalls emptyManager exampleCalls).heap e2.2).GetUsername →
        ((runRegistryCalls emptyManager exampleCalls).heap e1.2).GetUsername = []) :=
  ⟨by decide, by decide, nonempty_usernames_are_unique exampleCalls (by decide) (by decide)⟩

/-- Why C8 is about the names that the `\nickname` command passes: a call of `SetClientUsername`
with a name of the generated form, which contains underscores and so never comes from the command,
can take in advance the name of the next accepted client. -/
theorem generated_username_taken_in_advance :
    (runRegistryCalls emptyManager nameTakenInAdvance).m_activeConnections = [(5, 0), (6, 1)] ∧
    ((runRegistryCalls emptyManager nameTakenInAdvance).heap 0).GetUsername
      = String.toList "user_1700000000_2" ∧
    ((runRegistryCalls emptyManager nameTakenInAdvance).heap 1).GetUsername
      = String.toList "user_1700000000_2" ∧
    (nameTakenInAdvance.all fun call => call.fromNicknameCommand) = false :=
  ⟨by decide, by decide, by decide, by decide⟩

/-- Counterexample to C8 as stated: after `NetworkManager::Initialize` has added the listening
connections of two bound addresses, the registry holds two distinct connections with the same
username, the empty one. -/
theorem listening_connections_share_username :
    (runRegistryCalls emptyManager twoListeningConnections).m_activeConnections
      = [(3, 0), (4, 1)] ∧
    (0 : ConnectionHolderPtr) ≠ 1 ∧
    ((runRegistryCalls emptyManager twoListeningConnections).heap 0).GetUsername
      = ((runRegistryCalls emptyManager twoListeningConnections).heap 1).GetUsername :=
  ⟨by decide, by decide, by decide⟩

/-! ## The service commands of `ProcessMessageTask` -/

theorem GetCommandIdByName_unknown (commandName : List Char)
    (h : commandName ∉ [String.toList "help", String.toList "listall", String.toList "nickname",
      String.toList "private", String.toList "quit", String.toList "intro"]) :
    GetCommandIdByName commandName = .error .eInvalidArgument := by
  simp only [List.mem_cons, List.mem_singleton, not_or, List.not_mem_nil, or_false] at h
  obtain ⟨h1, h2, h3, h4, h5, h6⟩ := h
  unfold GetCommandIdByName
  rw [if_neg h1, if_neg h2, if_neg h3, if_neg h4, if_neg h5, if_neg h6]

namespace ProcessMessageTask

/-- A piece that does not match `ServiceMessageRegExpression`, or whose first group is none of the
six command names, makes `ProcessServiceMessage` return `eFail` or `eInvalidArgument` and leaves
the state as it is. -/
theorem ProcessServiceMessage_unknown (defs : CompiledDefinitions) (rawTime : Int)
    (st : ExecState) (frame : List Char)
    (hunknown : ∀ r, regex_match frame = some r →
      r.1 ∉ [String.toList "help", String.toList "listall", String.toList "nickname",
        String.toList "private", String.toList "quit", String.toList "intro"]) :
    ∃ code, ProcessServiceMessage defs rawTime st frame = .ok (code, st) ∧
      (code = .eFail ∨ code = .eInvalidArgument) := by
  unfold ProcessServiceMessage
  cases hm : regex_match frame with
  | none => exact ⟨.eFail, rfl, Or.inl rfl⟩
  | some r =>
    obtain ⟨cmd, arg, text⟩ := r
    have hcmd := GetCommandIdByName_unknown cmd (hunknown _ hm)
    simp only [hcmd]
    exact ⟨.eInvalidArgument, rfl, Or.inr rfl⟩

/-- C11: a dispatched piece that begins with the service symbol and does not match the command
grammar, or whose command word (group 1 of the grammar) is none of `help`, `listall`, `nickname`,
`private`, `quit`, `intro`, is treated as plain chat. In every state `ProcessServiceMessage`
returns a code that is neither `sOk` nor `eConnectionClosed` and changes nothing; the round of the
loop of `Execute` goes on, and after it the message list is the line `senderName> frame` alone
(the lines pending before were flushed as one broadcast, the only task the round can post), the
message context and the registry are as before. -/
theorem unknown_command_is_stored_as_chat (defs : CompiledDefinitions) (rawTime : Int)
    (st : ExecState) (frame : List Char)
    (hhead : frame.head? = some ChatServiceSymbol)
    (hunknown : ∀ r, regex_match frame = some r →
      r.1 ∉ [String.toList "help", String.toList "listall", String.toList "nickname",
        String.toList "private", String.toList "quit", String.toList "intro"]) :
    (∀ st1 : ExecState, ∃ code, ProcessServiceMessage defs rawTime st1 frame = .ok (code, st1) ∧
      code ≠ .sOk ∧ code ≠ .eConnectionClosed) ∧
    ∃ st2, dispatch defs rawTime st frame = .ok (false, st2) ∧
      st2.task.m_messageList
        = [st.task.m_messageDescription.senderName ++ String.toList "> " ++ frame] ∧
      st2.task.m_messageDescription = st.task.m_messageDescription ∧
      st2.manager = st.manager ∧
      st2.posted = st.posted ++ (if st.task.m_messageList = [] then []
        else [.PostFastTask (.WriteAnswerTask st.manager.GetActiveConnections
          { st.task.m_messageDescription with sender := none } st.task.m_messageList)]) := by
  have hpsm : ∀ st1 : ExecState, ∃ code,
      ProcessServiceMessage defs rawTime st1 frame = .ok (code, st1) ∧
      code ≠ .sOk ∧ code ≠ .eConnectionClosed := by
    intro st1
    obtain ⟨code, h, hc⟩ := ProcessServiceMessage_unknown defs rawTime st1 frame hunknown
    refine ⟨code, h, ?_, ?_⟩ <;> rcases hc with hc | hc <;> rw [hc] <;> decide
  refine ⟨hpsm, ?_⟩
  obtain ⟨code, h, hne1, hne2⟩ := hpsm (ProcessChatMessages st)
  unfold dispatch
  rw [if_pos hhead, h]
  simp only [hne1, hne2, if_false, ne_eq, not_false_eq_true, if_true]
  refine ⟨_, rfl, ?_, ?_, ?_, ?_⟩
  · simp only [StoreChatMessage, ProcessChatMessages_list, ProcessChatMessages_description,
      List.nil_append]
  · simp only [StoreChatMessage, ProcessChatMessages_description]
  · simp only [StoreChatMessage, ProcessChatMessages_manager]
  · simp only [StoreChatMessage, ProcessChatMessages_posted]

/-- Witness of C11: `alice`, with the line `alice> hi\n` pending, sends `\foo bar\n`, which
matches the grammar with the unknown command word `foo`. -/
theorem unknown_command_is_stored_as_chat_witness :
    regex_match (String.toList "\\foo bar\n")
      = some (String.toList "foo", String.toList " bar", []) ∧
    (∀ st1 : ExecState, ∃ code,
      ProcessServiceMessage exampleDefinitions 0 st1 (String.toList "\\foo bar\n")
        = .ok (code, st1) ∧ code ≠ .sOk ∧ code ≠ .eConnectionClosed) ∧
    ∃ st2, dispatch exampleDefinitions 0
        { manager := exampleManager,
          task := { m_messageDescription := exampleMessage (String.toList "hi\n\\foo bar\n"),
                    m_messageList := [String.toList "alice> hi\n"] },
          posted := [] } (String.toList "\\foo bar\n") = .ok (false, st2) ∧
      st2.task.m_messageList = [String.toList "alice> \\foo bar\n"] ∧
      st2.task.m_messageDescription = exampleMessage (String.toList "hi\n\\foo bar\n") ∧
      st2.manager = exampleManager ∧
      st2.posted = [.PostFastTask (.WriteAnswerTask [0, 1, 2]
        { exampleMessage (String.toList "hi\n\\foo bar\n") with sender := none }
        [String.toList "alice> hi\n"])] :=
  ⟨by decide,
    unknown_command_is_stored_as_chat exampleDefinitions 0
      { manager := exampleManager,
        task := { m_messageDescription := exampleMessage (String.toList "hi\n\\foo bar\n"),
                  m_messageList := [String.toList "alice> hi\n"] },
        posted := [] } (String.toList "\\foo bar\n") (by decide)
      (by
        intro r h
        have hm : regex_match (String.toList "\\foo bar\n")
            = some (String.toList "foo", String.toList " bar", []) := by decide
        rw [hm] at h
        cases h
        decide)⟩

end ProcessMessageTask

theorem ValidateNickname_code (nickname errorMessage : List Char) :
    (ValidateNickname nickname errorMessage).1
      = if nickname = [] ∨ MaxNicknameLength < nickname.length
            ∨ to_upper nickname = ServerSenderName then .eInvalidArgument else .sOk := by
  unfold ValidateNickname
  simp only [Bool.or_eq_true, decide_eq_true_eq, gt_iff_lt, or_assoc]
  split_ifs <;> rfl

theorem ValidateNickname_accepted (nickname errorMessage : List Char)
    (h : (ValidateNickname nickname errorMessage).1 ≠ .eInvalidArgument) :
    ValidateNickname nickname errorMessage = (.sOk, errorMessage) := by
  unfold ValidateNickname at h ⊢
  simp only [Bool.or_eq_true, decide_eq_true_eq, gt_iff_lt, or_assoc] at h ⊢
  split_ifs with hc
  · rw [if_pos hc] at h
    exact absurd rfl h
  · rfl

theorem ValidateNickname_independent (nickname e1 e2 : List Char) :
    (ValidateNickname nickname e1).1 = (ValidateNickname nickname e2).1 := by
  rw [ValidateNickname_code, ValidateNickname_code]

namespace ProcessMessageTask

/-- The round of the loop for a piece that parses as a `\nickname` command whose argument
`ValidateNickname` rejects. -/
theorem dispatch_nickname_rejected (defs : CompiledDefinitions) (rawTime : Int) (st : ExecState)
    (frame arg text : List Char)
    (hparse : regex_match frame = some (String.toList "nickname", arg, text))
    (hrejected : (ValidateNickname (trim arg) []).1 ≠ .sOk) :
    dispatch defs rawTime st frame = .ok (false,
      PostServerMessage (ProcessChatMessages st) st.task.m_messageDescription
        (ValidateNickname (trim arg) []).2) := by
  have hhead := regex_match_head frame _ hparse
  have hcmd : GetCommandIdByName (String.toList "nickname") = .ok .CommandNickName := rfl
  unfold dispatch
  rw [if_pos hhead]
  unfold ProcessServiceMessage
  simp only [hparse, hcmd]
  unfold AssembleServiceMessage
  simp only [hrejected, ProcessChatMessages_description, ne_eq, not_false_eq_true, if_true,
    not_true_eq_false, if_false, reduceCtorEq]

end ProcessMessageTask

/-- C12 as the code has it: `ValidateNickname` rejects a name with `eInvalidArgument` exactly when the
name is empty, longer than 50 characters, or equal to `SERVER` after conversion to upper case
(so `server` and `Server` are rejected too); every other name is accepted with `sOk` and the
error message is left as it was. A piece that parses as a `\nickname` command whose trimmed
argument is rejected changes neither the registry nor the sender name of the message context,
the loop goes on, and the round posts the broadcast that flushes the chat lines pending from
earlier pieces, if there are any, and then exactly one task: the single message to the sender
whose data is `SERVER> `, the error text and the terminator. -/
theorem ValidateNickname_rejects_exactly (nickname errorMessage : List Char) :
    ((ValidateNickname nickname errorMessage).1 = .eInvalidArgument ↔
      (nickname = [] ∨ 50 < nickname.length ∨ to_upper nickname = String.toList "SERVER")) ∧
    ((ValidateNickname nickname errorMessage).1 ≠ .eInvalidArgument →
      ValidateNickname nickname errorMessage = (.sOk, errorMessage)) ∧
    ∀ (defs : CompiledDefinitions) (rawTime : Int) (st : ExecState) (frame arg text : List Char),
      regex_match frame = some (String.toList "nickname", arg, text) →
      trim arg = nickname →
      (ValidateNickname nickname errorMessage).1 = .eInvalidArgument →
      ∃ st2, ProcessMessageTask.dispatch defs rawTime st frame = .ok (false, st2) ∧
        st2.manager = st.manager ∧
        st2.task.m_messageDescription = st.task.m_messageDescription ∧
        st2.task.m_messageList = [] ∧
        st2.posted = st.posted ++
          (if st.task.m_messageList = [] then []
            else [.PostFastTask (.WriteAnswerTask st.manager.GetActiveConnections
              { st.task.m_messageDescription with sender := none } st.task.m_messageList)]) ++
          [.PostFastTask (.WriteAnswerTask []
            { st.task.m_messageDescription with
              sender := none
              receiver := st.task.m_messageDescription.sender
              data := String.toList "SERVER> " ++ (ValidateNickname nickname []).2
                ++ String.toList "\n" } [])] := by
  have hcode := ValidateNickname_code nickname errorMessage
  refine ⟨?_, ValidateNickname_accepted nickname errorMessage, ?_⟩
  · rw [hcode]
    have h50 : MaxNicknameLength = 50 := rfl
    have hs : ServerSenderName = String.toList "SERVER" := by decide
    rw [h50, hs]
    constructor
    · intro h
      by_contra hn
      rw [if_neg hn] at h
      cases h
    · intro h
      rw [if_pos h]
  · intro defs rawTime st frame arg text hparse htrim hrej
    have hrej2 : (ValidateNickname (trim arg) []).1 ≠ .sOk := by
      rw [htrim, ValidateNickname_independent nickname [] errorMessage, hrej]
      decide
    rw [ProcessMessageTask.dispatch_nickname_rejected defs rawTime st frame arg text hparse hrej2,
      htrim]
    have hd : ∀ t : List Char, ServerSenderName ++ String.toList "> " ++ t ++ [ChatTerminationSymbol]
        = String.toList "SERVER> " ++ t ++ String.toList "\n" := by
      intro t
      have h1 : ServerSenderName ++ String.toList "> " = String.toList "SERVER> " := by decide
      have h2 : [ChatTerminationSymbol] = String.toList "\n" := by decide
      rw [h1, h2]
    refine ⟨_, rfl, ?_, ?_, ?_, ?_⟩
    · simp only [ProcessMessageTask.PostServerMessage, ProcessMessageTask.PostSingleMessage,
        ProcessMessageTask.PostFastTask, ProcessMessageTask.ProcessChatMessages_manager]
    · simp only [ProcessMessageTask.PostServerMessage, ProcessMessageTask.PostSingleMessage,
        ProcessMessageTask.PostFastTask, ProcessMessageTask.ProcessChatMessages_description]
    · simp only [ProcessMessageTask.PostServerMessage, ProcessMessageTask.PostSingleMessage,
        ProcessMessageTask.PostFastTask, ProcessMessageTask.ProcessChatMessages_list]
    · simp only [ProcessMessageTask.PostServerMessage, ProcessMessageTask.PostSingleMessage,
        ProcessMessageTask.PostFastTask, WriteAnswerTask.newSingle, hd,
        ProcessMessageTask.ProcessChatMessages_posted]

/-- Witness of C12: `alice` sends `\nickname server\n`. -/
theorem ValidateNickname_rejects_exactly_witness :
    (ValidateNickname (String.toList "server") []).1 = .eInvalidArgument ∧
    regex_match (String.toList "\\nickname server\n")
      = some (String.toList "nickname", String.toList " server", []) ∧
    ∃ st2, ProcessMessageTask.dispatch exampleDefinitions 0
        { manager := exampleManager,
          task := { m_messageDescription := exampleMessage (String.toList "\\nickname server\n"),
                    m_messageList := [] },
          posted := [] } (String.toList "\\nickname server\n") = .ok (false, st2) ∧
      st2.manager = exampleManager ∧
      st2.task.m_messageDescription = exampleMessage (String.toList "\\nickname server\n") ∧
      st2.task.m_messageList = [] ∧
      st2.posted = [.PostFastTask (.WriteAnswerTask []
        { exampleMessage (String.toList "\\nickname server\n") with
          sender := none
          receiver := some 1
          data := String.toList "SERVER> Nickname error: \nNickname can contain only letters [a-z] and digits [0-9].\nEmpty nicknames are not allowed.\nMaximum length of nickname is 50 symbols.\nNickname cannot be the "
            ++ [apostrophe] ++ String.toList "SERVER" ++ [apostrophe]
            ++ String.toList " service name.\n" } [])] :=
  ⟨by decide, by decide,
    (ValidateNickname_rejects_exactly (String.toList "server") []).2.2 exampleDefinitions 0
      { manager := exampleManager,
        task := { m_messageDescription := exampleMessage (String.toList "\\nickname server\n"),
                  m_messageList := [] },
        posted := [] } (String.toList "\\nickname server\n") (String.toList " server") []
      (by decide) (by decide) (by decide)⟩

/-- Counterexample to C12 as stated: the name `server` is not empty, has six characters and differs from
`SERVER`, and `ValidateNickname` rejects it. -/
theorem ValidateNickname_rejects_lower_case_server :
    String.toList "server" ≠ [] ∧ (String.toList "server").length ≤ 50 ∧
    String.toList "server" ≠ String.toList "SERVER" ∧
    (ValidateNickname (String.toList "server") []).1 = .eInvalidArgument := by
  decide

theorem findByUsername_eq_none (heap : ConnectionHolderPtr → ConnectionHolder)
    (username : List Char) (es : ConnectionStorage)
    (h : ∀ e ∈ es, (heap e.2).GetUsername ≠ username) :
    ConnectionManager.findByUsername heap username es = none := by
  induction es with
  | nil => rfl
  | cons e rest ih =>
    obtain ⟨k, p⟩ := e
    unfold ConnectionManager.findByUsername
    rw [if_neg (h (k, p) (List.mem_cons_self _ _))]
    exact ih (fun e he => h e (List.mem_cons_of_mem _ he))

theorem ValidateNickname_ok_ne_nil (nickname errorMessage : List Char)
    (h : (ValidateNickname nickname errorMessage).1 = .sOk) : nickname ≠ [] := by
  intro hn
  rw [ValidateNickname_code, if_pos (Or.inl hn)] at h
  cases h

namespace ProcessMessageTask

/-- C13: a dispatched piece that parses as a `\private` command with the trimmed argument `T`,
in a task whose sender is the connection `p` with a name other than `T`, where `T` passes
`ValidateNickname` and no connection of the registry has the username `T`. The round of the loop
goes on without a change of the registry or of the message context; it posts the broadcast that
flushes the chat lines pending from earlier pieces, if there are any, and then exactly one task,
the single message whose receiver is the sender `p` and whose data is
`SERVER> User with the nickname 'T' doesn't exist.\n`, and the `Execute` of that task makes one
write, to `p`. -/
theorem private_to_unknown_user_is_answered_to_sender (defs : CompiledDefinitions)
    (rawTime : Int) (st : ExecState) (frame arg text T : List Char) (p : ConnectionHolderPtr)
    (hparse : regex_match frame = some (String.toList "private", arg, text))
    (htrim : trim arg = T)
    (hsender : st.task.m_messageDescription.sender = some p)
    (hname : T ≠ st.task.m_messageDescription.senderName)
    (hvalid : (ValidateNickname T []).1 = .sOk)
    (habsent : ∀ e ∈ st.manager.m_activeConnections, (st.manager.heap e.2).GetUsername ≠ T) :
    ∃ st2, dispatch defs rawTime st frame = .ok (false, st2) ∧
      st2.manager = st.manager ∧
      st2.task.m_messageDescription = st.task.m_messageDescription ∧
      st2.task.m_messageList = [] ∧
      st2.posted = st.posted ++
        (if st.task.m_messageList = [] then []
          else [.PostFastTask (.WriteAnswerTask st.manager.GetActiveConnections
            { st.task.m_messageDescription with sender := none } st.task.m_messageList)]) ++
        [.PostFastTask (.WriteAnswerTask []
          { st.task.m_messageDescription with
            sender := none
            receiver := some p
            data := String.toList "SERVER> User with the nickname " ++ [apostrophe] ++ T
              ++ [apostrophe] ++ String.toList " doesn" ++ [apostrophe]
              ++ String.toList "t exist.\n" } [])] ∧
      WriteAnswerTask.Execute st2.manager.heap []
          { st.task.m_messageDescription with
            sender := none
            receiver := some p
            data := String.toList "SERVER> User with the nickname " ++ [apostrophe] ++ T
              ++ [apostrophe] ++ String.toList " doesn" ++ [apostrophe]
              ++ String.toList "t exist.\n" } []
        = .ok [{ connection := p,
                 data := String.toList "SERVER> User with the nickname " ++ [apostrophe] ++ T
                   ++ [apostrophe] ++ String.toList " doesn" ++ [apostrophe]
                   ++ String.toList "t exist.\n" }] := by
  have hhead := regex_match_head frame _ hparse
  have hcmd : GetCommandIdByName (String.toList "private") = .ok .CommandPrivateMessage := rfl
  have hne := ValidateNickname_ok_ne_nil T [] hvalid
  have hfind : (ProcessChatMessages st).manager.FindConnectionByUsername T
      st.task.m_messageDescription.receiver
      = .ok (.eNotFound, st.task.m_messageDescription.receiver) := by
    unfold ConnectionManager.FindConnectionByUsername
    rw [if_neg hne, ProcessChatMessages_manager,
      findByUsername_eq_none st.manager.heap T st.manager.m_activeConnections habsent]
  have hdata : ServerSenderName ++ String.toList "> "
      ++ (String.toList "User with the nickname " ++ [apostrophe] ++ T ++ [apostrophe]
        ++ String.toList " doesn" ++ [apostrophe] ++ String.toList "t exist.")
      ++ [ChatTerminationSymbol]
      = String.toList "SERVER> User with the nickname " ++ [apostrophe] ++ T
        ++ [apostrophe] ++ String.toList " doesn" ++ [apostrophe]
        ++ String.toList "t exist.\n" := by
    have h1 : ServerSenderName ++ String.toList "> " ++ String.toList "User with the nickname "
        = String.toList "SERVER> User with the nickname " := by decide
    have h2 : String.toList "t exist." ++ [ChatTerminationSymbol]
        = String.toList "t exist.\n" := by decide
    rw [← h1, ← h2]
    simp only [List.append_assoc]
  unfold dispatch
  rw [if_pos hhead]
  unfold ProcessServiceMessage
  simp only [hparse, hcmd, htrim]
  unfold AssembleServiceMessage
  simp only [ProcessChatMessages_description, if_neg hname, hvalid, hfind, ne_eq,
    not_true_eq_false, if_false, if_true, reduceCtorEq]
  refine ⟨_, rfl, ?_, ?_, ?_, ?_, ?_⟩
  · simp only [PostServerMessage, PostSingleMessage, PostFastTask, ProcessChatMessages_manager]
  · simp only [PostServerMessage, PostSingleMessage, PostFastTask]
  · simp only [PostServerMessage, PostSingleMessage, PostFastTask, ProcessChatMessages_list]
  · simp only [PostServerMessage, PostSingleMessage, PostFastTask, WriteAnswerTask.newSingle,
      hdata, hsender, ProcessChatMessages_posted]
  · have hnn : String.toList "SERVER> User with the nickname " ++ [apostrophe] ++ T
        ++ [apostrophe] ++ String.toList " doesn" ++ [apostrophe]
        ++ String.toList "t exist.\n" ≠ [] := by
      simp
    simp only [WriteAnswerTask.Execute, ne_eq, not_true_eq_false, if_false, hnn,
      not_false_eq_true, if_true]

/-- Witness of C13: `alice` sends `\private carol hi there\n`; the registry holds the listening
connection, `alice` and `bob`. -/
theorem private_to_unknown_user_is_answered_to_sender_witness :
    regex_match (String.toList "\\private carol hi there\n")
      = some (String.toList "private", String.toList " carol", String.toList " hi there") ∧
    ∃ st2, dispatch exampleDefinitions 0
        { manager := exampleManager,
          task := { m_messageDescription :=
                      exampleMessage (String.toList "\\private carol hi there\n"),
                    m_messageList := [] },
          posted := [] } (String.toList "\\private carol hi there\n") = .ok (false, st2) ∧
      st2.manager = exampleManager ∧
      st2.task.m_messageDescription
        = exampleMessage (String.toList "\\private carol hi there\n") ∧
      st2.task.m_messageList = [] ∧
      st2.posted = [.PostFastTask (.WriteAnswerTask []
          { exampleMessage (String.toList "\\private carol hi there\n") with
            sender := none
            receiver := some 1
            data := String.toList "SERVER> User with the nickname " ++ [apostrophe]
              ++ String.toList "carol" ++ [apostrophe] ++ String.toList " doesn" ++ [apostrophe]
              ++ String.toList "t exist.\n" } [])] ∧
      WriteAnswerTask.Execute st2.manager.heap []
          { exampleMessage (String.toList "\\private carol hi there\n") with
            sender := none
            receiver := some 1
            data := String.toList "SERVER> User with the nickname " ++ [apostrophe]
              ++ String.toList "carol" ++ [apostrophe] ++ String.toList " doesn" ++ [apostrophe]
              ++ String.toList "t exist.\n" } []
        = .ok [{ connection := 1,
                 data := String.toList "SERVER> User with the nickname " ++ [apostrophe]
                   ++ String.toList "carol" ++ [apostrophe] ++ String.toList " doesn"
                   ++ [apostrophe] ++ String.toList "t exist.\n" }] :=
  ⟨by decide,
    private_to_unknown_user_is_answered_to_sender exampleDefinitions 0
      { manager := exampleManager,
        task := { m_messageDescription :=
                    exampleMessage (String.toList "\\private carol hi there\n"),
                  m_messageList := [] },
        posted := [] } (String.toList "\\private carol hi there\n") (String.toList " carol")
      (String.toList " hi there") (String.toList "carol") 1
      (by decide) (by decide) rfl (by decide) (by decide) (by decide)⟩

end ProcessMessageTask

/-! ## The overflow branch of `ReceiveDataTask::Execute` -/

theorem flatten_replicate_replicate (n k : Nat) (x : Char) :
    (List.replicate n (List.replicate k x)).flatten = List.replicate (n * k) x := by
  induction n with
  | zero => simp
  | succ n ih =>
    rw [List.replicate_succ, List.flatten_cons, ih, ← List.replicate_add]
    congr 1
    ring

/-- On `eBufferOverflow` the task returns at once: the connection stays as the read left it and
nothing is posted. -/
theorem Execute_overflow (m : ConnectionManager) (p : ConnectionHolderPtr)
    (reads : List SysRead) (c1 : ConnectionHolder)
    (h : (m.heap p).ReadAndAppendSocketData reads = (.eBufferOverflow, c1)) :
    ReceiveDataTask.Execute m p reads = (m.store p c1, []) := by
  unfold ReceiveDataTask.Execute
  simp only [h]

theorem nineThousandBytes_overflow (c : ConnectionHolder) :
    c.ReadAndAppendSocketData (nineThousandBytes.map SysRead.data ++ [.eagain])
      = (.eBufferOverflow, c) := by
  have ha : ('a' : Char) ≠ nul := by decide
  rw [ReadAndAppendSocketData_chunks]
  · rw [if_pos]
    rw [nineThousandBytes, flatten_replicate_replicate, List.length_replicate]
    have h : MaximumMessageLength ≤ 9 * 1000 := by decide
    exact le_trans h (Nat.le_add_right _ _)
  · intro bs hbs
    simp only [nineThousandBytes, List.mem_replicate] at hbs
    obtain ⟨_, rfl⟩ := hbs
    refine ⟨?_, ?_, ?_⟩
    · intro h
      have := congrArg List.length h
      rw [List.length_replicate] at this
      cases this
    · rw [List.length_replicate]; decide
    · intro h
      exact ha (List.eq_of_mem_replicate h).symm

/-- C14: the client `alice` (descriptor 5, empty buffer) sends 9000 bytes without a terminator.
`ReadAndAppendSocketData` answers `eBufferOverflow`, and `ReceiveDataTask::Execute` posts no
task, so that nothing is written to the connection; the connection is not marked closed, no
descriptor is queued for removal, and after `ApplyDeleteList` the registry still holds the
descriptor 5. -/
theorem Execute_overflow_neither_answers_nor_closes :
    nineThousandBytes.flatten.length = 9000 ∧
    (exampleManager.heap 1).ReadAndAppendSocketData
        (nineThousandBytes.map SysRead.data ++ [.eagain])
      = (.eBufferOverflow, exampleManager.heap 1) ∧
    (ReceiveDataTask.Execute exampleManager 1
        (nineThousandBytes.map SysRead.data ++ [.eagain])).2 = [] ∧
    ((ReceiveDataTask.Execute exampleManager 1
        (nineThousandBytes.map SysRead.data ++ [.eagain])).1.heap 1).IsConnectionClosed
      = false ∧
    (ReceiveDataTask.Execute exampleManager 1
        (nineThousandBytes.map SysRead.data ++ [.eagain])).1.m_pendingConnectionsToDelete
      = [] ∧
    (ReceiveDataTask.Execute exampleManager 1
        (nineThousandBytes.map SysRead.data ++ [.eagain])).1.ApplyDeleteList.m_activeConnections
      = [(3, 0), (5, 1), (6, 2)] := by
  have hex := Execute_overflow exampleManager 1 _ _
    (nineThousandBytes_overflow (exampleManager.heap 1))
  refine ⟨?_, nineThousandBytes_overflow _, ?_, ?_, ?_, ?_⟩
  · rw [nineThousandBytes, flatten_replicate_replicate, List.length_replicate]
  · rw [hex]
  · rw [hex]
    simp only [ConnectionManager.store, Function.update_same]
    decide
  · rw [hex]
    rfl
  · rw [hex]
    rfl

/-! ## The deferred removal -/

theorem keys_unique (es : ConnectionStorage) (hkeys : (es.map fun e => e.1).Nodup)
    (k : SocketDescriptor) (v : ConnectionHolderPtr) (hfind : es.find k = some v) :
    ∀ e ∈ es, e.1 = k → e.2 = v := by
  induction es with
  | nil => intro e he; cases he
  | cons x rest ih =>
    obtain ⟨k1, v1⟩ := x
    simp only [List.map_cons, List.nodup_cons] at hkeys
    intro e he hek
    unfold ConnectionStorage.find at hfind
    by_cases hk : k1 = k
    · subst hk
      have hf : List.find? (fun e => e.1 == k1) ((k1, v1) :: rest) = some (k1, v1) := by
        simp
      rw [hf] at hfind
      simp only [Option.map_some', Option.some.injEq] at hfind
      rcases List.mem_cons.mp he with h | h
      · rw [h]; exact hfind
      · exfalso
        apply hkeys.1
        rw [← hek]
        exact List.mem_map_of_mem (fun e => e.1) h
    · have hf : List.find? (fun e => e.1 == k) ((k1, v1) :: rest)
          = List.find? (fun e => e.1 == k) rest := by
        simp [hk]
      rw [hf] at hfind
      rcases List.mem_cons.mp he with h | h
      · rw [h] at hek
        exact absurd hek hk
      · exact ih hkeys.2 hfind e h hek

theorem find_none_keys (es : ConnectionStorage) (k : SocketDescriptor)
    (hfind : es.find k = none) : ∀ e ∈ es, e.1 ≠ k := by
  intro e he hek
  unfold ConnectionStorage.find at hfind
  simp only [Option.map_eq_none', List.find?_eq_none, beq_iff_eq] at hfind
  exact hfind e he hek

/-- One round of the loop of `ApplyDeleteList` on a map with distinct keys: the entry of the
descriptor goes when its connection is closed, everything else stays. -/
theorem applyDelete_map (m : ConnectionManager) (socket : SocketDescriptor)
    (hkeys : (m.m_activeConnections.map fun e => e.1).Nodup) :
    (m.applyDelete socket).m_activeConnections
      = m.m_activeConnections.filter
          (fun e => !(e.1 == socket && (m.heap e.2).IsConnectionClosed)) := by
  unfold ConnectionManager.applyDelete
  simp only
  cases hfind : m.m_activeConnections.find socket with
  | none =>
    simp only
    symm
    rw [List.filter_eq_self]
    intro e he
    have := find_none_keys _ _ hfind e he
    simp [this]
  | some p =>
    have hu := keys_unique _ hkeys socket p hfind
    simp only
    by_cases hc : (m.heap p).IsConnectionClosed = true
    · rw [if_pos hc]
      unfold ConnectionStorage.erase
      apply List.filter_congr
      intro e he
      by_cases hek : e.1 = socket
      · have := hu e he hek
        simp [hek, this, hc]
      · have h1 : (e.1 != socket) = true := by simpa using hek
        have h2 : (e.1 == socket) = false := by simpa using hek
        rw [h1, h2]
        rfl
    · rw [if_neg hc]
      symm
      rw [List.filter_eq_self]
      intro e he
      by_cases hek : e.1 = socket
      · have := hu e he hek
        simp [hek, this, hc]
      · simp [hek]

theorem foldl_applyDelete_map (pending : List SocketDescriptor) (m : ConnectionManager)
    (hkeys : (m.m_activeConnections.map fun e => e.1).Nodup) :
    (pending.foldl ConnectionManager.applyDelete m).m_activeConnections
      = m.m_activeConnections.filter
          (fun e => !(decide (e.1 ∈ pending) && (m.heap e.2).IsConnectionClosed)) := by
  induction pending generalizing m with
  | nil => simp
  | cons fd rest ih =>
    obtain ⟨g1, _, _, g4⟩ := applyDelete_facts m fd
    have hk1 : ((m.applyDelete fd).m_activeConnections.map fun e => e.1).Nodup :=
      List.Nodup.sublist (List.Sublist.map _ g4) hkeys
    rw [List.foldl_cons, ih (m.applyDelete fd) hk1, applyDelete_map m fd hkeys, g1,
      List.filter_filter]
    apply List.filter_congr
    intro e _
    by_cases h1 : e.1 = fd <;> by_cases h2 : e.1 ∈ rest <;>
      cases (m.heap e.2).IsConnectionClosed <;> simp [h1, h2]

/-- C15: `ApplyDeleteList` on a map with distinct keys (a `std::map`) removes exactly the entries
whose descriptor is in the pending list and whose connection is marked closed, keeps every other
entry as it is and in place, and leaves the pending list empty, without a change of any
connection; `RemoveConnection` appends the descriptor to the pending list and changes neither the
map nor anything else. -/
theorem ApplyDeleteList_removes_closed_pending (m : ConnectionManager)
    (hkeys : (m.m_activeConnections.map fun e => e.1).Nodup) :
    m.ApplyDeleteList.m_activeConnections
      = m.m_activeConnections.filter (fun e =>
          !(decide (e.1 ∈ m.m_pendingConnectionsToDelete)
            && (m.heap e.2).IsConnectionClosed)) ∧
    m.ApplyDeleteList.m_pendingConnectionsToDelete = [] ∧
    m.ApplyDeleteList.heap = m.heap ∧
    ∀ socket : SocketDescriptor,
      (m.RemoveConnection socket).m_pendingConnectionsToDelete
        = m.m_pendingConnectionsToDelete ++ [socket] ∧
      (m.RemoveConnection socket).m_activeConnections = m.m_activeConnections ∧
      (m.RemoveConnection socket).heap = m.heap ∧
      (m.RemoveConnection socket).epollSet = m.epollSet := by
  refine ⟨?_, ?_, ?_, fun socket => ⟨rfl, rfl, rfl, rfl⟩⟩
  · unfold ConnectionManager.ApplyDeleteList
    split
    · rename_i h
      have hnil : m.m_pendingConnectionsToDelete = [] := List.length_eq_zero.mp h
      rw [hnil]
      simp
    · exact foldl_applyDelete_map _ m hkeys
  · unfold ConnectionManager.ApplyDeleteList
    split
    · rename_i h
      exact List.length_eq_zero.mp h
    · rfl
  · unfold ConnectionManager.ApplyDeleteList
    split
    · rfl
    · exact (foldl_applyDelete_facts _ m).1

/-- Witness of C15: the pending list holds 5, whose connection `alice` is closed, and 6, whose
connection `bob` is open. -/
theorem ApplyDeleteList_removes_closed_pending_witness :
    pendingManager.m_activeConnections = [(3, 0), (5, 1), (6, 2)] ∧
    pendingManager.m_pendingConnectionsToDelete = [5, 6] ∧
    (pendingManager.heap 1).IsConnectionClosed = true ∧
    (pendingManager.heap 2).IsConnectionClosed = false ∧
    pendingManager.ApplyDeleteList.m_activeConnections = [(3, 0), (6, 2)] ∧
    pendingManager.ApplyDeleteList.m_pendingConnectionsToDelete = [] :=
  ⟨by decide, by decide, by decide, by decide,
    (ApplyDeleteList_removes_closed_pending pendingManager (by decide)).1.trans (by decide),
    (ApplyDeleteList_removes_closed_pending pendingManager (by decide)).2.1⟩

/-- C16: the client on descriptor 5 is closed during a cycle, and `accept` hands out the number 5
again for the next client, which `AddConnection` registers before the end of the cycle. The
pending list still holds 5, so `ApplyDeleteList` takes 5 out of the epoll set, and keeps the
entry of the map, whose connection is open: after the cycle the descriptor 5 is a key of the
map, its connection is not closed, and 5 is not in the epoll set. -/
theorem ApplyDeleteList_unregisters_reused_descriptor :
    (runRegistryCalls emptyManager (descriptorReusedInCycle.take 5)).m_pendingConnectionsToDelete
      = [5] ∧
    (runRegistryCalls emptyManager (descriptorReusedInCycle.take 5)).epollSet = [5, 3] ∧
    (runRegistryCalls emptyManager descriptorReusedInCycle).m_activeConnections
      = [(3, 0), (5, 2)] ∧
    ((runRegistryCalls emptyManager descriptorReusedInCycle).heap 2).IsConnectionClosed
      = false ∧
    ((runRegistryCalls emptyManager descriptorReusedInCycle).heap 2).GetSocketDescriptor = 5 ∧
    (runRegistryCalls emptyManager descriptorReusedInCycle).m_pendingConnectionsToDelete = [] ∧
    (runRegistryCalls emptyManager descriptorReusedInCycle).epollSet = [3] := by
  decide

/-! ## `ConnectionHolder::Close` and the calls after it -/

theorem SocketWrapper_Close_Close (s : SocketWrapper) : s.Close.Close = s.Close := by
  unfold SocketWrapper.Close
  split
  · rename_i h; simp [h]
  · split <;> rfl

theorem SocketWrapper_Close_isClosed (s : SocketWrapper) : s.Close.m_isClosed = true := by
  unfold SocketWrapper.Close
  split
  · assumption
  · split <;> rfl

theorem SocketWrapper_Close_descriptor (s : SocketWrapper)
    (h : s.m_isClosed = true → s.m_socket = INVALID_DESCRIPTOR) :
    s.Close.GetDescriptor = INVALID_DESCRIPTOR := by
  unfold SocketWrapper.Close SocketWrapper.GetDescriptor
  split
  · rename_i hc; exact h hc
  · split
    · assumption
    · rfl

/-- The state after `ConnectionHolder::Close`, member by member. -/
theorem Close_facts (m : ConnectionManager) (p : ConnectionHolderPtr) :
    (ConnectionHolder.Close m p).heap
      = Function.update m.heap p
          { m.heap p with m_isConnectionClosed := true,
                          m_socketWrapper := (m.heap p).m_socketWrapper.Close } ∧
    (ConnectionHolder.Close m p).m_activeConnections = m.m_activeConnections ∧
    (ConnectionHolder.Close m p).m_pendingConnectionsToDelete
      = m.m_pendingConnectionsToDelete ++ [(m.heap p).GetSocketDescriptor] ∧
    (ConnectionHolder.Close m p).epollSet
      = if (m.heap p).m_socketWrapper.m_isClosed
            || (m.heap p).m_socketWrapper.m_socket == INVALID_DESCRIPTOR then m.epollSet
        else m.epollSet.filter (fun fd => fd != (m.heap p).m_socketWrapper.m_socket) := by
  unfold ConnectionHolder.Close
  simp only [ConnectionManager.store, ConnectionManager.RemoveConnection,
    Function.update_idem]
  split <;> exact ⟨rfl, rfl, rfl, rfl⟩

theorem Close_heap_self (m : ConnectionManager) (p : ConnectionHolderPtr) :
    (ConnectionHolder.Close m p).heap p
      = { m.heap p with m_isConnectionClosed := true,
                        m_socketWrapper := (m.heap p).m_socketWrapper.Close } := by
  rw [(Close_facts m p).1, Function.update_same]

/-- C17 as the code has it: a second call of `ConnectionHolder::Close` leaves every connection (closed
flag, socket state), the map of the registry and the epoll set as the first call left them, and
appends one more entry to the pending list: the descriptor that the connection reports after the
first call, which is `INVALID_DESCRIPTOR` for every socket wrapper that was open or held no
descriptor before. -/
theorem Close_twice_appends_to_pending (m : ConnectionManager) (p : ConnectionHolderPtr) :
    (ConnectionHolder.Close (ConnectionHolder.Close m p) p).heap
      = (ConnectionHolder.Close m p).heap ∧
    (ConnectionHolder.Close (ConnectionHolder.Close m p) p).m_activeConnections
      = (ConnectionHolder.Close m p).m_activeConnections ∧
    (ConnectionHolder.Close (ConnectionHolder.Close m p) p).epollSet
      = (ConnectionHolder.Close m p).epollSet ∧
    (ConnectionHolder.Close (ConnectionHolder.Close m p) p).m_pendingConnectionsToDelete
      = (ConnectionHolder.Close m p).m_pendingConnectionsToDelete
        ++ [((ConnectionHolder.Close m p).heap p).GetSocketDescriptor] ∧
    (((m.heap p).m_socketWrapper.m_isClosed = true →
        (m.heap p).m_socketWrapper.m_socket = INVALID_DESCRIPTOR) →
      ((ConnectionHolder.Close m p).heap p).GetSocketDescriptor = INVALID_DESCRIPTOR) := by
  obtain ⟨h1, h2, h3, h4⟩ := Close_facts (ConnectionHolder.Close m p) p
  have hself := Close_heap_self m p
  refine ⟨?_, h2, ?_, h3, ?_⟩
  · rw [h1, hself]
    simp only [SocketWrapper_Close_Close]
    rw [← hself]
    exact Function.update_eq_self p _
  · rw [h4, hself]
    simp only [SocketWrapper_Close_isClosed, Bool.true_or, if_true]
  · intro hinv
    rw [hself]
    exact SocketWrapper_Close_descriptor _ hinv

/-- Witness of C17: `Close` twice on the connection of `alice`, descriptor 5. -/
theorem Close_twice_appends_to_pending_witness :
    (ConnectionHolder.Close exampleManager 1).m_pendingConnectionsToDelete = [5] ∧
    (ConnectionHolder.Close (ConnectionHolder.Close exampleManager 1) 1).heap
      = (ConnectionHolder.Close exampleManager 1).heap ∧
    (ConnectionHolder.Close (ConnectionHolder.Close exampleManager 1) 1).m_activeConnections
      = [(3, 0), (5, 1), (6, 2)] ∧
    ((ConnectionHolder.Close exampleManager 1).heap 1).GetSocketDescriptor
      = INVALID_DESCRIPTOR :=
  ⟨by decide, (Close_twice_appends_to_pending exampleManager 1).1,
    (Close_twice_appends_to_pending exampleManager 1).2.1.trans (by decide),
    (Close_twice_appends_to_pending exampleManager 1).2.2.2.2 (by decide)⟩

/-- Counterexample to C17 as stated: after one `Close` of the connection of `alice` the pending list is
`[5]`, after two it is `[5, -1]`. -/
theorem Close_twice_queues_invalid_descriptor :
    (ConnectionHolder.Close exampleManager 1).m_pendingConnectionsToDelete = [5] ∧
    (ConnectionHolder.Close (ConnectionHolder.Close exampleManager 1) 1).m_pendingConnectionsToDelete
      = [5, -1] := by
  decide

theorem ReadAndAppendSocketData_fail (c : ConnectionHolder) (rest : List SysRead) :
    c.ReadAndAppendSocketData (.fail :: rest) = (.eFail, c) := by
  simp [ConnectionHolder.ReadAndAppendSocketData, ConnectionHolder.readLoop, SocketWrapper.Read]

/-- The result code and the buffer that `ReadAndAppendSocketData` leaves depend on the buffer
and on what the reads deliver, and on nothing else of the connection. -/
theorem ReadAndAppendSocketData_congr (c1 c2 : ConnectionHolder) (reads : List SysRead)
    (h : c1.m_socketData = c2.m_socketData) :
    (c1.ReadAndAppendSocketData reads).1 = (c2.ReadAndAppendSocketData reads).1 ∧
    (c1.ReadAndAppendSocketData reads).2.m_socketData
      = (c2.ReadAndAppendSocketData reads).2.m_socketData := by
  unfold ConnectionHolder.ReadAndAppendSocketData
  cases ConnectionHolder.readLoop reads [] with
  | error e => exact ⟨rfl, h⟩
  | ok r =>
    obtain ⟨readResult, tempData⟩ := r
    simp only [h]
    split
    · exact ⟨rfl, h⟩
    · split <;> exact ⟨rfl, rfl⟩

/-- C18 as the code has it: after `ConnectionHolder::Close` the connection is marked closed, and a
subsequent `ReadAndAppendSocketData` does not test the mark: it reads from the socket and, for
the same answers of the reads, returns the same code and leaves the same buffer as on the
connection before the `Close`. When the first read fails with an error other than `EAGAIN`, as
a read on a closed descriptor does, the call returns `eFail` and leaves the connection, buffer
included, as it was. -/
theorem ReadAndAppendSocketData_after_Close (m : ConnectionManager) (p : ConnectionHolderPtr)
    (reads : List SysRead) :
    ((ConnectionHolder.Close m p).heap p).IsConnectionClosed = true ∧
    (((ConnectionHolder.Close m p).heap p).ReadAndAppendSocketData reads).1
      = ((m.heap p).ReadAndAppendSocketData reads).1 ∧
    (((ConnectionHolder.Close m p).heap p).ReadAndAppendSocketData reads).2.m_socketData
      = ((m.heap p).ReadAndAppendSocketData reads).2.m_socketData ∧
    ((ConnectionHolder.Close m p).heap p).ReadAndAppendSocketData (.fail :: reads)
      = (.eFail, (ConnectionHolder.Close m p).heap p) := by
  have hself := Close_heap_self m p
  have hc := ReadAndAppendSocketData_congr ((ConnectionHolder.Close m p).heap p) (m.heap p) reads
    (by rw [hself])
  refine ⟨by rw [hself]; rfl, hc.1, hc.2, ReadAndAppendSocketData_fail _ _⟩

/-- Counterexample to C18 as stated: the connection of `alice` is closed, and the next
`ReadAndAppendSocketData`, whose read on the closed descriptor fails, returns `eFail`; with
bytes delivered it would append them and return `sOk`. -/
theorem closed_connection_read_returns_eFail :
    ((ConnectionHolder.Close exampleManager 1).heap 1).IsConnectionClosed = true ∧
    ((ConnectionHolder.Close exampleManager 1).heap 1).GetSocketDescriptor
      = INVALID_DESCRIPTOR ∧
    (((ConnectionHolder.Close exampleManager 1).heap 1).ReadAndAppendSocketData [.fail]).1
      = .eFail ∧
    (((ConnectionHolder.Close exampleManager 1).heap 1).ReadAndAppendSocketData
        [.data (String.toList "hi"), .eagain]).1 = .sOk ∧
    (((ConnectionHolder.Close exampleManager 1).heap 1).ReadAndAppendSocketData
        [.data (String.toList "hi"), .eagain]).2.m_socketData = String.toList "hi" := by
  decide

/-! ## The thread pool -/

namespace ThreadPool

variable {α : Type}

theorem AddTask_not_initialized (pool : ThreadPool α) (task : α)
    (h : pool.m_isPoolInitialized = false) : pool.AddTask task = .error .eNotReady := by
  simp [AddTask, h]

theorem AddTask_during_shutdown (pool : ThreadPool α) (task : α)
    (hinit : pool.m_isPoolInitialized = true) (h : pool.m_shutdownRequested = true) :
    pool.AddTask task = .ok pool := by
  simp [AddTask, hinit, h]

theorem AddTask_running (pool : ThreadPool α) (task : α)
    (hinit : pool.m_isPoolInitialized = true) (h : pool.m_shutdownRequested = false) :
    pool.AddTask task = .ok { pool with m_taskList := pool.m_taskList ++ [task] } := by
  simp [AddTask, hinit, h]

theorem Shutdown_flags (pool : ThreadPool α) (h : pool.shutdownApplies = true) :
    pool.Shutdown.m_shutdownRequested = true ∧ pool.Shutdown.m_isPoolInitialized = false ∧
    pool.Shutdown.m_taskList = pool.m_taskList := by
  have hfold : ∀ (l : List Nat) (q : ThreadPool α),
      (l.foldl shutdownWorker q).m_shutdownRequested = q.m_shutdownRequested ∧
      (l.foldl shutdownWorker q).m_taskList = q.m_taskList := by
    intro l
    induction l with
    | nil => intro q; exact ⟨rfl, rfl⟩
    | cons i rest ih =>
      intro q
      rw [List.foldl_cons]
      exact ⟨(ih _).1, (ih _).2⟩
  unfold Shutdown
  rw [if_pos h]
  refine ⟨?_, rfl, ?_⟩
  · exact (hfold _ _).1
  · exact (hfold _ _).2

theorem addTasks_running (tasks : List α) (pool : ThreadPool α)
    (hinit : pool.m_isPoolInitialized = true) (h : pool.m_shutdownRequested = false) :
    pool.addTasks tasks = .ok { pool with m_taskList := pool.m_taskList ++ tasks } := by
  induction tasks generalizing pool with
  | nil => simp [addTasks]
  | cons t rest ih =>
    unfold addTasks
    rw [AddTask_running pool t hinit h]
    simp only
    rw [ih { pool with m_taskList := pool.m_taskList ++ [t] } hinit h]
    simp

theorem takeTasks_all (pool : ThreadPool α) :
    pool.takeTasks pool.m_taskList.length = pool.m_taskList := by
  obtain ⟨q, hq⟩ : ∃ q, q = pool.m_taskList := ⟨_, rfl⟩
  rw [← hq]
  induction q generalizing pool with
  | nil => rfl
  | cons t rest ih =>
    have hstep : pool.TryGetNewTask false
        = ({ pool with m_taskList := rest }, .returned .sOk (some t)) := by
      simp [TryGetNewTask, ← hq]
    simp only [List.length_cons, takeTasks, hstep]
    rw [ih { pool with m_taskList := rest } rfl]

/-- C19 as the code has it: `AddTask` throws `eNotReady` on a pool that is not initialized, which is
the state before `Initialize` and also the state after a `Shutdown` that took effect has
returned. On an initialized pool whose shutdown flag is set, the state while `Shutdown` runs, it
returns without a change of the pool. On an initialized pool without the flag it appends the task
at the back of the queue, so that tasks added in a row stand behind the ones queued before in
the order of the calls, and calls of `TryGetNewTask` hand them out in that order. -/
theorem AddTask_result (pool : ThreadPool α) (task : α) :
    (∀ maxThreadCount : Int,
      (ThreadPool.new maxThreadCount : ThreadPool α).AddTask task = .error .eNotReady) ∧
    (pool.m_isPoolInitialized = false → pool.AddTask task = .error .eNotReady) ∧
    (pool.shutdownApplies = true →
      pool.Shutdown.m_shutdownRequested = true ∧
      pool.Shutdown.AddTask task = .error .eNotReady) ∧
    (pool.m_isPoolInitialized = true → pool.m_shutdownRequested = true →
      pool.AddTask task = .ok pool) ∧
    (pool.m_isPoolInitialized = true → pool.m_shutdownRequested = false →
      pool.AddTask task = .ok { pool with m_taskList := pool.m_taskList ++ [task] } ∧
      ∀ tasks : List α, ∃ pool1, pool.addTasks tasks = .ok pool1 ∧
        pool1.m_taskList = pool.m_taskList ++ tasks ∧
        pool1.takeTasks (pool.m_taskList ++ tasks).length = pool.m_taskList ++ tasks) := by
  refine ⟨fun _ => rfl, AddTask_not_initialized pool task, ?_,
    AddTask_during_shutdown pool task, ?_⟩
  · intro h
    obtain ⟨h1, h2, _⟩ := Shutdown_flags pool h
    exact ⟨h1, AddTask_not_initialized _ task h2⟩
  · intro hinit h
    refine ⟨AddTask_running pool task hinit h, ?_⟩
    intro tasks
    refine ⟨_, addTasks_running tasks pool hinit h, rfl, ?_⟩
    exact takeTasks_all { pool with m_taskList := pool.m_taskList ++ tasks }

end ThreadPool

/-- Witness of C19: the pool of two workers after `Initialize`; a task is added to it, three
tasks are added and taken in the same order, and a task added once the shutdown flag is set
changes nothing. -/
theorem AddTask_result_witness :
    (ThreadPool.new 2 : ThreadPool Nat).Initialize = some examplePool ∧
    examplePool.AddTask 7 = .ok { examplePool with m_taskList := [7] } ∧
    (∃ pool1, examplePool.addTasks [1, 2, 3] = .ok pool1 ∧ pool1.m_taskList = [1, 2, 3] ∧
      pool1.takeTasks 3 = [1, 2, 3]) ∧
    examplePool.requestShutdown.AddTask 7 = .ok examplePool.requestShutdown :=
  ⟨by decide, ((ThreadPool.AddTask_result examplePool 7).2.2.2.2 rfl rfl).1,
    ((ThreadPool.AddTask_result examplePool 7).2.2.2.2 rfl rfl).2 [1, 2, 3],
    (ThreadPool.AddTask_result examplePool.requestShutdown 7).2.2.2.1 rfl rfl⟩

/-- Counterexample to C19 as stated: on the pool of two workers `Shutdown` runs to its end; the shutdown
flag is set, and the `AddTask` that follows throws `eNotReady`. -/
theorem AddTask_after_Shutdown_throws :
    (ThreadPool.new 2 : ThreadPool Nat).Initialize = some examplePool ∧
    (runPoolSteps 2
      ([.Initialize, .Shutdown, .shutdownStep, .shutdownStep, .shutdownStep] :
        List (PoolStep Nat)))
      = { pool := examplePool.Shutdown, shutdownAt := none } ∧
    examplePool.Shutdown.m_shutdownRequested = true ∧
    examplePool.Shutdown.AddTask 7 = .error .eNotReady := by
  refine ⟨by decide, by decide, by decide, rfl⟩

namespace ThreadPool

variable {α : Type}

/-- C20 as the code has it: `TryGetNewTask` tests the shutdown flag of the pool only when it comes
back from a wait on the queue event: there, with the flag set, it returns `eNotFound` and no
task, whatever the queue holds. A call that finds the queue empty at its entry blocks without a
task. A call that finds the queue non-empty at its entry takes the front task and returns `sOk`,
whatever the flags are; so the thread of a worker standing at the entry of the call goes on to
run that task, also when the shutdown flag of the pool is set, and a worker whose own flag is not
set passes the test of its loop and reaches that entry. -/
theorem TryGetNewTask_tests_flag_after_wait_only (pool : ThreadPool α) :
    (pool.m_shutdownRequested = true →
      pool.TryGetNewTask true = (pool, .returned .eNotFound none)) ∧
    (pool.m_taskList = [] →
      (pool.TryGetNewTask false).1 = pool ∧
      ((pool.TryGetNewTask false).2 = .waiting ∨ (pool.TryGetNewTask false).2 = .notifying)) ∧
    (∀ (t : α) (rest : List α), pool.m_taskList = t :: rest →
      pool.TryGetNewTask false = ({ pool with m_taskList := rest }, .returned .sOk (some t)) ∧
      ∀ (i : Nat) (w : WorkerQueue α), pool.m_workerQueueStorage[i]? = some w →
        w.m_workerThread = .tryGetNewTask →
        (pool.ProcessTasksStep i).m_taskList = rest ∧
        (pool.ProcessTasksStep i).m_workerQueueStorage
          = pool.m_workerQueueStorage.set i { w with m_workerThread := .task t }) ∧
    (∀ (i : Nat) (w : WorkerQueue α), pool.m_workerQueueStorage[i]? = some w →
      w.m_workerThread = .loopTest → w.m_shutdownRequested = false →
      (pool.ProcessTasksStep i).m_workerQueueStorage
        = pool.m_workerQueueStorage.set i { w with m_workerThread := .tryGetNewTask }) := by
  refine ⟨?_, ?_, ?_, ?_⟩
  · intro h
    simp [TryGetNewTask, h]
  · intro h
    unfold TryGetNewTask
    simp only [Bool.false_and, h]
    cases pool.m_isPoolInitialized
    · exact ⟨rfl, Or.inr rfl⟩
    · exact ⟨rfl, Or.inl rfl⟩
  · intro t rest h
    have hcall : pool.TryGetNewTask false
        = ({ pool with m_taskList := rest }, .returned .sOk (some t)) := by
      simp [TryGetNewTask, h]
    refine ⟨hcall, ?_⟩
    intro i w hi hw
    unfold ProcessTasksStep
    simp only [hi, hw, hcall]
    trivial
  · intro i w hi hw hflag
    unfold ProcessTasksStep
    simp only [hi, hw, hflag]
    rfl

end ThreadPool

/-- Witness of C20: the pool of one worker in which `Shutdown` has set the flag of the pool
while the worker ran the first of two tasks; the worker stands at the entry of `TryGetNewTask`
and the second task is in the queue. -/
theorem TryGetNewTask_tests_flag_after_wait_only_witness :
    (runPoolSteps 1 shutdownWhileWorking).pool.m_shutdownRequested = true ∧
    (runPoolSteps 1 shutdownWhileWorking).pool.m_taskList = [20] ∧
    (runPoolSteps 1 shutdownWhileWorking).pool.m_workerQueueStorage
      = [{ m_shutdownRequested := false, m_workerThread := .tryGetNewTask }] ∧
    (runPoolSteps 1 shutdownWhileWorking).pool.TryGetNewTask true
      = ((runPoolSteps 1 shutdownWhileWorking).pool, .returned .eNotFound none) ∧
    ((runPoolSteps 1 shutdownWhileWorking).pool.ProcessTasksStep 0).m_taskList = [] ∧
    ((runPoolSteps 1 shutdownWhileWorking).pool.ProcessTasksStep 0).m_workerQueueStorage
      = [{ m_shutdownRequested := false, m_workerThread := .task 20 }] :=
  ⟨by decide, by decide, by decide,
    (ThreadPool.TryGetNewTask_tests_flag_after_wait_only
      (runPoolSteps 1 shutdownWhileWorking).pool).1 (by decide),
    (((ThreadPool.TryGetNewTask_tests_flag_after_wait_only
      (runPoolSteps 1 shutdownWhileWorking).pool).2.2.1 20 [] (by decide)).2 0
        { m_shutdownRequested := false, m_workerThread := .tryGetNewTask }
        (by decide) rfl).1,
    (((ThreadPool.TryGetNewTask_tests_flag_after_wait_only
      (runPoolSteps 1 shutdownWhileWorking).pool).2.2.1 20 [] (by decide)).2 0
        { m_shutdownRequested := false, m_workerThread := .tryGetNewTask }
        (by decide) rfl).2.trans (by decide)⟩

/-- Counterexample to C20 as stated: a pool of one worker is initialized and gets the tasks 10 and 20;
the worker takes 10; `Shutdown` sets the shutdown flag of the pool; the worker ends the task 10,
passes the test of its own flag, which `Shutdown` has not set yet, and calls `TryGetNewTask`,
which returns `sOk` with the task 20, and the worker runs it. -/
theorem worker_dequeues_after_shutdown_request :
    (runPoolSteps 1 (shutdownWhileWorking.take 4)).pool
      = { m_taskList := [20],
          m_workerQueueStorage := [{ m_shutdownRequested := false, m_workerThread := .task 10 }],
          m_maxThreadCount := 1, m_shutdownRequested := false, m_isPoolInitialized := true } ∧
    runPoolSteps 1 shutdownWhileWorking
      = { pool :=
            { m_taskList := [20],
              m_workerQueueStorage :=
                [{ m_shutdownRequested := false, m_workerThread := .tryGetNewTask }],
              m_maxThreadCount := 1, m_shutdownRequested := true, m_isPoolInitialized := true },
          shutdownAt := some 0 } ∧
    ((runPoolSteps 1 shutdownWhileWorking).pool.TryGetNewTask false).2
      = .returned .sOk (some 20) ∧
    PoolStep.run (runPoolSteps 1 shutdownWhileWorking) (.worker 0)
      = { pool :=
            { m_taskList := [],
              m_workerQueueStorage :=
                [{ m_shutdownRequested := false, m_workerThread := .task 20 }],
              m_maxThreadCount := 1, m_shutdownRequested := true, m_isPoolInitialized := true },
          shutdownAt := some 0 } := by
  decide

namespace ProcessMessageTask

/-! ## The commands `\quit` and `\intro` -/

/-- The round of the loop for a piece that parses as a `\quit` command: the pending lines are
flushed, the connection of the sender is closed and the loop is left. -/
theorem dispatch_quit (defs : CompiledDefinitions) (rawTime : Int) (st : ExecState)
    (frame arg text : List Char) (p : ConnectionHolderPtr)
    (hparse : regex_match frame = some (String.toList "quit", arg, text))
    (hsender : st.task.m_messageDescription.sender = some p) :
    ∃ st2, dispatch defs rawTime st frame = .ok (true, st2) ∧
      st2.manager = ConnectionHolder.Close st.manager p ∧
      st2.task = (ProcessChatMessages st).task ∧
      st2.posted = (ProcessChatMessages st).posted := by
  have hhead := regex_match_head frame _ hparse
  have hcmd : GetCommandIdByName (String.toList "quit") = .ok .CommandQuit := rfl
  unfold dispatch
  rw [if_pos hhead]
  unfold ProcessServiceMessage
  simp only [hparse, hcmd]
  unfold AssembleServiceMessage
  simp only [ProcessChatMessages_description, hsender, if_true]
  refine ⟨_, rfl, ?_, rfl, rfl⟩
  simp only [ProcessChatMessages_manager]

/-- C21: the loop of `Execute` stands, in any of its states, at a piece that parses as a `\quit`
command, in a task whose sender is the connection `p`. The round posts the chat lines pending
from earlier pieces as one broadcast, whose list of connections is taken before the close; it
closes the connection of the sender (the closed flag is set, the descriptor of the connection is
appended to the pending list, the map is as before); and the loop ends with this round, whatever
data follows the piece, with an empty message list, so that the `ProcessChatMessages` after the
loop posts nothing: the tasks posted are those posted before and that broadcast. -/
theorem quit_closes_sender_and_ends_loop (defs : CompiledDefinitions) (rawTime : Int)
    (fuel i terminationPosition : Nat) (st : ExecState) (arg text : List Char)
    (p : ConnectionHolderPtr)
    (hi : i < st.task.m_messageDescription.data.length)
    (hparse : regex_match (substr st.task.m_messageDescription.data i terminationPosition)
      = some (String.toList "quit", arg, text))
    (hsender : st.task.m_messageDescription.sender = some p) :
    ∃ st2, executeLoop defs rawTime (fuel + 1) i terminationPosition st = .ok st2 ∧
      ProcessChatMessages st2 = st2 ∧
      st2.task.m_messageList = [] ∧
      st2.posted = st.posted ++ (if st.task.m_messageList = [] then []
        else [.PostFastTask (.WriteAnswerTask st.manager.GetActiveConnections
          { st.task.m_messageDescription with sender := none } st.task.m_messageList)]) ∧
      st2.manager = ConnectionHolder.Close st.manager p ∧
      (st2.manager.heap p).IsConnectionClosed = true ∧
      st2.manager.m_pendingConnectionsToDelete
        = st.manager.m_pendingConnectionsToDelete ++ [(st.manager.heap p).GetSocketDescriptor] ∧
      st2.manager.m_activeConnections = st.manager.m_activeConnections := by
  obtain ⟨st2, hd, hm, ht, hp⟩ := dispatch_quit defs rawTime st _ arg text p hparse hsender
  have hlist : st2.task.m_messageList = [] := by rw [ht, ProcessChatMessages_list]
  obtain ⟨_, hmap, hpend, _⟩ := Close_facts st.manager p
  refine ⟨st2, ?_, ?_, hlist, ?_, hm, ?_, ?_, ?_⟩
  · rw [executeLoop]
    simp only [hi, if_true, hd]
  · unfold ProcessChatMessages
    rw [if_pos hlist]
  · rw [hp, ProcessChatMessages_posted]
  · rw [hm, Close_heap_self]
    rfl
  · rw [hm, hpend]
  · rw [hm, hmap]

/-- Witness of C21: `alice` sends `hello\n\quit\nlater\n`; the loop has stored `alice> hello\n`
and stands at the piece `\quit\n`. -/
theorem quit_closes_sender_and_ends_loop_witness :
    substr (String.toList "hello\n\\quit\nlater\n") 6 6 = String.toList "\\quit\n" ∧
    (∃ st2, executeLoop exampleDefinitions 0 1 6 6
        { manager := exampleManager,
          task := { m_messageDescription :=
                      exampleMessage (String.toList "hello\n\\quit\nlater\n"),
                    m_messageList := [String.toList "alice> hello\n"] },
          posted := [] } = .ok st2 ∧
      ProcessChatMessages st2 = st2 ∧
      st2.task.m_messageList = [] ∧
      st2.posted = [.PostFastTask (.WriteAnswerTask [0, 1, 2]
          { exampleMessage (String.toList "hello\n\\quit\nlater\n") with sender := none }
          [String.toList "alice> hello\n"])] ∧
      st2.manager = ConnectionHolder.Close exampleManager 1 ∧
      (st2.manager.heap 1).IsConnectionClosed = true ∧
      st2.manager.m_pendingConnectionsToDelete = [5] ∧
      st2.manager.m_activeConnections = [(3, 0), (5, 1), (6, 2)]) ∧
    ∃ st, Execute exampleDefinitions 0 3 exampleManager
        { m_messageDescription := exampleMessage (String.toList "hello\n\\quit\nlater\n"),
          m_messageList := [] } = .ok st ∧
      st.posted = [.PostFastTask (.WriteAnswerTask [0, 1, 2]
          { exampleMessage (String.toList "hello\n\\quit\nlater\n") with sender := none }
          [String.toList "alice> hello\n"])] ∧
      (st.manager.heap 1).IsConnectionClosed = true :=
  ⟨by decide,
    quit_closes_sender_and_ends_loop exampleDefinitions 0 0 6 6
      { manager := exampleManager,
        task := { m_messageDescription :=
                    exampleMessage (String.toList "hello\n\\quit\nlater\n"),
                  m_messageList := [String.toList "alice> hello\n"] },
        posted := [] } [] [] 1 (by decide) (by decide) rfl,
    _, rfl, by decide, by decide⟩

/-- C22 as the code has it: a dispatched piece that parses as an `\intro` command, in a task
whose sender name is not `SERVER`. `ProcessServiceMessage` returns `eFail` and changes nothing,
in any state; the round of the loop of `Execute` then goes on and stores the piece as a chat
line: after it the message list is the line `senderName> frame`, which the next flush
broadcasts; no single message is posted (the round posts only the broadcast of the lines pending
before), and the registry and the message context are as before. -/
theorem intro_of_a_user_is_stored_as_chat (defs : CompiledDefinitions) (rawTime : Int)
    (st : ExecState) (frame arg text : List Char)
    (hparse : regex_match frame = some (String.toList "intro", arg, text))
    (hname : st.task.m_messageDescription.senderName ≠ ServerSenderName) :
    (∀ st1 : ExecState, st1.task.m_messageDescription.senderName ≠ ServerSenderName →
      ProcessServiceMessage defs rawTime st1 frame = .ok (.eFail, st1)) ∧
    ∃ st2, dispatch defs rawTime st frame = .ok (false, st2) ∧
      st2.task.m_messageList
        = [st.task.m_messageDescription.senderName ++ String.toList "> " ++ frame] ∧
      st2.task.m_messageDescription = st.task.m_messageDescription ∧
      st2.manager = st.manager ∧
      st2.posted = st.posted ++ (if st.task.m_messageList = [] then []
        else [.PostFastTask (.WriteAnswerTask st.manager.GetActiveConnections
          { st.task.m_messageDescription with sender := none } st.task.m_messageList)]) := by
  have hhead := regex_match_head frame _ hparse
  have hcmd : GetCommandIdByName (String.toList "intro") = .ok .CommandIntro := rfl
  have hpsm : ∀ st1 : ExecState, st1.task.m_messageDescription.senderName ≠ ServerSenderName →
      ProcessServiceMessage defs rawTime st1 frame = .ok (.eFail, st1) := by
    intro st1 h1
    unfold ProcessServiceMessage
    simp only [hparse, hcmd]
    unfold AssembleServiceMessage
    simp only [h1, ne_eq, not_false_eq_true, if_true]
  refine ⟨hpsm, ?_⟩
  unfold dispatch
  rw [if_pos hhead, hpsm (ProcessChatMessages st)
    (by rw [ProcessChatMessages_description]; exact hname)]
  simp only [reduceCtorEq, if_false, ne_eq, not_false_eq_true, if_true]
  refine ⟨_, rfl, ?_, ?_, ?_, ?_⟩
  · simp only [StoreChatMessage, ProcessChatMessages_list, ProcessChatMessages_description,
      List.nil_append]
  · simp only [StoreChatMessage, ProcessChatMessages_description]
  · simp only [StoreChatMessage, ProcessChatMessages_manager]
  · simp only [StoreChatMessage, ProcessChatMessages_posted]

/-- Witness of C22: `alice` sends `\intro\n`. -/
theorem intro_of_a_user_is_stored_as_chat_witness :
    regex_match (String.toList "\\intro\n") = some (String.toList "intro", [], []) ∧
    ∃ st2, dispatch exampleDefinitions 0
        { manager := exampleManager,
          task := { m_messageDescription := exampleMessage (String.toList "\\intro\n"),
                    m_messageList := [] },
          posted := [] } (String.toList "\\intro\n") = .ok (false, st2) ∧
      st2.task.m_messageList = [String.toList "alice> \\intro\n"] ∧
      st2.task.m_messageDescription = exampleMessage (String.toList "\\intro\n") ∧
      st2.manager = exampleManager ∧
      st2.posted = [] :=
  ⟨by decide,
    (intro_of_a_user_is_stored_as_chat exampleDefinitions 0
      { manager := exampleManager,
        task := { m_messageDescription := exampleMessage (String.toList "\\intro\n"),
                  m_messageList := [] },
        posted := [] } (String.toList "\\intro\n") [] [] (by decide) (by decide)).2⟩

/-- Counterexample to C22 as stated: `alice` sends `\intro\n`, and `Execute` posts the broadcast
whose list holds the line `alice> \intro\n`. -/
theorem intro_of_a_user_is_broadcast :
    ProcessMessageTask.new (exampleMessage (String.toList "\\intro\n"))
      = .ok { m_messageDescription := exampleMessage (String.toList "\\intro\n"),
              m_messageList := [] } ∧
    ∃ st, Execute exampleDefinitions 0 1 exampleManager
        { m_messageDescription := exampleMessage (String.toList "\\intro\n"),
          m_messageList := [] } = .ok st ∧
      st.posted = [.PostFastTask (.WriteAnswerTask [0, 1, 2]
          { exampleMessage (String.toList "\\intro\n") with sender := none }
          [String.toList "alice> \\intro\n"])] :=
  ⟨rfl, _, rfl, by decide⟩

end ProcessMessageTask

/-! ## The argument of the `\nickname` command -/

theorem mem_greedy (hi lo k : Nat) (h : k ∈ greedy hi lo) : lo ≤ k ∧ k ≤ hi := by
  unfold greedy at h
  simp only [List.mem_filter, List.mem_reverse, List.mem_range, decide_eq_true_eq] at h
  exact ⟨h.2, Nat.lt_succ_iff.mp h.1⟩

theorem take_runLength_all (p : Char → Bool) (s : List Char) (k : Nat)
    (hk : k ≤ runLength p s) : ∀ x ∈ s.take k, p x = true := by
  induction s generalizing k with
  | nil => intro x hx; simp at hx
  | cons a rest ih =>
    intro x hx
    cases k with
    | zero => simp at hx
    | succ k =>
      unfold runLength at hk
      by_cases ha : p a = true
      · rw [List.takeWhile_cons_of_pos ha, List.length_cons] at hk
        rw [List.take_succ_cons] at hx
        rcases List.mem_cons.mp hx with h | h
        · rw [h]; exact ha
        · exact ih k (Nat.le_of_succ_le_succ hk) x h
      · rw [List.takeWhile_cons_of_neg ha] at hk
        simp at hk

theorem isAlnum_not_isSpace (c : Char) (h : isAlnum c = true) : isSpace c = false := by
  have h48 : 48 ≤ c.toNat := by
    simp only [isAlnum, isAlpha, Bool.or_eq_true, Bool.and_eq_true, decide_eq_true_eq] at h
    have e1 : ('A' : Char).toNat = 65 := rfl
    have e2 : ('a' : Char).toNat = 97 := rfl
    have e3 : ('0' : Char).toNat = 48 := rfl
    rcases h with (h | h) | h
    · have := h.1
      have : ('A' : Char).toNat ≤ c.toNat := this
      omega
    · have := h.1
      have : ('a' : Char).toNat ≤ c.toNat := this
      omega
    · have := h.1
      have : ('0' : Char).toNat ≤ c.toNat := this
      omega
  unfold isSpace
  have hne : c ≠ ' ' := by
    intro hc
    rw [hc] at h48
    revert h48
    decide
  simp only [Bool.or_eq_false_iff, beq_eq_false_iff_ne, ne_eq, hne, not_false_eq_true,
    Bool.and_eq_false_imp, decide_eq_true_eq, decide_eq_false_iff_not, true_and]
  intro _
  omega

/-- Trimming a string made of white space followed by letters and digits leaves the letters and
digits. -/
theorem trim_spaces_alnum (sp al : List Char) (hsp : ∀ x ∈ sp, isSpace x = true)
    (hal : ∀ x ∈ al, isAlnum x = true) : trim (sp ++ al) = al := by
  have hns : ∀ x ∈ al, isSpace x = false := fun x hx => isAlnum_not_isSpace x (hal x hx)
  have h1 : (sp ++ al).dropWhile isSpace = al := by
    induction sp with
    | nil =>
      cases al with
      | nil => rfl
      | cons a rest =>
        have := hns a (List.mem_cons_self _ _)
        simp [List.dropWhile, this]
    | cons s rest ih =>
      have hs := hsp s (List.mem_cons_self _ _)
      simp only [List.cons_append, List.dropWhile, hs]
      exact ih (fun x hx => hsp x (List.mem_cons_of_mem _ hx))
  have h2 : al.reverse.dropWhile isSpace = al.reverse := by
    cases hr : al.reverse with
    | nil => rfl
    | cons a rest =>
      have ha : a ∈ al := by
        have : a ∈ al.reverse := by rw [hr]; exact List.mem_cons_self _ _
        exact List.mem_reverse.mp this
      simp [List.dropWhile, hns a ha]
  unfold trim
  rw [h1, h2, List.reverse_reverse]

/-- Group 2 of a match of `ServiceMessageRegExpression` is empty or white space followed by at
least one letter or digit, and nothing else. -/
theorem matchArgument_group (s arg text : List Char) (h : matchArgument s = some (arg, text)) :
    arg = [] ∨ ∃ sp al, arg = sp ++ al ∧ al ≠ [] ∧ (∀ x ∈ sp, isSpace x = true) ∧
      (∀ x ∈ al, isAlnum x = true) := by
  unfold matchArgument at h
  rw [Option.orElse_eq_some] at h
  rcases h with hr | ⟨_, h⟩
  · right
    obtain ⟨k3, hk3, h3⟩ := List.exists_of_findSome?_eq_some hr
    obtain ⟨k4, hk4, h4⟩ := List.exists_of_findSome?_eq_some h3
    simp only [Option.map_eq_some'] at h4
    obtain ⟨t, _, ht⟩ := h4
    have e1 := mem_greedy _ _ _ hk3
    have e2 := mem_greedy _ _ _ hk4
    simp only [Prod.mk.injEq] at ht
    refine ⟨s.take k3, (s.drop k3).take k4, ?_, ?_, ?_, ?_⟩
    · rw [← ht.1, List.take_add]
    · intro hnil
      have hlen := congrArg List.length hnil
      rw [List.length_take] at hlen
      have hrun : runLength isAlnum (s.drop k3) ≤ (s.drop k3).length := by
        unfold runLength
        exact (List.takeWhile_prefix isAlnum).length_le
      simp only [List.length_nil] at hlen
      omega
    · exact take_runLength_all isSpace s k3 e1.2
    · exact take_runLength_all isAlnum (s.drop k3) k4 e2.2
  · simp only [Option.map_eq_some'] at h
    obtain ⟨t, _, ht⟩ := h
    simp only [Prod.mk.injEq] at ht
    exact Or.inl ht.1.symm

theorem regex_match_group (c cmd arg text : List Char)
    (h : regex_match c = some (cmd, arg, text)) :
    arg = [] ∨ ∃ sp al, arg = sp ++ al ∧ al ≠ [] ∧ (∀ x ∈ sp, isSpace x = true) ∧
      (∀ x ∈ al, isAlnum x = true) := by
  unfold regex_match at h
  split at h
  · cases h
  · rename_i ch r
    split at h
    · cases h
    · obtain ⟨k1, _, h1⟩ := List.exists_of_findSome?_eq_some h
      obtain ⟨k2, _, h2⟩ := List.exists_of_findSome?_eq_some h1
      simp only [Option.map_eq_some'] at h2
      obtain ⟨g, hg, ht⟩ := h2
      simp only [Prod.mk.injEq] at ht
      obtain ⟨g1, g2⟩ := g
      have := matchArgument_group _ g1 g2 hg
      rw [← ht.2.1]
      exact this

theorem to_upper_ServerSenderName : to_upper ServerSenderName = ServerSenderName := by decide

theorem SetClientUsername_usernames (m m1 : ConnectionManager) (sourceSocket : SocketDescriptor)
    (username : List Char) (rawTime : Int) (error : result_code)
    (h : m.SetClientUsername sourceSocket username rawTime = .ok (error, m1))
    (hne : username ≠ []) (r : ConnectionHolderPtr) :
    (m1.heap r).GetUsername = (m.heap r).GetUsername ∨ (m1.heap r).GetUsername = username := by
  unfold ConnectionManager.SetClientUsername at h
  split at h
  · cases h
  · split at h
    · injection h with h
      injection h with _ h2
      rw [← h2]
      exact Or.inl rfl
    · injection h with h
      injection h with _ h2
      rw [← h2]
      exact Or.inl rfl
    · rename_i p _
      injection h with h
      injection h with _ h2
      rw [← h2]
      simp only [ConnectionManager.store, ConnectionHolder.SetUsername, hne, ne_eq,
        not_false_eq_true, if_true]
      by_cases hr : r = p
      · rw [hr, Function.update_same]
        exact Or.inr rfl
      · rw [Function.update_noteq hr]
        exact Or.inl rfl

theorem Close_usernames (m : ConnectionManager) (p r : ConnectionHolderPtr) :
    ((ConnectionHolder.Close m p).heap r).GetUsername = (m.heap r).GetUsername := by
  rw [(Close_facts m p).1]
  by_cases hr : r = p
  · rw [hr, Function.update_same]
    rfl
  · rw [Function.update_noteq hr]

theorem ValidateNickname_ok_facts (nickname : List Char)
    (h : (ValidateNickname nickname []).1 = .sOk) :
    nickname ≠ [] ∧ nickname.length ≤ MaxNicknameLength ∧
      to_upper nickname ≠ ServerSenderName := by
  have hcode := ValidateNickname_code nickname []
  rw [h] at hcode
  have hnot : ¬ (nickname = [] ∨ MaxNicknameLength < nickname.length
      ∨ to_upper nickname = ServerSenderName) := by
    intro hc
    rw [if_pos hc] at hcode
    cases hcode
  simp only [not_or] at hnot
  exact ⟨hnot.1, by omega, hnot.2.2⟩

namespace ProcessMessageTask

/-- After `AssembleServiceMessage` returned, every user name of the heap is the one that the
object had before the call or the one that the call passed to `SetClientUsername`. -/
theorem AssembleServiceMessage_usernames (defs : CompiledDefinitions) (rawTime : Int)
    (st st2 : ExecState) (id : ChatCommandId) (arg text : List Char) (code : result_code)
    (h : AssembleServiceMessage defs rawTime st id arg text = .ok (code, st2))
    (r : ConnectionHolderPtr) :
    (st2.manager.heap r).GetUsername = (st.manager.heap r).GetUsername ∨
      usernamePassedByCommand id arg = some (st2.manager.heap r).GetUsername := by
  cases id with
  | CommandQuit =>
    unfold AssembleServiceMessage at h
    simp only at h
    split at h
    · cases h
    · injection h with h
      injection h with _ h2
      rw [← h2]
      exact Or.inl (Close_usernames _ _ _)
  | CommandHelp =>
    unfold AssembleServiceMessage at h
    injection h with h
    injection h with _ h2
    rw [← h2]
    exact Or.inl rfl
  | CommandListParticipants =>
    unfold AssembleServiceMessage at h
    injection h with h
    injection h with _ h2
    rw [← h2]
    exact Or.inl rfl
  | CommandNickName =>
    unfold AssembleServiceMessage at h
    simp only at h
    by_cases hv : (ValidateNickname arg []).1 = .sOk
    · have hpass : usernamePassedByCommand .CommandNickName arg = some arg := by
        unfold usernamePassedByCommand
        simp only [hv, ne_eq, not_true_eq_false, if_false]
      have hne := (ValidateNickname_ok_facts arg hv).1
      simp only [hv, ne_eq, not_true_eq_false, if_false] at h
      cases hset : st.manager.SetClientUsername st.task.m_messageDescription.senderSocket arg
          rawTime with
      | error e => rw [hset] at h; cases h
      | ok res =>
        obtain ⟨error, manager⟩ := res
        rw [hset] at h
        simp only at h
        have hnames := SetClientUsername_usernames _ _ _ _ _ _ hset hne r
        have hdone : (st2.manager.heap r).GetUsername = (manager.heap r).GetUsername := by
          split at h
          · injection h with h
            injection h with _ h2
            rw [← h2]
            rfl
          · split at h
            · injection h with h
              injection h with _ h2
              rw [← h2]
            · injection h with h
              injection h with _ h2
              rw [← h2]
              rfl
        rw [hdone, hpass]
        rcases hnames with h1 | h1
        · exact Or.inl h1
        · exact Or.inr (by rw [h1])
    · simp only [hv, ne_eq, not_false_eq_true, if_true] at h
      injection h with h
      injection h with _ h2
      rw [← h2]
      exact Or.inl rfl
  | CommandPrivateMessage =>
    unfold AssembleServiceMessage at h
    simp only at h
    split at h
    · injection h with h
      injection h with _ h2
      rw [← h2]
      exact Or.inl rfl
    · split at h
      · injection h with h
        injection h with _ h2
        rw [← h2]
        exact Or.inl rfl
      · split at h
        · cases h
        · split at h
          · injection h with h
            injection h with _ h2
            rw [← h2]
            exact Or.inl rfl
          · injection h with h
            injection h with _ h2
            rw [← h2]
            exact Or.inl rfl
  | CommandIntro =>
    unfold AssembleServiceMessage at h
    simp only at h
    split at h
    · injection h with h
      injection h with _ h2
      rw [← h2]
      exact Or.inl rfl
    · split at h
      · cases h
      · injection h with h
        injection h with _ h2
        rw [← h2]
        exact Or.inl rfl

/-- After `ProcessServiceMessage` returned, every user name of the heap is the one that the
object had before the call or the one that the call passed to `SetClientUsername`. -/
theorem ProcessServiceMessage_usernames (defs : CompiledDefinitions) (rawTime : Int)
    (st st2 : ExecState) (frame : List Char) (code : result_code)
    (h : ProcessServiceMessage defs rawTime st frame = .ok (code, st2))
    (r : ConnectionHolderPtr) :
    (st2.manager.heap r).GetUsername = (st.manager.heap r).GetUsername ∨
      usernamePassed frame = some (st2.manager.heap r).GetUsername := by
  unfold ProcessServiceMessage at h
  unfold usernamePassed
  cases hm : regex_match frame with
  | none =>
    rw [hm] at h
    injection h with h
    injection h with _ h2
    rw [← h2]
    exact Or.inl rfl
  | some groups =>
    obtain ⟨cmd, argument, text⟩ := groups
    rw [hm] at h
    simp only at h ⊢
    cases hc : GetCommandIdByName cmd with
    | error e =>
      rw [hc] at h
      injection h with h
      injection h with _ h2
      rw [← h2]
      exact Or.inl rfl
    | ok id =>
      rw [hc] at h
      simp only at h ⊢
      cases ha : AssembleServiceMessage defs rawTime st id (trim argument) text with
      | error f =>
        rw [ha] at h
        cases f with
        | thrown e =>
          injection h with h
          injection h with _ h2
          rw [← h2]
          exact Or.inl rfl
        | nullDereference => cases h
        | outOfFuel => cases h
      | ok res =>
        rw [ha] at h
        obtain ⟨c2, s2⟩ := res
        injection h with h
        injection h with _ h2
        rw [← h2]
        exact AssembleServiceMessage_usernames defs rawTime st s2 id (trim argument) text c2 ha r

end ProcessMessageTask

/-- C29: `name` is the user name that `ProcessServiceMessage` passes to
`ConnectionManager::SetClientUsername` for the frame; the one call stands in the case of the
`\nickname` command behind the test of `ValidateNickname`, and no call is made for a frame for
which `usernamePassed` is `none`. The name is non-empty, at most 50 characters long and made
of letters and digits, so that it is neither a generated name `user_<time>_<counter>` nor
`SERVER` in any letter case. When the registry accepts the name, `ProcessServiceMessage` returns
`sOk` with the registry as `SetClientUsername` left it; and after any service message, every
user name of the heap is the one that the object had before or the name that was passed. -/
theorem nickname_passed_to_registry_is_alphanumeric (frame name : List Char)
    (hpassed : ProcessMessageTask.usernamePassed frame = some name) :
    name ≠ [] ∧ name.length ≤ 50 ∧
    (∀ x ∈ name, isAlnum x = true) ∧
    (∀ rawTime userId : Int, name ≠ autoUsername rawTime userId) ∧
    to_upper name ≠ String.toList "SERVER" ∧
    (∀ (defs : CompiledDefinitions) (rawTime : Int) (st : ExecState) (m1 : ConnectionManager),
      st.manager.SetClientUsername st.task.m_messageDescription.senderSocket name rawTime
        = .ok (.sOk, m1) →
      ∃ st2, ProcessMessageTask.ProcessServiceMessage defs rawTime st frame = .ok (.sOk, st2) ∧
        st2.manager = m1) ∧
    ∀ (defs : CompiledDefinitions) (rawTime : Int) (st st2 : ExecState) (other : List Char)
      (code : result_code),
      ProcessMessageTask.ProcessServiceMessage defs rawTime st other = .ok (code, st2) →
      ∀ r : ConnectionHolderPtr,
        (st2.manager.heap r).GetUsername = (st.manager.heap r).GetUsername ∨
          ProcessMessageTask.usernamePassed other = some (st2.manager.heap r).GetUsername := by
  -- the frame parses as a `\nickname` command whose trimmed argument passed the validation
  have hparse : ∃ argument text,
      regex_match frame = some (String.toList "nickname", argument, text) ∧
      (ValidateNickname (trim argument) []).1 = .sOk ∧ name = trim argument := by
    unfold ProcessMessageTask.usernamePassed at hpassed
    cases hm : regex_match frame with
    | none => rw [hm] at hpassed; cases hpassed
    | some groups =>
      obtain ⟨cmd, argument, text⟩ := groups
      rw [hm] at hpassed
      simp only at hpassed
      cases hc : GetCommandIdByName cmd with
      | error e => rw [hc] at hpassed; cases hpassed
      | ok id =>
        rw [hc] at hpassed
        simp only at hpassed
        unfold ProcessMessageTask.usernamePassedByCommand at hpassed
        cases id with
        | CommandNickName =>
          simp only at hpassed
          split at hpassed
          · cases hpassed
          · rename_i hv
            injection hpassed with hpassed
            have hcmd : cmd = String.toList "nickname" := by
              unfold GetCommandIdByName at hc
              split_ifs at hc with h1 h2 h3 h4 h5 h6 <;> first | assumption | cases hc
            rw [hcmd]
            exact ⟨argument, text, rfl, by simpa using hv, hpassed.symm⟩
        | CommandQuit => cases hpassed
        | CommandHelp => cases hpassed
        | CommandListParticipants => cases hpassed
        | CommandPrivateMessage => cases hpassed
        | CommandIntro => cases hpassed
  obtain ⟨argument, text, hparse, hvalid, hname⟩ := hparse
  subst hname
  obtain ⟨hne, hlen, hserver⟩ := ValidateNickname_ok_facts (trim argument) hvalid
  have halnum : ∀ x ∈ trim argument, isAlnum x = true := by
    rcases regex_match_group frame _ argument text hparse with h | ⟨sp, al, h, _, hsp, hal⟩
    · rw [h] at hne
      exact absurd rfl hne
    · rw [h, trim_spaces_alnum sp al hsp hal]
      exact hal
  refine ⟨hne, ?_, halnum, ?_, ?_, ?_, ?_⟩
  · have h50 : MaxNicknameLength = 50 := rfl
    omega
  · intro rawTime userId heq
    have h1 := autoUsername_not_alnum rawTime userId
    rw [← heq, List.all_eq_false] at h1
    obtain ⟨x, hx, hxn⟩ := h1
    exact hxn (halnum x hx)
  · have hs : ServerSenderName = String.toList "SERVER" := by decide
    rw [← hs]
    exact hserver
  · intro defs rawTime st m1 hset
    have hcmd : GetCommandIdByName (String.toList "nickname") = .ok .CommandNickName := rfl
    unfold ProcessMessageTask.ProcessServiceMessage
    simp only [hparse, hcmd]
    unfold ProcessMessageTask.AssembleServiceMessage
    simp only [hvalid, hset, ne_eq, not_true_eq_false, if_false, reduceCtorEq]
    exact ⟨_, rfl, rfl⟩
  · intro defs rawTime st st2 other code h r
    exact ProcessMessageTask.ProcessServiceMessage_usernames defs rawTime st st2 other code h r

/-- Witness of C29: `alice` sends `\nickname carol\n`, and the name passed is `carol`; for
`\nickname SERVER\n` and for `\help\n` no name is passed. -/
theorem nickname_passed_to_registry_is_alphanumeric_witness :
    ProcessMessageTask.usernamePassed (String.toList "\\nickname carol\n")
      = some (String.toList "carol") ∧
    ProcessMessageTask.usernamePassed (String.toList "\\nickname SERVER\n") = none ∧
    ProcessMessageTask.usernamePassed (String.toList "\\help\n") = none ∧
    (∀ x ∈ String.toList "carol", isAlnum x = true) ∧
    (∀ rawTime userId : Int, String.toList "carol" ≠ autoUsername rawTime userId) ∧
    to_upper (String.toList "carol") ≠ String.toList "SERVER" :=
  ⟨by decide, by decide, by decide,
    (nickname_passed_to_registry_is_alphanumeric (String.toList "\\nickname carol\n")
      (String.toList "carol") (by decide)).2.2.1,
    (nickname_passed_to_registry_is_alphanumeric (String.toList "\\nickname carol\n")
      (String.toList "carol") (by decide)).2.2.2.1,
    (nickname_passed_to_registry_is_alphanumeric (String.toList "\\nickname carol\n")
      (String.toList "carol") (by decide)).2.2.2.2.1⟩

/-! ## The store of the zero byte in `SocketWrapper::Read` -/

theorem zeroIndex_full_read (bs : List Char) (N : Nat) (hN : 0 < N) (h : N ≤ bs.length) :
    SocketWrapper.zeroIndex (.data bs) N = some N := by
  unfold SocketWrapper.zeroIndex
  have hl : (bs.take N).length = N := by
    rw [List.length_take]
    exact Nat.min_eq_left h
  simp only [hl, gt_iff_lt, hN, if_true]

/-- C28: the socket delivers 1024 bytes to the call `Read(dataBuffer, MaxDataBufferSize)` of
`ReadAndAppendSocketData`, whose buffer has 1024 bytes. The read result is 1024, and the index
at which `Read` stores the zero byte is 1024, the size of the buffer: one past its last byte,
so that the buffer itself holds the 1024 bytes read and no zero byte. -/
theorem Read_stores_zero_past_the_buffer :
    (List.replicate MaxDataBufferSize nul).length = 1024 ∧
    SocketWrapper.zeroIndex (.data (List.replicate 1024 'a')) MaxDataBufferSize = some 1024 ∧
    SocketWrapper.Read (.data (List.replicate 1024 'a')) (List.replicate MaxDataBufferSize nul)
        MaxDataBufferSize
      = .ok (1024, List.replicate 1024 'a') := by
  have hM : MaxDataBufferSize = 1024 := rfl
  have hlen : (List.replicate 1024 'a').length = 1024 := List.length_replicate _ _
  refine ⟨by rw [List.length_replicate, hM], ?_, ?_⟩
  · exact zeroIndex_full_read _ _ (by decide) (by rw [hlen, hM])
  · unfold SocketWrapper.Read
    have htake : (List.replicate 1024 'a').take MaxDataBufferSize = List.replicate 1024 'a' :=
      List.take_of_length_le (by rw [hlen, hM])
    simp only [htake, hlen]
    have hdrop : (List.replicate MaxDataBufferSize nul).drop 1024 = [] :=
      List.drop_eq_nil_of_le (by rw [List.length_replicate, hM])
    rw [hdrop, List.append_nil, List.set_eq_of_length_le (by rw [hlen])]
    rfl

namespace ProcessMessageTask

/-! ## The pieces that the loop of `Execute` cuts -/

theorem take_append_drop_length (l : List Char) (n : Nat) :
    l.take n ++ l.drop (l.take n).length = l := by
  by_cases h : n ≤ l.length
  · rw [List.length_take, Nat.min_eq_left h, List.take_append_drop]
  · rw [List.take_of_length_le (by omega), List.drop_length, List.append_nil]

theorem cutLoop_eq_map (data : List Char) (fuel i tp : Nat) :
    cutLoop data fuel i tp
      = (cutPositions data fuel i tp).map (List.map fun r => substr data r.1 r.2) := by
  induction fuel generalizing i tp with
  | zero =>
    unfold cutLoop cutPositions
    split <;> rfl
  | succ f ih =>
    unfold cutLoop cutPositions
    split
    · rw [ih]
      cases cutPositions data f (i + nextTerminationPosition data i)
        (nextTerminationPosition data i) <;> rfl
    · rfl

theorem findFirst_of_mem (s : List Char) (c : Char) (h : c ∈ s) :
    ∃ k, findFirst s c = some k ∧ k < s.length := by
  induction s with
  | nil => cases h
  | cons x xs ih =>
    unfold findFirst
    by_cases hx : x = c
    · exact ⟨0, by rw [if_pos hx], by simp⟩
    · rw [if_neg hx]
      rcases List.mem_cons.mp h with h1 | h1
      · exact absurd h1.symm hx
      · obtain ⟨k, hk, hlt⟩ := ih h1
        exact ⟨k + 1, by rw [hk]; rfl, by simp [hlt]⟩

/-- In data that ends with the termination symbol, the search of the loop for the next
termination symbol succeeds from every position inside the data. -/
theorem nextTerminationPosition_bounds (data : List Char)
    (hlast : data[data.length - 1]? = some ChatTerminationSymbol) (i : Nat)
    (hi : i < data.length) :
    i + 1 ≤ nextTerminationPosition data i ∧ nextTerminationPosition data i ≤ data.length := by
  have hmem : ChatTerminationSymbol ∈ data.drop i := by
    have h1 : (data.drop i)[data.length - 1 - i]? = some ChatTerminationSymbol := by
      rw [List.getElem?_drop]
      have : i + (data.length - 1 - i) = data.length - 1 := by omega
      rw [this]
      exact hlast
    exact List.mem_iff_getElem?.mpr ⟨_, h1⟩
  obtain ⟨k, hk, hlt⟩ := findFirst_of_mem _ _ hmem
  have hlen : (data.drop i).length = data.length - i := List.length_drop _ _
  unfold nextTerminationPosition find
  rw [hk]
  simp only [Option.map_some']
  omega

/-- The positions of the loop on data that ends with the termination symbol: the loop ends
within as many rounds as the data has bytes from `i` on, every piece starts inside the data and
is cut with a positive length, and every piece ends before the later ones start. -/
theorem cutPositions_spec (data : List Char)
    (hlast : data[data.length - 1]? = some ChatTerminationSymbol) :
    ∀ (fuel i tp : Nat), data.length - i ≤ fuel → 1 ≤ tp →
      (i < data.length → tp ≤ nextTerminationPosition data i) →
      ∃ ranges, cutPositions data fuel i tp = some ranges ∧
        (∀ r ∈ ranges, i ≤ r.1 ∧ r.1 < data.length ∧ 1 ≤ r.2) ∧
        ranges.Pairwise (fun a b => a.1 + a.2 ≤ b.1) := by
  intro fuel
  induction fuel with
  | zero =>
    intro i tp hfuel _ _
    unfold cutPositions
    have : ¬ i < data.length := by omega
    rw [if_neg this]
    exact ⟨[], rfl, by simp, List.Pairwise.nil⟩
  | succ f ih =>
    intro i tp hfuel htp hle
    unfold cutPositions
    by_cases hi : i < data.length
    · rw [if_pos hi]
      obtain ⟨hb1, hb2⟩ := nextTerminationPosition_bounds data hlast i hi
      obtain ⟨rest, hrest, hprops, hpair⟩ := ih (i + nextTerminationPosition data i)
        (nextTerminationPosition data i) (by omega) (by omega)
        (by
          intro hi2
          have := (nextTerminationPosition_bounds data hlast _ hi2).1
          omega)
      refine ⟨(i, tp) :: rest, by rw [hrest]; rfl, ?_, ?_⟩
      · intro r hr
        rcases List.mem_cons.mp hr with h | h
        · rw [h]; exact ⟨le_refl _, hi, htp⟩
        · obtain ⟨h1, h2, h3⟩ := hprops r h
          exact ⟨by omega, h2, h3⟩
      · rw [List.pairwise_cons]
        refine ⟨?_, hpair⟩
        intro r hr
        have := (hprops r hr).1
        have := hle hi
        simp only
        omega
    · rw [if_neg hi]
      exact ⟨[], rfl, by simp, List.Pairwise.nil⟩

/-- `AssembleServiceMessage` in a task whose sender is a connection and whose sender name is not
`SERVER`: it throws or returns, and what it returns has the same data, the same sender and a
sender name other than `SERVER`. -/
theorem AssembleServiceMessage_keeps_data (defs : CompiledDefinitions) (rawTime : Int)
    (st : ExecState) (id : ChatCommandId) (arg text : List Char) (p : ConnectionHolderPtr)
    (hname : st.task.m_messageDescription.senderName ≠ ServerSenderName)
    (hsender : st.task.m_messageDescription.sender = some p) :
    (∃ e, AssembleServiceMessage defs rawTime st id arg text = .error (.thrown e)) ∨
    ∃ code st1, AssembleServiceMessage defs rawTime st id arg text = .ok (code, st1) ∧
      st1.task.m_messageDescription.data = st.task.m_messageDescription.data ∧
      st1.task.m_messageDescription.senderName ≠ ServerSenderName ∧
      st1.task.m_messageDescription.sender = some p := by
  cases id with
  | CommandQuit =>
    right
    unfold AssembleServiceMessage
    simp only [hsender]
    exact ⟨_, _, rfl, rfl, hname, hsender⟩
  | CommandHelp =>
    right
    unfold AssembleServiceMessage
    exact ⟨_, _, rfl, rfl, hname, hsender⟩
  | CommandListParticipants =>
    right
    unfold AssembleServiceMessage
    exact ⟨_, _, rfl, rfl, hname, hsender⟩
  | CommandNickName =>
    unfold AssembleServiceMessage
    simp only
    by_cases hv : (ValidateNickname arg []).1 = .sOk
    · simp only [hv, ne_eq, not_true_eq_false, if_false]
      cases hset : st.manager.SetClientUsername st.task.m_messageDescription.senderSocket arg
          rawTime with
      | error e => exact Or.inl ⟨e, rfl⟩
      | ok r =>
        obtain ⟨error, manager⟩ := r
        right
        simp only
        by_cases h1 : error = .eAlreadyDefined
        · rw [if_pos h1]
          exact ⟨_, _, rfl, rfl, hname, hsender⟩
        · rw [if_neg h1]
          by_cases h2 : error = .sOk
          · simp only [h2, ne_eq, not_true_eq_false, if_false]
            refine ⟨_, _, rfl, rfl, ?_, hsender⟩
            intro hc
            have hcode := ValidateNickname_code arg []
            rw [hv] at hcode
            have hs : to_upper arg = ServerSenderName := by
              simp only at hc
              rw [hc]
              decide
            rw [if_pos (Or.inr (Or.inr hs))] at hcode
            cases hcode
          · simp only [h2, ne_eq, not_false_eq_true, if_true]
            exact ⟨_, _, rfl, rfl, hname, hsender⟩
    · simp only [hv, ne_eq, not_false_eq_true, if_true]
      exact Or.inr ⟨_, _, rfl, rfl, hname, hsender⟩
  | CommandPrivateMessage =>
    unfold AssembleServiceMessage
    simp only
    by_cases h0 : arg = st.task.m_messageDescription.senderName
    · rw [if_pos h0]
      exact Or.inr ⟨_, _, rfl, rfl, hname, hsender⟩
    · rw [if_neg h0]
      by_cases hv : (ValidateNickname arg []).1 = .sOk
      · simp only [hv, ne_eq, not_true_eq_false, if_false]
        cases hfind : st.manager.FindConnectionByUsername arg
            st.task.m_messageDescription.receiver with
        | error e => exact Or.inl ⟨e, rfl⟩
        | ok r =>
          obtain ⟨error, receiver⟩ := r
          right
          simp only
          by_cases h1 : error = .eNotFound
          · rw [if_pos h1]
            exact ⟨_, _, rfl, rfl, hname, hsender⟩
          · rw [if_neg h1]
            exact ⟨_, _, rfl, rfl, hname, hsender⟩
      · simp only [hv, ne_eq, not_false_eq_true, if_true]
        exact Or.inr ⟨_, _, rfl, rfl, hname, hsender⟩
  | CommandIntro =>
    right
    unfold AssembleServiceMessage
    simp only [hname, ne_eq, not_false_eq_true, if_true]
    exact ⟨_, _, rfl, rfl, hname, hsender⟩

theorem ProcessServiceMessage_keeps_data (defs : CompiledDefinitions) (rawTime : Int)
    (st : ExecState) (x : List Char) (p : ConnectionHolderPtr)
    (hname : st.task.m_messageDescription.senderName ≠ ServerSenderName)
    (hsender : st.task.m_messageDescription.sender = some p) :
    ∃ code st1, ProcessServiceMessage defs rawTime st x = .ok (code, st1) ∧
      st1.task.m_messageDescription.data = st.task.m_messageDescription.data ∧
      st1.task.m_messageDescription.senderName ≠ ServerSenderName ∧
      st1.task.m_messageDescription.sender = some p := by
  unfold ProcessServiceMessage
  cases regex_match x with
  | none => exact ⟨_, _, rfl, rfl, hname, hsender⟩
  | some r =>
    obtain ⟨cmd, arg, text⟩ := r
    simp only
    cases GetCommandIdByName cmd with
    | error e => exact ⟨_, _, rfl, rfl, hname, hsender⟩
    | ok id =>
      simp only
      rcases AssembleServiceMessage_keeps_data defs rawTime st id (trim arg) text p hname
        hsender with ⟨e, he⟩ | ⟨code, st1, h1, h2, h3, h4⟩
      · rw [he]
        exact ⟨_, _, rfl, rfl, hname, hsender⟩
      · rw [h1]
        exact ⟨_, _, rfl, h2, h3, h4⟩

/-- A round of the loop in a task whose sender is a connection and whose sender name is not
`SERVER` ends without a failure and keeps the data, the sender, and a sender name other than
`SERVER`. -/
theorem dispatch_keeps_data (defs : CompiledDefinitions) (rawTime : Int)
    (st : ExecState) (x : List Char) (p : ConnectionHolderPtr)
    (hname : st.task.m_messageDescription.senderName ≠ ServerSenderName)
    (hsender : st.task.m_messageDescription.sender = some p) :
    ∃ b st1, dispatch defs rawTime st x = .ok (b, st1) ∧
      st1.task.m_messageDescription.data = st.task.m_messageDescription.data ∧
      st1.task.m_messageDescription.senderName ≠ ServerSenderName ∧
      st1.task.m_messageDescription.sender = some p := by
  unfold dispatch
  by_cases hh : x.head? = some ChatServiceSymbol
  · rw [if_pos hh]
    obtain ⟨code, st1, h1, h2, h3, h4⟩ := ProcessServiceMessage_keeps_data defs rawTime
      (ProcessChatMessages st) x p (by rw [ProcessChatMessages_description]; exact hname)
      (by rw [ProcessChatMessages_description]; exact hsender)
    rw [ProcessChatMessages_description] at h2
    rw [h1]
    simp only
    by_cases hc : code = .eConnectionClosed
    · rw [if_pos hc]
      exact ⟨_, _, rfl, h2, h3, h4⟩
    · rw [if_neg hc]
      by_cases hk : code = .sOk
      · simp only [hk, ne_eq, not_true_eq_false, if_false]
        exact ⟨_, _, rfl, h2, h3, h4⟩
      · simp only [hk, ne_eq, not_false_eq_true, if_true]
        exact ⟨_, _, rfl, h2, h3, h4⟩
  · rw [if_neg hh]
    exact ⟨_, _, rfl, rfl, hname, hsender⟩

/-- While the data stays the same the loop of `Execute` runs its rounds on the pieces of
`cutLoop`, in their order. -/
theorem executeLoop_eq_dispatchAll (defs : CompiledDefinitions) (rawTime : Int)
    (p : ConnectionHolderPtr) :
    ∀ (fuel i tp : Nat) (st : ExecState) (chunks : List (List Char)),
      st.task.m_messageDescription.senderName ≠ ServerSenderName →
      st.task.m_messageDescription.sender = some p →
      cutLoop st.task.m_messageDescription.data fuel i tp = some chunks →
      executeLoop defs rawTime fuel i tp st = dispatchAll defs rawTime st chunks := by
  intro fuel
  induction fuel with
  | zero =>
    intro i tp st chunks _ _ hcut
    unfold cutLoop at hcut
    unfold executeLoop
    split at hcut
    · cases hcut
    · rename_i hi
      cases hcut
      rw [if_neg hi]
      rfl
  | succ f ih =>
    intro i tp st chunks hname hsender hcut
    unfold cutLoop at hcut
    unfold executeLoop
    split at hcut
    · rename_i hi
      rw [if_pos hi]
      simp only [Option.map_eq_some'] at hcut
      obtain ⟨rest, hrest, hchunks⟩ := hcut
      subst hchunks
      obtain ⟨b, st1, hd, h2, h3, h4⟩ := dispatch_keeps_data defs rawTime st
        (substr st.task.m_messageDescription.data i tp) p hname hsender
      unfold dispatchAll
      simp only [hd]
      cases b with
      | true => rfl
      | false =>
        simp only [h2]
        exact ih _ _ st1 rest h3 h4 (by rw [h2]; exact hrest)
    · rename_i hi
      cases hcut
      rw [if_neg hi]
      rfl

theorem dispatchAll_returns (defs : CompiledDefinitions) (rawTime : Int)
    (p : ConnectionHolderPtr) (chunks : List (List Char)) :
    ∀ st : ExecState, st.task.m_messageDescription.senderName ≠ ServerSenderName →
      st.task.m_messageDescription.sender = some p →
      ∃ st1, dispatchAll defs rawTime st chunks = .ok st1 := by
  induction chunks with
  | nil => intro st _ _; exact ⟨st, rfl⟩
  | cons x rest ih =>
    intro st hname hsender
    obtain ⟨b, st1, hd, _, h3, h4⟩ := dispatch_keeps_data defs rawTime st x p hname hsender
    unfold dispatchAll
    simp only [hd]
    cases b with
    | true => exact ⟨st1, rfl⟩
    | false => exact ih st1 h3 h4

/-! ## The loop of `Execute` in a task of any sender -/

theorem findFirst_past_prefix (u e : List Char) (c : Char) (h : c ∉ u) :
    findFirst (u ++ c :: e) c = some u.length := by
  induction u with
  | nil => simp [findFirst]
  | cons x u ih =>
    have hx : x ≠ c := fun e => h (by rw [e]; exact List.mem_cons_self _ _)
    rw [List.cons_append, findFirst, if_neg hx, ih (fun e => h (List.mem_cons_of_mem _ e))]
    rfl

/-- In data whose only termination symbol is its last byte, the search of the loop finds that
byte from every position inside the data. -/
theorem nextTerminationPosition_single_line (body : List Char)
    (h : ChatTerminationSymbol ∉ body) (i : Nat) :
    nextTerminationPosition (body ++ [ChatTerminationSymbol]) i
      = if i < (body ++ [ChatTerminationSymbol]).length
        then (body ++ [ChatTerminationSymbol]).length else 0 := by
  unfold nextTerminationPosition find
  by_cases hi : i ≤ body.length
  · have hdrop : (body ++ [ChatTerminationSymbol]).drop i
        = body.drop i ++ ChatTerminationSymbol :: [] := by
      rw [List.drop_append_of_le_length hi]
    have hnot : ChatTerminationSymbol ∉ body.drop i := fun hm => h (List.mem_of_mem_drop hm)
    rw [hdrop, findFirst_past_prefix _ _ _ hnot]
    simp only [Option.map_some', List.length_drop, List.length_append, List.length_singleton]
    rw [if_pos (by omega)]
    omega
  · have hdrop : (body ++ [ChatTerminationSymbol]).drop i = [] :=
      List.drop_eq_nil_of_le (by rw [List.length_append, List.length_singleton]; omega)
    rw [hdrop]
    simp only [findFirst, Option.map_none', List.length_append, List.length_singleton]
    rw [if_neg (by omega)]

/-- The data that the `\intro` command writes: when the product name, the version and the user
name hold no termination symbol, its only termination symbol is its last byte. -/
theorem introData_single_line (defs : CompiledDefinitions) (username : List Char)
    (hname : ChatTerminationSymbol ∉ defs.CORE_PRODUCT_NAME)
    (hversion : ChatTerminationSymbol ∉ defs.CORE_VERSION)
    (huser : ChatTerminationSymbol ∉ username) :
    ∃ body, ChatTerminationSymbol ∉ body ∧
      ServerSenderName ++ String.toList "> " ++ introMessage defs username
        = body ++ [ChatTerminationSymbol] := by
  refine ⟨ServerSenderName ++ String.toList "> "
    ++ (String.toList "Hello! You have just entered the chat server (" ++ defs.CORE_PRODUCT_NAME
    ++ String.toList " v" ++ defs.CORE_VERSION ++ String.toList ")."
    ++ String.toList "Your current nickname " ++ [apostrophe] ++ username ++ [apostrophe]
    ++ String.toList " is an auto-generated nickname, you "
    ++ String.toList "may want to use the " ++ [apostrophe] ++ String.toList "\\nickname"
    ++ [apostrophe]
    ++ String.toList " command to change it. For detailed list of available commands and options "
    ++ String.toList "plese use the \\help command."), ?_, ?_⟩
  · have h0 : ChatTerminationSymbol ∉ ServerSenderName := by decide
    have h1 : ChatTerminationSymbol ∉ String.toList "> " := by decide
    have h2 : ChatTerminationSymbol ∉
        String.toList "Hello! You have just entered the chat server (" := by decide
    have h3 : ChatTerminationSymbol ∉ String.toList " v" := by decide
    have h4 : ChatTerminationSymbol ∉ String.toList ")." := by decide
    have h5 : ChatTerminationSymbol ∉ String.toList "Your current nickname " := by decide
    have h6 : ChatTerminationSymbol ∉ [apostrophe] := by decide
    have h7 : ChatTerminationSymbol ∉
        String.toList " is an auto-generated nickname, you " := by decide
    have h8 : ChatTerminationSymbol ∉ String.toList "may want to use the " := by decide
    have h9 : ChatTerminationSymbol ∉ String.toList "\\nickname" := by decide
    have h10 : ChatTerminationSymbol ∉ String.toList
        " command to change it. For detailed list of available commands and options " := by
      decide
    have h11 : ChatTerminationSymbol ∉ String.toList "plese use the \\help command." := by
      decide
    intro hm
    simp only [List.mem_append] at hm
    tauto
  · unfold introMessage
    simp only [List.append_assoc]

theorem executeLoop_at_end (defs : CompiledDefinitions) (rawTime : Int) (fuel i tp : Nat)
    (st : ExecState) (h : ¬ i < st.task.m_messageDescription.data.length) :
    executeLoop defs rawTime fuel i tp st = .ok st := by
  cases fuel with
  | zero => rw [executeLoop, if_neg h]
  | succ n => rw [executeLoop, if_neg h]

theorem SetClientUsername_not_ok (m m1 : ConnectionManager) (sourceSocket : SocketDescriptor)
    (username : List Char) (rawTime : Int) (error : result_code)
    (h : m.SetClientUsername sourceSocket username rawTime = .ok (error, m1))
    (hne : error ≠ .sOk) : m1 = m := by
  unfold ConnectionManager.SetClientUsername at h
  split at h
  · cases h
  · split at h
    · injection h with h
      injection h with _ h2
      exact h2.symm
    · injection h with h
      injection h with _ h2
      exact h2.symm
    · injection h with h
      injection h with h1 _
      exact absurd h1.symm hne

/-- `AssembleServiceMessage` in any state. It fails, with a failure that is an exception or a
null pointer; or it returns and leaves the data as it was, and if the sender name is `SERVER`
afterwards it was `SERVER` before and no user name of the heap has changed; or it has run the
`\intro` command under the sender name `SERVER` and the data is the text of that command. -/
theorem AssembleServiceMessage_cases (defs : CompiledDefinitions) (rawTime : Int)
    (st : ExecState) (id : ChatCommandId) (arg text : List Char) :
    (∃ f, AssembleServiceMessage defs rawTime st id arg text = .error f ∧ f ≠ .outOfFuel) ∨
    (∃ code st1, AssembleServiceMessage defs rawTime st id arg text = .ok (code, st1) ∧
      st1.task.m_messageDescription.data = st.task.m_messageDescription.data ∧
      (st1.task.m_messageDescription.senderName = ServerSenderName →
        st.task.m_messageDescription.senderName = ServerSenderName ∧
        ∀ r, (st1.manager.heap r).GetUsername = (st.manager.heap r).GetUsername)) ∨
    (∃ st1 r, AssembleServiceMessage defs rawTime st id arg text = .ok (.sOk, st1) ∧
      st.task.m_messageDescription.senderName = ServerSenderName ∧
      st1.task.m_messageDescription.data
        = ServerSenderName ++ String.toList "> "
          ++ introMessage defs (st.manager.heap r).GetUsername) := by
  cases id with
  | CommandQuit =>
    cases hs : st.task.m_messageDescription.sender with
    | none =>
      unfold AssembleServiceMessage
      simp only [hs]
      exact Or.inl ⟨_, rfl, by decide⟩
    | some p =>
      unfold AssembleServiceMessage
      simp only [hs]
      exact Or.inr (Or.inl ⟨_, _, rfl, rfl, fun h => ⟨h, fun r => Close_usernames _ _ _⟩⟩)
  | CommandHelp =>
    unfold AssembleServiceMessage
    exact Or.inr (Or.inl ⟨_, _, rfl, rfl, fun h => ⟨h, fun r => rfl⟩⟩)
  | CommandListParticipants =>
    unfold AssembleServiceMessage
    exact Or.inr (Or.inl ⟨_, _, rfl, rfl, fun h => ⟨h, fun r => rfl⟩⟩)
  | CommandNickName =>
    unfold AssembleServiceMessage
    simp only
    by_cases hv : (ValidateNickname arg []).1 = .sOk
    · simp only [hv, ne_eq, not_true_eq_false, if_false]
      cases hset : st.manager.SetClientUsername st.task.m_messageDescription.senderSocket arg
          rawTime with
      | error e => exact Or.inl ⟨_, rfl, by simp⟩
      | ok res =>
        obtain ⟨error, manager⟩ := res
        simp only
        by_cases h1 : error = .eAlreadyDefined
        · rw [if_pos h1]
          have hm := SetClientUsername_not_ok _ _ _ _ _ _ hset (by rw [h1]; decide)
          exact Or.inr (Or.inl ⟨_, _, rfl, rfl, fun h => ⟨h, fun r => by rw [← hm]; rfl⟩⟩)
        · rw [if_neg h1]
          by_cases h2 : error = .sOk
          · simp only [h2, ne_eq, not_true_eq_false, if_false]
            refine Or.inr (Or.inl ⟨_, _, rfl, rfl, ?_⟩)
            intro hc
            exfalso
            have hs : to_upper arg = ServerSenderName := by
              simp only at hc
              rw [hc]
              decide
            exact (ValidateNickname_ok_facts arg hv).2.2 hs
          · simp only [h2, ne_eq, not_false_eq_true, if_true]
            have hm := SetClientUsername_not_ok _ _ _ _ _ _ hset h2
            exact Or.inr (Or.inl ⟨_, _, rfl, rfl, fun h => ⟨h, fun r => by rw [← hm]⟩⟩)
    · simp only [hv, ne_eq, not_false_eq_true, if_true]
      exact Or.inr (Or.inl ⟨_, _, rfl, rfl, fun h => ⟨h, fun r => rfl⟩⟩)
  | CommandPrivateMessage =>
    unfold AssembleServiceMessage
    simp only
    by_cases h0 : arg = st.task.m_messageDescription.senderName
    · rw [if_pos h0]
      exact Or.inr (Or.inl ⟨_, _, rfl, rfl, fun h => ⟨h, fun r => rfl⟩⟩)
    · rw [if_neg h0]
      by_cases hv : (ValidateNickname arg []).1 = .sOk
      · simp only [hv, ne_eq, not_true_eq_false, if_false]
        cases hfind : st.manager.FindConnectionByUsername arg
            st.task.m_messageDescription.receiver with
        | error e => exact Or.inl ⟨_, rfl, by simp⟩
        | ok res =>
          obtain ⟨error, receiver⟩ := res
          simp only
          by_cases h1 : error = .eNotFound
          · rw [if_pos h1]
            exact Or.inr (Or.inl ⟨_, _, rfl, rfl, fun h => ⟨h, fun r => rfl⟩⟩)
          · rw [if_neg h1]
            exact Or.inr (Or.inl ⟨_, _, rfl, rfl, fun h => ⟨h, fun r => rfl⟩⟩)
      · simp only [hv, ne_eq, not_false_eq_true, if_true]
        exact Or.inr (Or.inl ⟨_, _, rfl, rfl, fun h => ⟨h, fun r => rfl⟩⟩)
  | CommandIntro =>
    by_cases hn : st.task.m_messageDescription.senderName = ServerSenderName
    · cases hr : st.task.m_messageDescription.receiver with
      | none =>
        refine Or.inl ⟨.nullDereference, ?_, by decide⟩
        unfold AssembleServiceMessage
        simp only [hr]
        rw [if_neg (not_not.mpr hn)]
      | some r =>
        refine Or.inr (Or.inr ?_)
        unfold AssembleServiceMessage
        simp only [hr]
        rw [if_neg (not_not.mpr hn)]
        refine ⟨_, r, rfl, hn, ?_⟩
        show st.task.m_messageDescription.senderName ++ String.toList "> "
          ++ introMessage defs (st.manager.heap r).GetUsername = _
        rw [hn]
    · refine Or.inr (Or.inl ⟨.eFail, st, ?_, rfl, fun h => ⟨h, fun r => rfl⟩⟩)
      unfold AssembleServiceMessage
      simp only
      rw [if_pos hn]

theorem ProcessServiceMessage_cases (defs : CompiledDefinitions) (rawTime : Int)
    (st : ExecState) (x : List Char) :
    (∃ f, ProcessServiceMessage defs rawTime st x = .error f ∧ f ≠ .outOfFuel) ∨
    (∃ code st1, ProcessServiceMessage defs rawTime st x = .ok (code, st1) ∧
      st1.task.m_messageDescription.data = st.task.m_messageDescription.data ∧
      (st1.task.m_messageDescription.senderName = ServerSenderName →
        st.task.m_messageDescription.senderName = ServerSenderName ∧
        ∀ r, (st1.manager.heap r).GetUsername = (st.manager.heap r).GetUsername)) ∨
    (∃ st1 r, ProcessServiceMessage defs rawTime st x = .ok (.sOk, st1) ∧
      st.task.m_messageDescription.senderName = ServerSenderName ∧
      st1.task.m_messageDescription.data
        = ServerSenderName ++ String.toList "> "
          ++ introMessage defs (st.manager.heap r).GetUsername) := by
  unfold ProcessServiceMessage
  cases regex_match x with
  | none => exact Or.inr (Or.inl ⟨_, _, rfl, rfl, fun h => ⟨h, fun r => rfl⟩⟩)
  | some groups =>
    obtain ⟨cmd, arg, text⟩ := groups
    simp only
    cases GetCommandIdByName cmd with
    | error e => exact Or.inr (Or.inl ⟨_, _, rfl, rfl, fun h => ⟨h, fun r => rfl⟩⟩)
    | ok id =>
      simp only
      rcases AssembleServiceMessage_cases defs rawTime st id (trim arg) text with
        ⟨f, hf, hne⟩ | ⟨code, st1, h1, h2, h3⟩ | ⟨st1, r, h1, h2, h3⟩
      · rw [hf]
        cases f with
        | thrown e => exact Or.inr (Or.inl ⟨_, _, rfl, rfl, fun h => ⟨h, fun r => rfl⟩⟩)
        | nullDereference => exact Or.inl ⟨_, rfl, by decide⟩
        | outOfFuel => exact absurd rfl hne
      · rw [h1]
        exact Or.inr (Or.inl ⟨_, _, rfl, h2, h3⟩)
      · rw [h1]
        exact Or.inr (Or.inr ⟨_, r, rfl, h2, h3⟩)

/-- A round of the loop in any state, with the three outcomes of `AssembleServiceMessage`. -/
theorem dispatch_cases (defs : CompiledDefinitions) (rawTime : Int)
    (st : ExecState) (x : List Char) :
    (∃ f, dispatch defs rawTime st x = .error f ∧ f ≠ .outOfFuel) ∨
    (∃ b st1, dispatch defs rawTime st x = .ok (b, st1) ∧
      st1.task.m_messageDescription.data = st.task.m_messageDescription.data ∧
      (st1.task.m_messageDescription.senderName = ServerSenderName →
        st.task.m_messageDescription.senderName = ServerSenderName ∧
        ∀ r, (st1.manager.heap r).GetUsername = (st.manager.heap r).GetUsername)) ∨
    (∃ st1 r, dispatch defs rawTime st x = .ok (false, st1) ∧
      st.task.m_messageDescription.senderName = ServerSenderName ∧
      st1.task.m_messageDescription.data
        = ServerSenderName ++ String.toList "> "
          ++ introMessage defs (st.manager.heap r).GetUsername) := by
  unfold dispatch
  by_cases hh : x.head? = some ChatServiceSymbol
  · rw [if_pos hh]
    rcases ProcessServiceMessage_cases defs rawTime (ProcessChatMessages st) x with
      ⟨f, hf, hne⟩ | ⟨code, st1, h1, h2, h3⟩ | ⟨st1, r, h1, h2, h3⟩
    · rw [hf]
      exact Or.inl ⟨_, rfl, hne⟩
    · rw [ProcessChatMessages_description] at h2 h3
      rw [ProcessChatMessages_manager] at h3
      rw [h1]
      simp only
      by_cases hc : code = .eConnectionClosed
      · rw [if_pos hc]
        exact Or.inr (Or.inl ⟨_, _, rfl, h2, h3⟩)
      · rw [if_neg hc]
        by_cases hk : code = .sOk
        · simp only [hk, ne_eq, not_true_eq_false, if_false]
          exact Or.inr (Or.inl ⟨_, _, rfl, h2, h3⟩)
        · simp only [hk, ne_eq, not_false_eq_true, if_true]
          exact Or.inr (Or.inl ⟨_, _, rfl, h2, h3⟩)
    · rw [ProcessChatMessages_description] at h2
      rw [ProcessChatMessages_manager] at h3
      rw [h1]
      exact Or.inr (Or.inr ⟨_, r, rfl, h2, h3⟩)
  · rw [if_neg hh]
    exact Or.inr (Or.inl ⟨_, _, rfl, rfl, fun h => ⟨h, fun r => rfl⟩⟩)

theorem dispatchAll_cons_error (defs : CompiledDefinitions) (rawTime : Int) (st : ExecState)
    (x : List Char) (rest : List (List Char)) (f : Failure)
    (h : dispatch defs rawTime st x = .error f) :
    dispatchAll defs rawTime st (x :: rest) = .error f := by
  rw [dispatchAll, h]

theorem dispatchAll_cons_break (defs : CompiledDefinitions) (rawTime : Int) (st st1 : ExecState)
    (x : List Char) (rest : List (List Char))
    (h : dispatch defs rawTime st x = .ok (true, st1)) :
    dispatchAll defs rawTime st (x :: rest) = .ok st1 := by
  rw [dispatchAll, h]

theorem dispatchAll_cons_next (defs : CompiledDefinitions) (rawTime : Int) (st st1 : ExecState)
    (x : List Char) (rest : List (List Char))
    (h : dispatch defs rawTime st x = .ok (false, st1)) :
    dispatchAll defs rawTime st (x :: rest) = dispatchAll defs rawTime st1 rest := by
  rw [dispatchAll, h]

/-- The rounds of `dispatchAll` never run out of fuel: they have none. -/
theorem dispatchAll_ne_outOfFuel (defs : CompiledDefinitions) (rawTime : Int)
    (chunks : List (List Char)) :
    ∀ st : ExecState, dispatchAll defs rawTime st chunks ≠ .error .outOfFuel := by
  induction chunks with
  | nil => intro st h; rw [dispatchAll] at h; cases h
  | cons x rest ih =>
    intro st
    rcases dispatch_cases defs rawTime st x with
      ⟨f, hf, hne⟩ | ⟨b, st1, h1, _, _⟩ | ⟨st1, r, h1, _, _⟩
    · rw [dispatchAll_cons_error _ _ _ _ _ _ hf]
      intro h
      injection h with h
      exact hne h
    · cases b with
      | true =>
        rw [dispatchAll_cons_break _ _ _ _ _ _ h1]
        intro h
        cases h
      | false =>
        rw [dispatchAll_cons_next _ _ _ _ _ _ h1]
        exact ih st1
    · rw [dispatchAll_cons_next _ _ _ _ _ _ h1]
      exact ih st1

/-- The loop of `Execute` in a task of any sender, on data `P` that the task still holds. While
the sender name is `SERVER`, the product name, the version and the user names of the heap hold
no termination symbol. The loop runs its rounds on the first pieces of `cutLoop`, in their
order: a round that runs the `\intro` command replaces the data by a text whose only termination
symbol is its last byte, and the loop ends with that round. -/
theorem executeLoop_runs_pieces (defs : CompiledDefinitions) (rawTime : Int) (P : List Char) :
    ∀ (fuel i tp : Nat) (st : ExecState) (chunks : List (List Char)),
      st.task.m_messageDescription.data = P →
      (st.task.m_messageDescription.senderName = ServerSenderName →
        ChatTerminationSymbol ∉ defs.CORE_PRODUCT_NAME ∧
        ChatTerminationSymbol ∉ defs.CORE_VERSION ∧
        ∀ r, ChatTerminationSymbol ∉ (st.manager.heap r).GetUsername) →
      cutLoop P fuel i tp = some chunks →
      ∃ n, executeLoop defs rawTime fuel i tp st
        = dispatchAll defs rawTime st (chunks.take n) := by
  intro fuel
  induction fuel with
  | zero =>
    intro i tp st chunks hdata _ hcut
    unfold cutLoop at hcut
    split at hcut
    · cases hcut
    · rename_i hi
      refine ⟨0, ?_⟩
      rw [executeLoop_at_end _ _ _ _ _ _ (by rw [hdata]; exact hi)]
      rfl
  | succ f ih =>
    intro i tp st chunks hdata henv hcut
    unfold cutLoop at hcut
    split at hcut
    · rename_i hi
      simp only [Option.map_eq_some'] at hcut
      obtain ⟨rest, hrest, hchunks⟩ := hcut
      subst hchunks
      rw [executeLoop, if_pos (by rw [hdata]; exact hi)]
      simp only [hdata]
      rcases dispatch_cases defs rawTime st (substr P i tp) with
        ⟨e, he, _⟩ | ⟨b, st1, h1, h2, h3⟩ | ⟨st1, r, h1, h2, h3⟩
      · refine ⟨1, ?_⟩
        rw [he]
        simp only [List.take_succ_cons, List.take_zero]
        rw [dispatchAll_cons_error _ _ _ _ _ _ he]
      · cases b with
        | true =>
          refine ⟨1, ?_⟩
          rw [h1]
          simp only [List.take_succ_cons, List.take_zero]
          rw [dispatchAll_cons_break _ _ _ _ _ _ h1]
        | false =>
          rw [h1]
          simp only
          have hd1 : st1.task.m_messageDescription.data = P := by rw [h2, hdata]
          obtain ⟨n, hn⟩ := ih (i + nextTerminationPosition P i) (nextTerminationPosition P i)
            st1 rest hd1
            (by
              intro hs
              obtain ⟨hs0, hu⟩ := h3 hs
              obtain ⟨e1, e2, e3⟩ := henv hs0
              exact ⟨e1, e2, fun r => by rw [hu r]; exact e3 r⟩)
            hrest
          refine ⟨n + 1, ?_⟩
          rw [hd1, hn]
          simp only [List.take_succ_cons]
          rw [dispatchAll_cons_next _ _ _ _ _ _ h1]
      · refine ⟨1, ?_⟩
        rw [h1]
        simp only [List.take_succ_cons, List.take_zero]
        rw [dispatchAll_cons_next _ _ _ _ _ _ h1]
        obtain ⟨e1, e2, e3⟩ := henv h2
        obtain ⟨body, hbody, hintro⟩ := introData_single_line defs
          (st.manager.heap r).GetUsername e1 e2 (e3 r)
        have hd1 : st1.task.m_messageDescription.data = body ++ [ChatTerminationSymbol] := by
          rw [h3, hintro]
        rw [hd1, nextTerminationPosition_single_line body hbody i]
        have hend : executeLoop defs rawTime f _ _ st1 = .ok st1 :=
          executeLoop_at_end defs rawTime f
            (i + (if i < (body ++ [ChatTerminationSymbol]).length
              then (body ++ [ChatTerminationSymbol]).length else 0))
            (if i < (body ++ [ChatTerminationSymbol]).length
              then (body ++ [ChatTerminationSymbol]).length else 0) st1
            (by
              rw [hd1]
              split <;> omega)
        rw [hend]
        rfl
    · rename_i hi
      cases hcut
      refine ⟨0, ?_⟩
      rw [executeLoop_at_end _ _ _ _ _ _ (by rw [hdata]; exact hi)]
      rfl

/-- C30: a payload accepted by the constructor of `ProcessMessageTask`, in a task of any sender.
With the length of the payload as the bound of its rounds, the index arithmetic of the loop of
`Execute` ends; every piece starts inside the payload and is a non-empty substring of it, cut at
the position of the round and clipped at the end of the payload; and every piece ends at or
before the start of each later piece, so that the pieces lie in disjoint, strictly increasing
ranges. `Execute` does not run out of rounds, and its loop runs its rounds on the first of these
pieces, in their order, up to a round that leaves the loop, fails on a null pointer, or runs the
`\intro` command, which replaces the data and so ends the loop. For a task under the sender
name `SERVER` this is proved when the product name, the version and the user names of the heap
hold no termination symbol, so that the text of `\intro` is one line. In a task of a client
whose sender is a connection the loop runs on all the pieces and `Execute` returns. -/
theorem split_loop_terminates_on_disjoint_pieces (defs : CompiledDefinitions) (rawTime : Int)
    (m : ConnectionManager) (md : MessageDescription) (task : ProcessMessageTask)
    (hnew : ProcessMessageTask.new md = .ok task)
    (henv : md.senderName = ServerSenderName →
      ChatTerminationSymbol ∉ defs.CORE_PRODUCT_NAME ∧
      ChatTerminationSymbol ∉ defs.CORE_VERSION ∧
      ∀ r, ChatTerminationSymbol ∉ (m.heap r).GetUsername) :
    ∃ ranges, cutPositions md.data md.data.length 0 (nextTerminationPosition md.data 0)
        = some ranges ∧
      pieces md.data md.data.length = some (ranges.map fun r => substr md.data r.1 r.2) ∧
      (∀ r ∈ ranges, r.1 < md.data.length ∧ substr md.data r.1 r.2 ≠ [] ∧
        (substr md.data r.1 r.2).length = min r.2 (md.data.length - r.1) ∧
        md.data = md.data.take r.1 ++ substr md.data r.1 r.2
          ++ md.data.drop (r.1 + (substr md.data r.1 r.2).length)) ∧
      ranges.Pairwise (fun a b => a.1 + (substr md.data a.1 a.2).length ≤ b.1 ∧ a.1 < b.1) ∧
      Execute defs rawTime md.data.length m task ≠ .error .outOfFuel ∧
      (∃ n, executeLoop defs rawTime md.data.length 0 (nextTerminationPosition md.data 0)
            { manager := m, task := task, posted := [] }
          = dispatchAll defs rawTime { manager := m, task := task, posted := [] }
              ((ranges.take n).map fun r => substr md.data r.1 r.2)) ∧
      ∀ p : ConnectionHolderPtr, md.sender = some p → md.senderName ≠ ServerSenderName →
        (∃ st, Execute defs rawTime md.data.length m task = .ok st) ∧
        executeLoop defs rawTime md.data.length 0 (nextTerminationPosition md.data 0)
            { manager := m, task := task, posted := [] }
          = dispatchAll defs rawTime { manager := m, task := task, posted := [] }
              (ranges.map fun r => substr md.data r.1 r.2) := by
  have htask : task = { m_messageDescription := md, m_messageList := [] } ∧
      md.data.length > 1 ∧ md.data[md.data.length - 1]? = some ChatTerminationSymbol := by
    unfold ProcessMessageTask.new at hnew
    simp only at hnew
    split at hnew
    · cases hnew
    · split at hnew
      · cases hnew
      · rename_i h1 h2
        injection hnew with h
        exact ⟨h.symm, by omega, by simpa using h2⟩
  obtain ⟨ht, hlen, hlast⟩ := htask
  have h0 : 0 < md.data.length := by omega
  have hb := nextTerminationPosition_bounds md.data hlast 0 h0
  obtain ⟨ranges, hr, hprops, hpair⟩ := cutPositions_spec md.data hlast md.data.length 0
    (nextTerminationPosition md.data 0) (by omega) (by omega) (fun _ => le_refl _)
  have hpieces : pieces md.data md.data.length
      = some (ranges.map fun r => substr md.data r.1 r.2) := by
    unfold pieces
    rw [cutLoop_eq_map, hr]
    rfl
  have hsublen : ∀ a n : Nat, (substr md.data a n).length = min n (md.data.length - a) := by
    intro a n
    unfold substr
    rw [List.length_take, List.length_drop]
  have hgeneral : ∃ n, executeLoop defs rawTime md.data.length 0
        (nextTerminationPosition md.data 0) { manager := m, task := task, posted := [] }
      = dispatchAll defs rawTime { manager := m, task := task, posted := [] }
          ((ranges.take n).map fun r => substr md.data r.1 r.2) := by
    obtain ⟨n, hn⟩ := executeLoop_runs_pieces defs rawTime md.data md.data.length 0
      (nextTerminationPosition md.data 0) { manager := m, task := task, posted := [] }
      (ranges.map fun r => substr md.data r.1 r.2)
      (by rw [ht]) (by rw [ht]; exact henv) (by unfold pieces at hpieces; exact hpieces)
    exact ⟨n, by rw [hn, List.map_take]⟩
  refine ⟨ranges, hr, hpieces, ?_, ?_, ?_, hgeneral, ?_⟩
  · intro r hrm
    obtain ⟨_, h2, h3⟩ := hprops r hrm
    have hl := hsublen r.1 r.2
    refine ⟨h2, ?_, hl, ?_⟩
    · intro hnil
      rw [hnil] at hl
      simp only [List.length_nil] at hl
      omega
    · have hdrop : md.data.drop (r.1 + (substr md.data r.1 r.2).length)
          = (md.data.drop r.1).drop (substr md.data r.1 r.2).length := by
        rw [List.drop_drop, Nat.add_comm]
      rw [hdrop, List.append_assoc]
      unfold substr
      rw [take_append_drop_length, List.take_append_drop]
  · refine hpair.imp_of_mem ?_
    intro a b ha hbm hab
    have hl := hsublen a.1 a.2
    have := (hprops a ha).2.2
    constructor
    · omega
    · omega
  · obtain ⟨n, hn⟩ := hgeneral
    unfold Execute
    have hd : task.m_messageDescription.data = md.data := by rw [ht]
    simp only [hd, hn]
    have hne := dispatchAll_ne_outOfFuel defs rawTime
      ((ranges.take n).map fun r => substr md.data r.1 r.2)
      { manager := m, task := task, posted := [] }
    cases hres : dispatchAll defs rawTime { manager := m, task := task, posted := [] }
        ((ranges.take n).map fun r => substr md.data r.1 r.2) with
    | error f =>
      simp only
      intro hc
      injection hc with hc
      rw [hres, hc] at hne
      exact hne rfl
    | ok st1 =>
      simp only
      intro hc
      cases hc
  · intro p hsender hname
    have hloop := executeLoop_eq_dispatchAll defs rawTime p md.data.length 0
      (nextTerminationPosition md.data 0) { manager := m, task := task, posted := [] }
      (ranges.map fun r => substr md.data r.1 r.2)
      (by rw [ht]; exact hname) (by rw [ht]; exact hsender)
      (by rw [ht]; exact hpieces)
    obtain ⟨st1, hst1⟩ := dispatchAll_returns defs rawTime p
      (ranges.map fun r => substr md.data r.1 r.2)
      { manager := m, task := task, posted := [] }
      (by rw [ht]; exact hname) (by rw [ht]; exact hsender)
    refine ⟨⟨ProcessChatMessages st1, ?_⟩, ?_⟩
    · unfold Execute
      have hd : task.m_messageDescription.data = md.data := by rw [ht]
      simp only [hd, hloop, hst1]
    · exact hloop

theorem exampleManager_usernames (r : ConnectionHolderPtr) :
    ChatTerminationSymbol ∉ (exampleManager.heap r).GetUsername := by
  rcases r with _ | _ | _ | r
  · decide
  · decide
  · decide
  · exact List.not_mem_nil _

/-- Witness of C30: the payload of two lines `hi` and `you` from `alice` is cut at the ranges
(0, 3) and (3, 3), and `Execute` returns; and `Execute` does not run out of rounds in the
`\intro` task that the server builds for `alice`. -/
theorem split_loop_terminates_on_disjoint_pieces_witness :
    ProcessMessageTask.new (exampleMessage (String.toList "hi\nyou\n"))
      = .ok { m_messageDescription := exampleMessage (String.toList "hi\nyou\n"),
              m_messageList := [] } ∧
    cutPositions (String.toList "hi\nyou\n") 7 0 3 = some [(0, 3), (3, 3)] ∧
    pieces (String.toList "hi\nyou\n") 7
      = some [String.toList "hi\n", String.toList "you"] ∧
    (exampleMessage (String.toList "hi\nyou\n")).sender = some 1 ∧
    (exampleMessage (String.toList "hi\nyou\n")).senderName ≠ ServerSenderName ∧
    (∃ st, Execute exampleDefinitions 0 7 exampleManager
        { m_messageDescription := exampleMessage (String.toList "hi\nyou\n"),
          m_messageList := [] } = .ok st) ∧
    ProcessMessageTask.new introRequest
      = .ok { m_messageDescription := introRequest, m_messageList := [] } ∧
    Execute exampleDefinitions 0 introRequest.data.length exampleManager
        { m_messageDescription := introRequest, m_messageList := [] } ≠ .error .outOfFuel :=
  ⟨rfl, by decide, by decide, rfl, by decide,
    (split_loop_terminates_on_disjoint_pieces exampleDefinitions 0 exampleManager
      (exampleMessage (String.toList "hi\nyou\n"))
      { m_messageDescription := exampleMessage (String.toList "hi\nyou\n"),
        m_messageList := [] } rfl (fun h => absurd h (by decide))).elim
      fun _ h => (h.2.2.2.2.2.2 1 rfl (by decide)).1,
    rfl,
    (split_loop_terminates_on_disjoint_pieces exampleDefinitions 0 exampleManager
      introRequest { m_messageDescription := introRequest, m_messageList := [] } rfl
      (fun _ => ⟨by decide, by decide, exampleManager_usernames⟩)).elim
      fun _ h => h.2.2.2.2.1⟩

end ProcessMessageTask

end ChatServer

namespace RegisterServer

open ChatServer (nul findFirst substr cstr isAlpha isAlnum trim)

/-! ## The data file of `user_register_server_#2` -/

theorem getlines_line (line rest : List Char) (h : '\n' ∉ line) :
    getlines (line ++ '\n' :: rest) = line :: getlines rest := by
  induction line with
  | nil => simp [getlines]
  | cons c line ih =>
    have hc : c ≠ '\n' := fun e => h (by rw [e]; exact List.mem_cons_self _ _)
    have hl : '\n' ∉ line := fun e => h (List.mem_cons_of_mem _ e)
    rw [List.cons_append, getlines, if_neg hc, ih hl]

/-- The lines that `getline` delivers from a file of newline-terminated lines: the lines, and
the empty line of the call that sets `eofbit`. -/
theorem getlines_fileOf (lines : List (List Char)) (h : ∀ r ∈ lines, '\n' ∉ r) :
    getlines (fileOf lines) = lines ++ [[]] := by
  induction lines with
  | nil => rfl
  | cons r lines ih =>
    have h1 : fileOf (r :: lines) = r ++ '\n' :: fileOf lines := by
      simp [fileOf]
    rw [h1, getlines_line r _ (h r (List.mem_cons_self _ _)),
      ih (fun x hx => h x (List.mem_cons_of_mem _ hx))]
    rfl

theorem fileOf_append (lines : List (List Char)) (line : List Char) :
    fileOf (lines ++ [line]) = fileOf lines ++ line ++ ['\n'] := by
  simp [fileOf]

theorem findUser_cons (user line : List Char) (more : List (List Char)) (n : Nat) :
    findUser user (line :: more) n
      = if isRecordOf user line then
          (true, line.drop ((findFirst line ';').getD 0 + 1), n + 1)
        else findUser user more (n + 1) := by
  rw [findUser]
  unfold isRecordOf
  cases findFirst line ';' with
  | none => simp
  | some k =>
    simp only [Option.getD_some]
    by_cases hc : (substr line 0 k).length = user.length ∧
        strncasecmp (substr line 0 k) user (substr line 0 k).length = 0
    · rw [if_pos hc, decide_eq_true hc, if_pos rfl]
    · rw [if_neg hc, decide_eq_false hc]
      rfl

/-- When no line passes the test of `findUser`, the search fails after it has read every
line. -/
theorem findUser_absent (user : List Char) (lines : List (List Char)) (n : Nat)
    (h : ∀ r ∈ lines, isRecordOf user r = false) :
    findUser user lines n = (false, [], n + lines.length) := by
  induction lines generalizing n with
  | nil => rfl
  | cons r lines ih =>
    rw [findUser_cons, h r (List.mem_cons_self _ _)]
    simp only [Bool.false_eq_true, if_false]
    rw [ih (n + 1) (fun x hx => h x (List.mem_cons_of_mem _ hx)), List.length_cons]
    congr 2
    omega

/-- The search stops at the first line that passes the test of `findUser`. -/
theorem findUser_first (user line : List Char) (pre post : List (List Char)) (n : Nat)
    (hpre : ∀ r ∈ pre, isRecordOf user r = false) (hline : isRecordOf user line = true) :
    findUser user (pre ++ line :: post) n
      = (true, line.drop ((findFirst line ';').getD 0 + 1), n + pre.length + 1) := by
  induction pre generalizing n with
  | nil => rw [List.nil_append, findUser_cons, hline]; rfl
  | cons r pre ih =>
    rw [List.cons_append, findUser_cons, hpre r (List.mem_cons_self _ _)]
    simp only [Bool.false_eq_true, if_false]
    rw [ih (n + 1) (fun x hx => hpre x (List.mem_cons_of_mem _ hx)), List.length_cons]
    congr 2
    omega

theorem findUser_found (user : List Char) (lines : List (List Char)) (n : Nat) :
    (findUser user lines n).1 = lines.any (isRecordOf user) := by
  induction lines generalizing n with
  | nil => rfl
  | cons r lines ih =>
    rw [findUser_cons, List.any_cons]
    cases h : isRecordOf user r
    · simp only [Bool.false_eq_true, if_false, Bool.false_or]
      exact ih (n + 1)
    · rfl

theorem strncasecmp_self (s : List Char) (n : Nat) : strncasecmp s s n = 0 := by
  induction n generalizing s with
  | zero => rfl
  | succ n ih =>
    rw [strncasecmp]
    simp only [ne_eq, not_true_eq_false, if_false]
    split
    · rfl
    · exact ih s.tail

theorem findFirst_append (u e : List Char) (c : Char) (h : c ∉ u) :
    findFirst (u ++ c :: e) c = some u.length := by
  induction u with
  | nil => simp [findFirst]
  | cons x u ih =>
    have hx : x ≠ c := fun e => h (by rw [e]; exact List.mem_cons_self _ _)
    rw [List.cons_append, findFirst, if_neg hx, ih (fun e => h (List.mem_cons_of_mem _ e))]
    rfl

/-- A line `user;email` whose user field holds no `;` passes the test of `findUser` for
`user`. -/
theorem isRecordOf_self (user email : List Char) (h : ';' ∉ user) :
    isRecordOf user (user ++ ';' :: email) = true := by
  unfold isRecordOf
  rw [findFirst_append user email ';' h]
  have hs : substr (user ++ ';' :: email) 0 user.length = user := by
    unfold substr
    rw [List.drop_zero, List.take_left']
    rfl
  simp only [hs, strncasecmp_self, and_self, decide_True]

theorem ofNat_lower_ne_nul (n : Nat) (h1 : 65 ≤ n) (h2 : n ≤ 90) : Char.ofNat (n + 32) ≠ nul := by
  interval_cases n <;> decide

theorem toLower_eq_nul (c : Char) (h : c.toLower = nul) : c = nul := by
  unfold Char.toLower at h
  simp only at h
  by_cases hr : c.toNat ≥ 65 ∧ c.toNat ≤ 90
  · rw [if_pos hr] at h
    exact absurd h (ofNat_lower_ne_nul _ hr.1 hr.2)
  · rw [if_neg hr] at h
    exact h

theorem toNat_sub_eq_zero (a b : Char) (h : (a.toNat : Int) - (b.toNat : Int) = 0) : a = b := by
  have h1 : a.toNat = b.toNat := by omega
  have h2 := congrArg Char.ofNat h1
  rwa [Char.ofNat_toNat, Char.ofNat_toNat] at h2

/-- On a name without a zero byte, the comparison of `findUser` is the comparison of the two
strings with their letters lowered. -/
theorem strncasecmp_eq_zero_iff (a b : List Char) (hnul : nul ∉ b) :
    (a.length = b.length ∧ strncasecmp a b a.length = 0)
      ↔ a.map Char.toLower = b.map Char.toLower := by
  induction a generalizing b with
  | nil =>
    cases b with
    | nil => simp [strncasecmp]
    | cons y b => simp
  | cons x a ih =>
    cases b with
    | nil => simp
    | cons y b =>
      have hb : nul ∉ b := fun h => hnul (List.mem_cons_of_mem _ h)
      have hy : y ≠ nul := fun h => hnul (by rw [h]; exact List.mem_cons_self _ _)
      simp only [List.length_cons, List.map_cons, List.cons.injEq, Nat.add_right_cancel_iff]
      rw [strncasecmp]
      simp only [List.headD_cons, List.tail_cons, ne_eq]
      by_cases hxy : x.toLower = y.toLower
      · simp only [hxy, not_true_eq_false, if_false, true_and]
        have hx : x ≠ nul := by
          intro hx
          rw [hx] at hxy
          exact hy (toLower_eq_nul y hxy.symm)
        rw [if_neg hx]
        exact ih b hb
      · simp only [hxy, not_false_eq_true, if_true, false_and, iff_false, not_and]
        intro _ h
        exact hxy (toNat_sub_eq_zero _ _ h)

/-- On a name without a zero byte, a line fails the test of `findUser` exactly when it holds no
`;` or the bytes before its first `;` differ from the name also after the letters of both were
lowered. -/
theorem isRecordOf_eq_false_iff (user line : List Char) (hnul : nul ∉ user) :
    isRecordOf user line = false ↔
      ∀ k, findFirst line ';' = some k →
        (substr line 0 k).map Char.toLower ≠ user.map Char.toLower := by
  unfold isRecordOf
  cases findFirst line ';' with
  | none => simp
  | some k =>
    simp only [decide_eq_false_iff_not, Option.some.injEq, forall_eq']
    rw [strncasecmp_eq_zero_iff _ _ hnul]

theorem validateUsername_chars (user : List Char) (h : (validateUsername user).1 = true) :
    ';' ∉ trimSpaces user ∧ '\n' ∉ trimSpaces user := by
  unfold validateUsername at h
  simp only [Bool.and_eq_true, List.all_eq_true] at h
  constructor
  · intro hm
    have := h.2 _ hm
    revert this
    decide
  · intro hm
    have := h.2 _ hm
    revert this
    decide

theorem isAlpha_isAlnum (c : Char) (h : isAlpha c = true) : isAlnum c = true := by
  unfold isAlnum
  rw [h]
  rfl

theorem matchDomain_chars (s : List Char) :
    ∀ (labels : Nat) (run : List Char), matchDomain s labels run = true →
      ∀ c ∈ run ++ s, c = '.' ∨ isAlnum c = true := by
  induction s with
  | nil =>
    intro labels run hm c hc
    rw [matchDomain] at hm
    simp only [Bool.and_eq_true, List.all_eq_true] at hm
    rw [List.append_nil] at hc
    exact Or.inr (isAlpha_isAlnum c (hm.2 c hc))
  | cons x s ih =>
    intro labels run hm c hc
    rw [matchDomain] at hm
    by_cases hx : x = '.'
    · rw [if_pos hx] at hm
      simp only [Bool.and_eq_true, List.all_eq_true] at hm
      rcases List.mem_append.mp hc with h | h
      · exact Or.inr (hm.1.2 c h)
      · rcases List.mem_cons.mp h with h | h
        · exact Or.inl (h.trans hx)
        · exact ih (labels + 1) [] hm.2 c (by simpa using h)
    · rw [if_neg hx] at hm
      exact ih labels (run ++ [x]) hm c (by simpa using hc)

theorem matchEmail_chars (email : List Char) (h : matchEmail email = true) :
    '\n' ∉ email := by
  unfold matchEmail at h
  simp only [Bool.and_eq_true] at h
  obtain ⟨_, h2⟩ := h
  intro hm
  rw [← List.takeWhile_append_dropWhile isLocalPartChar email] at hm
  rcases List.mem_append.mp hm with h3 | h3
  · have := List.mem_takeWhile_imp h3
    revert this
    decide
  · cases hd : email.dropWhile isLocalPartChar with
    | nil => rw [hd] at h3; cases h3
    | cons c domain =>
      rw [hd] at h2 h3
      simp only [Bool.and_eq_true, beq_iff_eq] at h2
      rcases List.mem_cons.mp h3 with h4 | h4
      · rw [← h4] at h2
        exact absurd h2.1 (by decide)
      · rcases matchDomain_chars domain 0 [] h2.2 _ (by simpa using h4) with h5 | h5
        · exact absurd h5 (by decide)
        · exact absurd h5 (by decide)

theorem validateEmail_chars (mail : List Char) (h : (validateEmail mail).1 = true) :
    '\n' ∉ trimSpaces mail ∧ trimSpaces mail ≠ [] := by
  refine ⟨matchEmail_chars _ h, ?_⟩
  intro hnil
  unfold validateEmail at h
  rw [hnil] at h
  exact absurd h (by decide)

/-- What `registerUser` does with a file of newline-terminated lines, by the outcome of its
tests. -/
theorem registerUser_fileOf (lines : List (List Char)) (writeOk : Bool) (user mail : List Char)
    (hlines : ∀ r ∈ lines, '\n' ∉ r) :
    DataFile.registerUser (some (fileOf lines)) writeOk user mail
      = if (validateUsername user).1 = false ∨ (validateEmail mail).1 = false then
          (.E_INVALID, some (fileOf lines))
        else if lines.any (isRecordOf (trimSpaces user)) = true then
          (.E_CONFLICT, some (fileOf lines))
        else if 100 ≤ lines.length then (.E_OVERLOADED, some (fileOf lines))
        else if writeOk = true then
          (.E_OK, some (fileOf (lines ++ [trimSpaces user ++ ';' :: trimSpaces mail])))
        else (.E_UNAVAILABLE, some (fileOf lines)) := by
  unfold DataFile.registerUser
  cases hu : (validateUsername user).1
  · simp
  · cases hm : (validateEmail mail).1
    · simp
    · have hnot : ¬ (true = false ∨ true = false) := by simp
      rw [if_neg hnot]
      simp only [Bool.not_true, Bool.false_eq_true, if_false]
      have h2 : (validateUsername user).2 = trimSpaces user := rfl
      have h3 : (validateEmail mail).2 = trimSpaces mail := rfl
      have hemp : isRecordOf (trimSpaces user) [] = false := rfl
      rw [h2, h3]
      unfold checkUser
      rw [getlines_fileOf lines hlines, findUser_found, List.any_append]
      simp only [List.any_cons, hemp, List.any_nil, Bool.or_false]
      cases hany : lines.any (isRecordOf (trimSpaces user))
      · simp only [Bool.not_false, if_true, Bool.false_eq_true, if_false]
        have hall : ∀ r ∈ lines ++ [[]], isRecordOf (trimSpaces user) r = false := by
          intro r hr
          rcases List.mem_append.mp hr with h | h
          · have := List.any_eq_false.mp hany r h
            simpa using this
          · simp only [List.mem_singleton] at h
            rw [h]
            rfl
        rw [findUser_absent _ _ 0 hall]
        simp only [List.length_append, List.length_singleton, Nat.zero_add]
        by_cases hlen : 100 ≤ lines.length
        · have : lines.length + 1 > MAX_RECORDS_ALLOWED := by
            unfold MAX_RECORDS_ALLOWED; omega
          rw [if_pos this, if_pos hlen]
        · have : ¬ lines.length + 1 > MAX_RECORDS_ALLOWED := by
            unfold MAX_RECORDS_ALLOWED; omega
          rw [if_neg this, if_neg hlen]
          cases writeOk
          · rfl
          · simp only [if_true]
            rw [fileOf_append]
            simp only [List.append_assoc, List.cons_append, List.nil_append]
      · simp

theorem registerUser_file (lines : List (List Char)) (writeOk : Bool) (user mail : List Char)
    (hlines : ∀ r ∈ lines, '\n' ∉ r) :
    (DataFile.registerUser (some (fileOf lines)) writeOk user mail).2 = some (fileOf lines) ∨
    ((DataFile.registerUser (some (fileOf lines)) writeOk user mail).1 = .E_OK ∧
      (DataFile.registerUser (some (fileOf lines)) writeOk user mail).2
        = some (fileOf (lines ++ [trimSpaces user ++ ';' :: trimSpaces mail])) ∧
      (validateUsername user).1 = true ∧ (validateEmail mail).1 = true ∧
      lines.any (isRecordOf (trimSpaces user)) = false ∧ lines.length < 100 ∧
      writeOk = true) := by
  rw [registerUser_fileOf lines writeOk user mail hlines]
  by_cases h1 : (validateUsername user).1 = false ∨ (validateEmail mail).1 = false
  · rw [if_pos h1]; exact Or.inl rfl
  · rw [if_neg h1]
    by_cases h2 : lines.any (isRecordOf (trimSpaces user)) = true
    · rw [if_pos h2]; exact Or.inl rfl
    · rw [if_neg h2]
      by_cases h3 : 100 ≤ lines.length
      · rw [if_pos h3]; exact Or.inl rfl
      · rw [if_neg h3]
        by_cases h4 : writeOk = true
        · rw [if_pos h4]
          refine Or.inr ⟨rfl, rfl, ?_, ?_, ?_, by omega, h4⟩
          · cases h : (validateUsername user).1
            · exact absurd (Or.inl h) h1
            · rfl
          · cases h : (validateEmail mail).1
            · exact absurd (Or.inr h) h1
            · rfl
          · simpa using h2
        · rw [if_neg h4]; exact Or.inl rfl

theorem record_chars (user mail : List Char) (hu : (validateUsername user).1 = true)
    (hm : (validateEmail mail).1 = true) :
    '\n' ∉ trimSpaces user ++ ';' :: trimSpaces mail := by
  intro h
  rcases List.mem_append.mp h with h | h
  · exact (validateUsername_chars user hu).2 h
  · rcases List.mem_cons.mp h with h | h
    · exact absurd h (by decide)
    · exact (validateEmail_chars mail hm).1 h

theorem registerUsers_limit (calls : List (Bool × List Char × List Char)) :
    ∀ lines : List (List Char), (∀ r ∈ lines, '\n' ∉ r) → lines.length ≤ 100 →
      ∃ more, DataFile.registerUsers (some (fileOf lines)) calls = some (fileOf (lines ++ more)) ∧
        (lines ++ more).length ≤ 100 ∧ ∀ r ∈ more, '\n' ∉ r := by
  induction calls with
  | nil =>
    intro lines _ hlen
    exact ⟨[], by rw [List.append_nil]; rfl, by rw [List.append_nil]; exact hlen,
      fun _ h => by cases h⟩
  | cons call calls ih =>
    intro lines hlines hlen
    rw [DataFile.registerUsers]
    rcases registerUser_file lines call.1 call.2.1 call.2.2 hlines with h | ⟨_, h, hu, hm, _, hl, _⟩
    · rw [h]
      exact ih lines hlines hlen
    · rw [h]
      have hnew := record_chars _ _ hu hm
      obtain ⟨more, h1, h2, h3⟩ := ih (lines ++ [trimSpaces call.2.1 ++ ';' :: trimSpaces call.2.2])
        (by
          intro r hr
          rcases List.mem_append.mp hr with h | h
          · exact hlines r h
          · rw [List.mem_singleton.mp h]; exact hnew)
        (by rw [List.length_append, List.length_singleton]; omega)
      refine ⟨(trimSpaces call.2.1 ++ ';' :: trimSpaces call.2.2) :: more, ?_, ?_, ?_⟩
      · rw [h1, List.append_assoc]; rfl
      · rw [List.append_assoc] at h2; exact h2
      · intro r hr
        rcases List.mem_cons.mp hr with h | h
        · rw [h]; exact hnew
        · exact h3 r h

/-- C23: a data file of N lines, each ended by a line feed and holding no line feed, N below
2^31 - 1 so that the `int` that counts the lines does not overflow; the file can be opened and
written. `registerUser` is called with a user name and an e-mail that pass the validation and
with a name that no line matches under the test of `findUser` (equal length and
`strncasecmp`; for a name without a zero byte this is the comparison of the user field with the
name after the letters of both were lowered). For N < 100 the call returns `E_OK` and the file is the old file followed by
the trimmed name, `;`, the trimmed e-mail and a line feed; for N >= 100 it returns
`E_OVERLOADED` and leaves the file as it is. A file of at most 100 such lines holds, after any
sequence of calls of `registerUser`, its old lines followed by new ones, at most 100 lines in
all. -/
theorem registerUser_appends_below_one_hundred_records (records : List (List Char))
    (user mail : List Char)
    (hrecords : ∀ r ∈ records, '\n' ∉ r) (hint : records.length + 1 < 2 ^ 31)
    (huser : (validateUsername user).1 = true) (hmail : (validateEmail mail).1 = true)
    (hnew : ∀ r ∈ records, isRecordOf (trimSpaces user) r = false) :
    (records.length < 100 →
      DataFile.registerUser (some (fileOf records)) true user mail
        = (.E_OK,
            some (fileOf records ++ (trimSpaces user ++ [';'] ++ trimSpaces mail ++ ['\n'])))) ∧
    (100 ≤ records.length →
      DataFile.registerUser (some (fileOf records)) true user mail
        = (.E_OVERLOADED, some (fileOf records))) ∧
    (records.length ≤ 100 →
      ∀ calls : List (Bool × List Char × List Char),
        ∃ more, DataFile.registerUsers (some (fileOf records)) calls
            = some (fileOf (records ++ more)) ∧
          (records ++ more).length ≤ 100 ∧ ∀ r ∈ more, '\n' ∉ r) := by
  have hchain := registerUser_fileOf records true user mail hrecords
  have h1 : ¬ ((validateUsername user).1 = false ∨ (validateEmail mail).1 = false) := by
    rw [huser, hmail]; simp
  have h2 : ¬ records.any (isRecordOf (trimSpaces user)) = true := by
    intro h
    obtain ⟨r, hr, hrec⟩ := List.any_eq_true.mp h
    rw [hnew r hr] at hrec
    cases hrec
  rw [if_neg h1, if_neg h2] at hchain
  refine ⟨?_, ?_, ?_⟩
  · intro hlt
    rw [hchain, if_neg (by omega), if_pos rfl, fileOf_append]
    simp only [List.append_assoc, List.cons_append, List.nil_append]
  · intro hge
    rw [hchain, if_pos hge]
  · intro hle calls
    exact registerUsers_limit calls records hrecords hle

/-- Witness of C23: `Ann` is added to the file that holds the record of `John`; with 100
records of `John` in the file the call returns `E_OVERLOADED`. -/
theorem registerUser_appends_below_one_hundred_records_witness :
    DataFile.registerUser (some (fileOf [String.toList "John;john@a.com"])) true
        (String.toList "Ann") (String.toList "ann@b.org")
      = (.E_OK,
          some (fileOf [String.toList "John;john@a.com"]
            ++ (trimSpaces (String.toList "Ann") ++ [';'] ++ trimSpaces (String.toList "ann@b.org")
              ++ ['\n']))) ∧
    fileOf [String.toList "John;john@a.com"]
        ++ (trimSpaces (String.toList "Ann") ++ [';'] ++ trimSpaces (String.toList "ann@b.org")
          ++ ['\n'])
      = String.toList "John;john@a.com\nAnn;ann@b.org\n" ∧
    DataFile.registerUser (some (fileOf (List.replicate 100 (String.toList "John;john@a.com"))))
        true (String.toList "Ann") (String.toList "ann@b.org")
      = (.E_OVERLOADED, some (fileOf (List.replicate 100 (String.toList "John;john@a.com")))) :=
  ⟨(registerUser_appends_below_one_hundred_records [String.toList "John;john@a.com"]
      (String.toList "Ann") (String.toList "ann@b.org") (by decide) (by decide) (by decide)
      (by decide) (by decide)).1 (by decide),
    by decide,
    (registerUser_appends_below_one_hundred_records
      (List.replicate 100 (String.toList "John;john@a.com"))
      (String.toList "Ann") (String.toList "ann@b.org")
      (fun r hr => by rw [List.eq_of_mem_replicate hr]; decide)
      (by rw [List.length_replicate]; decide) (by decide) (by decide)
      (fun r hr => by rw [List.eq_of_mem_replicate hr]; decide)).2.1
      (by rw [List.length_replicate])⟩

/-! ## Requests of `user_register_server_#2` -/

theorem errorToResponse_ok (code : ErrorCode)
    (h : errorToResponse code ++ String.toList "\r\n" = String.toList "200 OK\r\n") :
    code = .E_OK := by
  cases code <;> first | rfl | (exfalso; revert h; decide)

theorem execute_connected (req : List Char) (file : Option (List Char)) (writeOk : Bool) :
    Request.execute req file writeOk true true
      = (some ((Request.response req file writeOk).1 ++ String.toList "\r\n"),
          (Request.response req file writeOk).2) := rfl

theorem response_register (req username email : List Char) (file : Option (List Char))
    (writeOk : Bool) (hreq : matchRegister req = some (username, email)) :
    Request.response req file writeOk
      = (errorToResponse (DataFile.registerUser file writeOk username email).1,
          (DataFile.registerUser file writeOk username email).2) := by
  unfold Request.response
  rw [hreq]

theorem registerUser_ok (lines : List (List Char)) (writeOk : Bool) (user mail : List Char)
    (hlines : ∀ r ∈ lines, '\n' ∉ r)
    (hcode : (DataFile.registerUser (some (fileOf lines)) writeOk user mail).1 = .E_OK) :
    (DataFile.registerUser (some (fileOf lines)) writeOk user mail).2
        = some (fileOf (lines ++ [trimSpaces user ++ ';' :: trimSpaces mail])) ∧
      (validateUsername user).1 = true ∧ (validateEmail mail).1 = true ∧
      lines.any (isRecordOf (trimSpaces user)) = false ∧ lines.length < 100 ∧
      writeOk = true := by
  rcases registerUser_file lines writeOk user mail hlines with h | ⟨_, h⟩
  · exfalso
    rw [registerUser_fileOf lines writeOk user mail hlines] at hcode
    by_cases h1 : (validateUsername user).1 = false ∨ (validateEmail mail).1 = false
    · rw [if_pos h1] at hcode; cases hcode
    · rw [if_neg h1] at hcode
      by_cases h2 : lines.any (isRecordOf (trimSpaces user)) = true
      · rw [if_pos h2] at hcode; cases hcode
      · rw [if_neg h2] at hcode
        by_cases h3 : 100 ≤ lines.length
        · rw [if_pos h3] at hcode; cases hcode
        · rw [if_neg h3] at hcode
          by_cases h4 : writeOk = true
          · rw [registerUser_fileOf lines writeOk user mail hlines, if_neg h1, if_neg h2,
              if_neg h3, if_pos h4] at h
            have hlen := congrArg List.length (Option.some.inj h)
            rw [fileOf_append] at hlen
            simp only [List.length_append, List.length_singleton] at hlen
            omega
          · rw [if_neg h4] at hcode; cases hcode
  · exact h

/-- A request `REGISTER` that is answered `200 OK` on a file of newline-terminated lines: the
name and the e-mail are valid, no line of the file matches the name, and the file after the
call holds one more line. -/
theorem execute_register_ok (records : List (List Char)) (req U E : List Char)
    (writeOk : Bool) (file1 : Option (List Char))
    (hrecords : ∀ r ∈ records, '\n' ∉ r)
    (hreq : matchRegister req = some (U, E))
    (hok : Request.execute req (some (fileOf records)) writeOk true true
      = (some (String.toList "200 OK\r\n"), file1)) :
    (validateUsername U).1 = true ∧ (validateEmail E).1 = true ∧
    records.any (isRecordOf (trimSpaces U)) = false ∧
    file1 = some (fileOf (records ++ [trimSpaces U ++ ';' :: trimSpaces E])) := by
  rw [execute_connected, response_register req U E _ _ hreq] at hok
  injection hok with h1 h2
  injection h1 with h1
  have hcode := errorToResponse_ok _ h1
  obtain ⟨h, hu, hm, hany, _, _⟩ := registerUser_ok records writeOk U E hrecords hcode
  exact ⟨hu, hm, hany, by rw [← h2, h]⟩

theorem matchGet_not_register (req : List Char) (u : List Char) (h : matchGet req = some u) :
    matchRegister req = none := by
  unfold matchGet at h
  unfold matchRegister
  cases hs : skipBlank req with
  | nil => rfl
  | cons c s =>
    rw [hs] at h
    have hlit : literal (String.toList "REGISTER") (c :: s) = none := by
      have hg : literal (String.toList "GET") (c :: s) ≠ none := by
        intro hn
        rw [hn] at h
        cases h
      have e1 : literal (String.toList "GET") (c :: s)
          = if 'G'.toLower = c.toLower then literal (String.toList "ET") s else none := rfl
      have e2 : literal (String.toList "REGISTER") (c :: s)
          = if 'R'.toLower = c.toLower then literal (String.toList "EGISTER") s else none := rfl
      rw [e2]
      rw [e1] at hg
      by_cases hc : 'G'.toLower = c.toLower
      · have : ¬ 'R'.toLower = c.toLower := by
          rw [← hc]
          decide
        rw [if_neg this]
      · rw [if_neg hc] at hg
        exact absurd rfl hg
    rw [hlit]

/-- The record that `registerUser` appended is the one that a search for its name finds. -/
theorem getEmail_registered (records : List (List Char)) (U E : List Char)
    (hrecords : ∀ r ∈ records, '\n' ∉ r)
    (hu : (validateUsername U).1 = true) (hm : (validateEmail E).1 = true)
    (hany : records.any (isRecordOf (trimSpaces U)) = false) :
    DataFile.getEmail (some (fileOf (records ++ [trimSpaces U ++ ';' :: trimSpaces E])))
        (trimSpaces U) []
      = (.E_OK, trimSpaces E) := by
  have hnew := record_chars U E hu hm
  have hsemi := (validateUsername_chars U hu).1
  have hlines : ∀ r ∈ records ++ [trimSpaces U ++ ';' :: trimSpaces E], '\n' ∉ r := by
    intro r hr
    rcases List.mem_append.mp hr with h | h
    · exact hrecords r h
    · rw [List.mem_singleton.mp h]; exact hnew
  have hpre : ∀ r ∈ records, isRecordOf (trimSpaces U) r = false := by
    intro r hr
    have := List.any_eq_false.mp hany r hr
    simpa using this
  have hfind := findUser_first (trimSpaces U) (trimSpaces U ++ ';' :: trimSpaces E) records [[]] 0
    hpre (isRecordOf_self _ _ hsemi)
  rw [findFirst_append _ _ _ hsemi] at hfind
  simp only [Option.getD_some] at hfind
  have hdrop : (trimSpaces U ++ ';' :: trimSpaces E).drop ((trimSpaces U).length + 1)
      = trimSpaces E := by
    rw [← List.drop_drop, List.drop_left']
    · rfl
    · rfl
  rw [hdrop] at hfind
  unfold DataFile.getEmail findEmail
  simp only
  rw [getlines_fileOf _ hlines, List.append_assoc]
  simp only [List.singleton_append]
  rw [hfind]
  rfl

/-- C24 as the code has it: `registerUser`, called with a user name and an e-mail that pass
the validation, returns `E_CONFLICT` and leaves the file as it is whenever the trimmed name is
the user field of a line of the file. On a data file that consists of newline-terminated
records, a request `REGISTER` that `Request::execute` answers with `200 OK` is answered with
`409 Conflict` when it is repeated, and the file stays as the first call left it. Every file
that calls of `registerUser` make out of the empty file consists of lines `<user>;<email>`
whose user fields hold no `;` and are pairwise different. -/
theorem registerUser_conflict_for_valid_arguments :
    (∀ (contents : List Char) (writeOk : Bool) (user mail line : List Char) (k : Nat),
      (validateUsername user).1 = true → (validateEmail mail).1 = true →
      line ∈ getlines contents → findFirst line ';' = some k →
      substr line 0 k = trimSpaces user →
      DataFile.registerUser (some contents) writeOk user mail
        = (.E_CONFLICT, some contents)) ∧
    (∀ (records : List (List Char)) (req U E : List Char) (writeOk again : Bool)
      (file1 : Option (List Char)),
      (∀ r ∈ records, '\n' ∉ r) → matchRegister req = some (U, E) →
      Request.execute req (some (fileOf records)) writeOk true true
        = (some (String.toList "200 OK\r\n"), file1) →
      Request.execute req file1 again true true
        = (some (String.toList "409 Conflict\r\n"), file1)) ∧
    (∀ calls : List (Bool × List Char × List Char),
      ∃ entries : List (List Char × List Char),
        DataFile.registerUsers (some []) calls = some (fileOf (entries.map record)) ∧
        (∀ entry ∈ entries, ';' ∉ entry.1 ∧ '\n' ∉ record entry) ∧
        (entries.map Prod.fst).Nodup) := by
  refine ⟨?_, ?_, ?_⟩
  · intro contents writeOk user mail line k hu hm hline hk hname
    have hrec : isRecordOf (trimSpaces user) line = true := by
      unfold isRecordOf
      rw [hk]
      simp only [hname, strncasecmp_self, and_self, decide_True]
    have hany : (getlines contents).any (isRecordOf (trimSpaces user)) = true :=
      List.any_eq_true.mpr ⟨line, hline, hrec⟩
    unfold DataFile.registerUser checkUser
    have h2 : (validateUsername user).2 = trimSpaces user := rfl
    simp only [hu, hm, h2, findUser_found, hany, Bool.not_true, Bool.false_eq_true, if_false]
  · intro records req U E writeOk again file1 hrecords hreq hok
    obtain ⟨hu, hm, hany, hfile⟩ := execute_register_ok records req U E writeOk file1 hrecords
      hreq hok
    have hnew := record_chars U E hu hm
    have hlines : ∀ r ∈ records ++ [trimSpaces U ++ ';' :: trimSpaces E], '\n' ∉ r := by
      intro r hr
      rcases List.mem_append.mp hr with h | h
      · exact hrecords r h
      · rw [List.mem_singleton.mp h]; exact hnew
    rw [execute_connected, response_register req U E _ _ hreq, hfile,
      registerUser_fileOf _ again U E hlines]
    have h1 : ¬ ((validateUsername U).1 = false ∨ (validateEmail E).1 = false) := by
      rw [hu, hm]; simp
    have h2 : (records ++ [trimSpaces U ++ ';' :: trimSpaces E]).any (isRecordOf (trimSpaces U))
        = true := by
      rw [List.any_append, List.any_cons, isRecordOf_self _ _ (validateUsername_chars U hu).1]
      simp
    rw [if_neg h1, if_pos h2]
    rfl
  · intro calls
    have key : ∀ (calls : List (Bool × List Char × List Char))
        (entries : List (List Char × List Char)),
        (∀ entry ∈ entries, ';' ∉ entry.1 ∧ '\n' ∉ record entry) →
        entries.Pairwise (fun a b => isRecordOf b.1 (record a) = false) →
        ∃ more : List (List Char × List Char),
          DataFile.registerUsers (some (fileOf (entries.map record))) calls
            = some (fileOf ((entries ++ more).map record)) ∧
          (∀ entry ∈ entries ++ more, ';' ∉ entry.1 ∧ '\n' ∉ record entry) ∧
          (entries ++ more).Pairwise (fun a b => isRecordOf b.1 (record a) = false) := by
      intro calls
      induction calls with
      | nil =>
        intro entries h1 h2
        exact ⟨[], by rw [List.append_nil]; rfl, by rw [List.append_nil]; exact h1,
          by rw [List.append_nil]; exact h2⟩
      | cons call calls ih =>
        intro entries h1 h2
        have hlines : ∀ r ∈ entries.map record, '\n' ∉ r := by
          intro r hr
          obtain ⟨entry, he, hre⟩ := List.mem_map.mp hr
          rw [← hre]
          exact (h1 entry he).2
        rw [DataFile.registerUsers]
        rcases registerUser_file (entries.map record) call.1 call.2.1 call.2.2 hlines with
          h | ⟨_, h, hu, hm, hany, _, _⟩
        · rw [h]
          exact ih entries h1 h2
        · rw [h]
          have hrec : trimSpaces call.2.1 ++ ';' :: trimSpaces call.2.2
              = record (trimSpaces call.2.1, trimSpaces call.2.2) := rfl
          have hmap : entries.map record ++ [trimSpaces call.2.1 ++ ';' :: trimSpaces call.2.2]
              = (entries ++ [(trimSpaces call.2.1, trimSpaces call.2.2)]).map record := by
            rw [List.map_append]
            rfl
          rw [hmap]
          obtain ⟨more, g1, g2, g3⟩ := ih (entries ++ [(trimSpaces call.2.1, trimSpaces call.2.2)])
            (by
              intro entry he
              rcases List.mem_append.mp he with h | h
              · exact h1 entry h
              · rw [List.mem_singleton.mp h]
                exact ⟨(validateUsername_chars _ hu).1, record_chars _ _ hu hm⟩)
            (by
              rw [List.pairwise_append]
              refine ⟨h2, List.pairwise_singleton _ _, ?_⟩
              intro a ha b hb
              rw [List.mem_singleton.mp hb]
              have := List.any_eq_false.mp hany (record a) (List.mem_map_of_mem _ ha)
              simpa using this)
          refine ⟨(trimSpaces call.2.1, trimSpaces call.2.2) :: more, ?_, ?_, ?_⟩
          · rw [g1, List.append_assoc]; rfl
          · rw [List.append_assoc] at g2; exact g2
          · rw [List.append_assoc] at g3; exact g3
    obtain ⟨more, g1, g2, g3⟩ := key calls [] (fun _ h => by cases h) List.Pairwise.nil
    rw [List.nil_append] at g1 g2 g3
    refine ⟨more, g1, g2, ?_⟩
    rw [List.Nodup, List.pairwise_map]
    refine List.Pairwise.imp_of_mem ?_ g3
    intro a b ha hb hab heq
    rw [← heq] at hab
    have hself := isRecordOf_self a.1 a.2 (g2 a ha).1
    have : record a = a.1 ++ ';' :: a.2 := rfl
    rw [this, hself] at hab
    cases hab

/-- Witness of C24: the record of `John` is in the file; a second registration of `John` with
another valid e-mail returns `E_CONFLICT`, the repeated request is answered `409 Conflict`, and
the file made by the two calls out of the empty file holds `John` once. -/
theorem registerUser_conflict_for_valid_arguments_witness :
    DataFile.registerUser (some johnFile) true (String.toList " John ")
        (String.toList "j@b.org")
      = (.E_CONFLICT, some johnFile) ∧
    Request.execute (String.toList "REGISTER username=John;email=john@a.com")
        (some johnFile) true true true
      = (some (String.toList "409 Conflict\r\n"), some johnFile) ∧
    ∃ entries : List (List Char × List Char),
      DataFile.registerUsers (some [])
          [(true, String.toList "John", String.toList "john@a.com"),
            (true, String.toList "John", String.toList "j@b.org")]
        = some (fileOf (entries.map record)) ∧
      (∀ entry ∈ entries, ';' ∉ entry.1 ∧ '\n' ∉ record entry) ∧
      (entries.map Prod.fst).Nodup :=
  ⟨registerUser_conflict_for_valid_arguments.1 johnFile true (String.toList " John ")
      (String.toList "j@b.org") (String.toList "John;john@a.com") 4 (by decide) (by decide)
      (by decide) (by decide) (by decide),
    registerUser_conflict_for_valid_arguments.2.1 [] (String.toList
      "REGISTER username=John;email=john@a.com") (String.toList "John")
      (String.toList "john@a.com") true true (some johnFile) (by decide) (by decide) (by decide),
    registerUser_conflict_for_valid_arguments.2.2 _⟩

/-- Counterexample to C24 as stated: `John` is the user field of a record of the file, and
`registerUser` called with the name `John` and an e-mail without `@` returns `E_INVALID`, not
`E_CONFLICT`. And on a file whose last record is not ended by a line feed, the request that
registers `Ann` is answered `200 OK` and, repeated, `200 OK` again: the first record of `Ann`
was written onto the line of `John`, where `findUser` does not find it. -/
theorem registerUser_invalid_before_conflict :
    String.toList "John;john@a.com" ∈ getlines johnFile ∧
    findFirst (String.toList "John;john@a.com") ';' = some 4 ∧
    substr (String.toList "John;john@a.com") 0 4 = trimSpaces (String.toList "John") ∧
    DataFile.registerUser (some johnFile) true (String.toList "John") (String.toList "john")
      = (.E_INVALID, some johnFile) ∧
    Request.execute (String.toList "REGISTER username=John;email=john") (some johnFile) true
        true true
      = (some (String.toList "406 Not Acceptable\r\n"), some johnFile) ∧
    Request.execute (String.toList "REGISTER username=Ann;email=ann@b.org")
        (some unterminatedFile) true true true
      = (some (String.toList "200 OK\r\n"),
          some (String.toList "John;john@a.comAnn;ann@b.org\n")) ∧
    Request.execute (String.toList "REGISTER username=Ann;email=ann@b.org")
        (some (String.toList "John;john@a.comAnn;ann@b.org\n")) true true true
      = (some (String.toList "200 OK\r\n"),
          some (String.toList "John;john@a.comAnn;ann@b.org\nAnn;ann@b.org\n")) := by
  decide

/-- C25 as the code has it: a request `REGISTER` with the groups U and E is answered `200 OK`
on a data file that consists of newline-terminated records. A request `GET` whose group is
the trimmed U is then answered with `200 OK email=`, the trimmed E and the line end: the text
`OK` of the response `200 OK` stands between the code and the e-mail. -/
theorem get_after_register_answers_ok_email (records : List (List Char))
    (req get U E : List Char) (writeOk : Bool) (file1 : Option (List Char))
    (hrecords : ∀ r ∈ records, '\n' ∉ r)
    (hreq : matchRegister req = some (U, E))
    (hok : Request.execute req (some (fileOf records)) writeOk true true
      = (some (String.toList "200 OK\r\n"), file1))
    (hget : matchGet get = some (trimSpaces U)) :
    Request.execute get file1 writeOk true true
      = (some (String.toList "200 OK email=" ++ trimSpaces E ++ String.toList "\r\n"), file1) := by
  obtain ⟨hu, hm, hany, hfile⟩ := execute_register_ok records req U E writeOk file1 hrecords
    hreq hok
  have hmail := getEmail_registered records U E hrecords hu hm hany
  have hne := (validateEmail_chars E hm).2
  have hpos : (trimSpaces E).length > 0 := List.length_pos.mpr hne
  rw [execute_connected]
  unfold Request.response
  rw [matchGet_not_register get _ hget, hget, hfile]
  simp only [hmail, hpos, if_true]
  rfl

/-- Witness of C25: `John` is registered in the empty file and then looked up. -/
theorem get_after_register_answers_ok_email_witness :
    Request.execute (String.toList "REGISTER username=John;email=john@a.com") (some (fileOf []))
        true true true
      = (some (String.toList "200 OK\r\n"), some johnFile) ∧
    Request.execute (String.toList "GET username=John") (some johnFile) true true true
      = (some (String.toList "200 OK email=" ++ trimSpaces (String.toList "john@a.com")
          ++ String.toList "\r\n"), some johnFile) :=
  ⟨by decide,
    get_after_register_answers_ok_email [] (String.toList
      "REGISTER username=John;email=john@a.com") (String.toList "GET username=John")
      (String.toList "John") (String.toList "john@a.com") true (some johnFile) (by decide)
      (by decide) (by decide) (by decide)⟩

/-- Counterexample to C25 as stated: the request that registers `John` in the empty file is
answered `200 OK`, and the request `GET username=John` that follows is answered
`200 OK email=john@a.com`, which is not `200 email=john@a.com`. And on a file whose last record
is not ended by a line feed, the request that registers `Ann` is answered `200 OK` and the
request `GET username=Ann` that follows is answered `404 Not Found`. -/
theorem get_answer_holds_ok :
    Request.execute (String.toList "REGISTER username=John;email=john@a.com") (some []) true
        true true
      = (some (String.toList "200 OK\r\n"), some johnFile) ∧
    Request.execute (String.toList "GET username=John") (some johnFile) true true true
      = (some (String.toList "200 OK email=john@a.com\r\n"), some johnFile) ∧
    String.toList "200 OK email=john@a.com\r\n" ≠ String.toList "200 email=john@a.com\r\n" ∧
    Request.execute (String.toList "REGISTER username=Ann;email=ann@b.org")
        (some unterminatedFile) true true true
      = (some (String.toList "200 OK\r\n"),
          some (String.toList "John;john@a.comAnn;ann@b.org\n")) ∧
    Request.execute (String.toList "GET username=Ann")
        (some (String.toList "John;john@a.comAnn;ann@b.org\n")) true true true
      = (some (String.toList "404 Not Found\r\n"),
          some (String.toList "John;john@a.comAnn;ann@b.org\n")) := by
  decide

/-! ## Requests of `user_register_server` -/

theorem registerRequest_code (file : Option (List Char)) (appendOk : Bool)
    (strUsername strEmail : List Char) :
    (CBaseTask.registerRequest file appendOk strUsername strEmail).1 ∈
      [eRESPONSE_OK, eRESPONSE_OVERLOADED, eRESPONSE_NOT_ACCEPTABLE, eRESPONSE_CONFLICT,
        eRESPONSE_SERVICE_UNAVAILABLE] := by
  unfold CBaseTask.registerRequest
  split_ifs <;> simp

theorem getRequest_code (file : Option (List Char)) (strUsername : List Char) :
    (CBaseTask.getRequest file strUsername).1 ∈
      [eRESPONSE_OK, eRESPONSE_NOT_FOUND, eRESPONSE_NOT_ACCEPTABLE,
        eRESPONSE_SERVICE_UNAVAILABLE] := by
  unfold CBaseTask.getRequest
  split_ifs
  · simp
  · simp
  · split <;> simp

theorem processRequest_code (m_Data : RequestMessage) (file : Option (List Char))
    (appendOk : Bool) :
    (CBaseTask.processRequest m_Data file appendOk).respCode ∈
      [eRESPONSE_UNDEFINED, eRESPONSE_OK, eRESPONSE_NOT_FOUND, eRESPONSE_OVERLOADED,
        eRESPONSE_NOT_ACCEPTABLE, eRESPONSE_CONFLICT, eRESPONSE_SERVICE_UNAVAILABLE] := by
  unfold CBaseTask.processRequest
  split
  · rename_i u e _ _
    have := registerRequest_code file appendOk u e
    simp only [List.mem_cons, List.mem_singleton, List.not_mem_nil, or_false] at this ⊢
    tauto
  · split
    · rename_i u _
      have := getRequest_code file u
      simp only [List.mem_cons, List.mem_singleton, List.not_mem_nil, or_false] at this ⊢
      tauto
    · simp

/-- Every message that the loop of `ProcessData` assembles for a terminated request starts
with one of the codes 200, 404, 405, 406, 409, 503 and ends with the line end. -/
theorem responseMessage_form (m_Data : RequestMessage) (file : Option (List Char))
    (appendOk : Bool) :
    ∃ code ∈ [String.toList "200", String.toList "404", String.toList "405",
        String.toList "406", String.toList "409", String.toList "503"],
      ∃ text, CBaseTask.responseMessage (CBaseTask.processRequest m_Data file appendOk)
        = code ++ text ++ g_strRequestTerminator := by
  have h := processRequest_code m_Data file appendOk
  generalize CBaseTask.processRequest m_Data file appendOk = outcome at h
  simp only [List.mem_cons, List.mem_singleton, List.not_mem_nil, or_false] at h
  unfold CBaseTask.responseMessage
  rcases h with h | h | h | h | h | h | h <;> rw [h]
  · exact ⟨String.toList "406", by simp, String.toList " Not Acceptable", rfl⟩
  · by_cases hi : outcome.iRequestIndex - 1 = eREQUEST_GET
    · refine ⟨String.toList "200", by simp, String.toList " " ++ outcome.strEmail, ?_⟩
      simp only [hi, if_true]
      rfl
    · refine ⟨String.toList "200", by simp, String.toList " OK", ?_⟩
      simp only [hi, if_false]
      rfl
  · exact ⟨String.toList "404", by simp, String.toList " Not Found", rfl⟩
  · exact ⟨String.toList "405", by simp, String.toList " Overloaded", rfl⟩
  · exact ⟨String.toList "406", by simp, String.toList " Not Acceptable", rfl⟩
  · exact ⟨String.toList "409", by simp, String.toList " Conflict", rfl⟩
  · exact ⟨String.toList "503", by simp, String.toList " Service Unavailable", rfl⟩


theorem findStr_replicate (n : Nat) :
    findStr (List.replicate n 'a') g_strRequestTerminator = none := by
  induction n with
  | zero => rfl
  | succ n ih =>
    rw [List.replicate_succ, findStr, ih]
    rfl

/-- A buffer of more than `g_iMaxMessageLength*2` bytes `a`: `ProcessData` clears it and sends
the message of the code 400 as the map holds it. -/
theorem ProcessData_unterminated (n fuel : Nat) (m_Data : RequestMessage)
    (file : Option (List Char)) (appendOk : Bool) (h : n > g_iMaxMessageLength * 2) :
    CBaseTask.ProcessData fuel { m_strMsgBuffer := List.replicate n 'a', m_Data := m_Data } file
        appendOk
      = some ({ m_strMsgBuffer := [], m_Data := m_Data }, file,
          [CThreadPoolModule.GetResponseMessage eRESPONSE_BAD_REQUEST]) := by
  unfold CBaseTask.ProcessData
  simp only [findStr_replicate, List.length_replicate, if_pos h]

/-- C26: the data file holds the one record `John;john@a.com`, whose user field is `John`. A
task that was just made receives `GET username=ohn`. No record has the user field `ohn`, but
`ProcessData` answers `200 ;john@a.com`: the test `strTemp.find(strUsername)` accepts `ohn;` at
index 1 of the record, and the e-mail is cut after the first four bytes of the record as if the
name stood at index 0. In a file in which the record of `xJohn` stands before the record of
`John`, the request `GET username=John` is answered `200 ;x@a.com`, not with the e-mail of
`John`. -/
theorem ProcessData_get_finds_name_inside_record :
    getlines johnFile = [String.toList "John;john@a.com", []] ∧
    findFirst (String.toList "John;john@a.com") ';' = some 4 ∧
    substr (String.toList "John;john@a.com") 0 4 = String.toList "John" ∧
    CBaseTask.ProcessData 1 (freshTask (String.toList "GET username=ohn\r\n")) (some johnFile)
        true
      = some ({ m_strMsgBuffer := [],
                m_Data := [(String.toList "GET",
                  [(String.toList "username", String.toList "ohn")])] },
          some johnFile, [String.toList "200 ;john@a.com\r\n"]) ∧
    CBaseTask.ProcessData 1 (freshTask (String.toList "GET username=John\r\n"))
        (some twoJohnsFile) true
      = some ({ m_strMsgBuffer := [],
                m_Data := [(String.toList "GET",
                  [(String.toList "username", String.toList "John")])] },
          some twoJohnsFile, [String.toList "200 ;x@a.com\r\n"]) := by
  decide

/-- C27: the buffer of a task holds 12801 bytes without a line end. `ProcessData` clears the
buffer and hands the one message `400 Bad request` to `write`; the message does not end with
the line end. Every message that the loop over the terminated requests assembles starts with
one of the codes and ends with the line end, as the message of a request without a known
command shows. -/
theorem ProcessData_overlong_reply_lacks_line_end :
    CBaseTask.ProcessData 0 (freshTask (List.replicate 12801 'a')) (some johnFile) true
      = some (freshTask [], some johnFile, [String.toList "400 Bad request"]) ∧
    g_strRequestTerminator.isSuffixOf (String.toList "400 Bad request") = false ∧
    (∀ (m_Data : RequestMessage) (file : Option (List Char)) (appendOk : Bool),
      ∃ code ∈ [String.toList "200", String.toList "404", String.toList "405",
          String.toList "406", String.toList "409", String.toList "503"],
        ∃ text, CBaseTask.responseMessage (CBaseTask.processRequest m_Data file appendOk)
          = code ++ text ++ g_strRequestTerminator) ∧
    CBaseTask.ProcessData 1 (freshTask (String.toList "hello\r\n")) (some johnFile) true
      = some ({ m_strMsgBuffer := [], m_Data := [(String.toList "hello", [])] },
          some johnFile, [String.toList "406 Not Acceptable\r\n"]) := by
  refine ⟨?_, by decide, responseMessage_form, by decide⟩
  have h : 12801 > g_iMaxMessageLength * 2 := by
    unfold g_iMaxMessageLength g_iMaxBufferSize
    omega
  exact ProcessData_unterminated 12801 0 [] (some johnFile) true h

/-! ## The bounds of the rounds in the parser and in `ProcessData` -/

theorem length_dropWhile_le (p : Char → Bool) (s : List Char) :
    (s.dropWhile p).length ≤ s.length :=
  (List.dropWhile_suffix p).length_le

theorem plus_length (p : Char → Bool) (s m r : List Char) (h : plus p s = some (m, r)) :
    r.length < s.length := by
  unfold plus at h
  split at h
  · cases h
  · rename_i hne
    injection h with h
    injection h with h1 h2
    have hlen := congrArg List.length (List.takeWhile_append_dropWhile p s)
    rw [List.length_append, h2] at hlen
    have : (s.takeWhile p).length ≠ 0 := by
      intro h0
      exact hne (by rw [List.length_eq_zero.mp h0]; rfl)
    omega

theorem paramName_length (s s1 : List Char) (data data1 : RequestMessage)
    (h : paramName s data = (some s1, data1)) : s1.length < s.length := by
  unfold paramName at h
  cases hsd : serviceData (s.dropWhile isBlank) with
  | none => rw [hsd] at h; cases h
  | some r =>
    obtain ⟨key, r1⟩ := r
    rw [hsd] at h
    simp only at h
    have h1 := plus_length _ _ _ _ hsd
    have h2 := length_dropWhile_le isBlank s
    have h3 := length_dropWhile_le isBlank r1
    cases hd : r1.dropWhile isBlank with
    | nil => rw [hd] at h; cases h
    | cons c r2 =>
      rw [hd] at h h3
      simp only at h
      split at h
      · injection h with h4 _
        injection h4 with h4
        have h5 := length_dropWhile_le isBlank r2
        rw [h4] at h5
        simp only [List.length_cons] at h3
        omega
      · cases h

/-- A round of `*entryMail` that matches takes at least one byte. -/
theorem entryMail_length (s s1 : List Char) (data data1 : RequestMessage)
    (h : entryMail s data = (some s1, data1)) : s1.length < s.length := by
  unfold entryMail at h
  cases hp : paramName s data with
  | mk r d =>
    rw [hp] at h
    cases r with
    | none => cases h
    | some r1 =>
      simp only at h
      have h1 := paramName_length _ _ _ _ hp
      cases hm : mail r1 with
      | none => rw [hm] at h; cases h
      | some v =>
        obtain ⟨value, r2⟩ := v
        rw [hm] at h
        simp only at h
        have h2 := plus_length _ _ _ _ hm
        cases r2 with
        | nil => cases h
        | cons c r3 =>
          simp only at h
          split at h
          · cases hm2 : mail r3 with
            | none => rw [hm2] at h; cases h
            | some w =>
              obtain ⟨domain, r4⟩ := w
              rw [hm2] at h
              simp only at h
              injection h with h4 _
              injection h4 with h4
              have h3 := plus_length _ _ _ _ hm2
              have h5 := length_dropWhile_le (· == ';') (r4.dropWhile isBlank)
              have h6 := length_dropWhile_le isBlank r4
              rw [h4] at h5
              simp only [List.length_cons] at h2
              omega
          · cases h

theorem entryMail_nil (data : RequestMessage) : entryMail [] data = (none, data) := rfl

/-- More rounds than the input has bytes do not change the result of `*entryMail`. -/
theorem entryMails_fuel (fuel : Nat) :
    ∀ (s : List Char) (data : RequestMessage), s.length ≤ fuel →
      entryMails (fuel + 1) s data = entryMails fuel s data := by
  induction fuel with
  | zero =>
    intro s data h
    have : s = [] := List.length_eq_zero.mp (by omega)
    rw [this]
    rfl
  | succ n ih =>
    intro s data h
    rw [entryMails]
    conv_rhs => rw [entryMails]
    cases he : entryMail s data with
    | mk r d =>
      cases r with
      | none => rfl
      | some s1 =>
        simp only
        have := entryMail_length _ _ _ _ he
        exact ih s1 d (by omega)

theorem entryMails_enough (fuel : Nat) (s : List Char) (data : RequestMessage)
    (h : s.length ≤ fuel) : entryMails fuel s data = entryMails s.length s data := by
  induction fuel with
  | zero =>
    have : s.length = 0 := by omega
    rw [this]
  | succ n ih =>
    by_cases hn : s.length ≤ n
    · rw [entryMails_fuel n s data hn]
      exact ih hn
    · have : s.length = n + 1 := by omega
      rw [this]

theorem entryMails_length (fuel : Nat) :
    ∀ (s : List Char) (data : RequestMessage), (entryMails fuel s data).1.length ≤ s.length := by
  induction fuel with
  | zero => intro s data; exact le_refl _
  | succ n ih =>
    intro s data
    rw [entryMails]
    cases he : entryMail s data with
    | mk r d =>
      cases r with
      | none => exact le_refl _
      | some s1 =>
        simp only
        have := entryMail_length _ _ _ _ he
        have := ih s1 d
        omega

theorem entryUsr_length (s s1 : List Char) (data data1 : RequestMessage)
    (h : entryUsr s data = (some s1, data1)) : s1.length < s.length := by
  unfold entryUsr at h
  cases hp : paramName s data with
  | mk r d =>
    rw [hp] at h
    cases r with
    | none => cases h
    | some r1 =>
      simp only at h
      have h1 := paramName_length _ _ _ _ hp
      cases hm : username r1 with
      | none => rw [hm] at h; cases h
      | some v =>
        obtain ⟨value, r2⟩ := v
        rw [hm] at h
        simp only at h
        injection h with h4 _
        injection h4 with h4
        have h2 := plus_length _ _ _ _ hm
        have h5 := length_dropWhile_le (· == ';') (r2.dropWhile isBlank)
        have h6 := length_dropWhile_le isBlank r2
        rw [h4] at h5
        omega

/-- A round of `*section` that matches takes at least one byte, and its rule `*entryMail` has
rounds enough with the length of the input of the section. -/
theorem sectionRule_length (fuel : Nat) (s s1 : List Char) (data data1 : RequestMessage)
    (h : sectionRule fuel s data = (some s1, data1)) : s1.length < s.length := by
  unfold sectionRule at h
  cases hsd : serviceData (s.dropWhile isBlank) with
  | none => rw [hsd] at h; cases h
  | some r =>
    obtain ⟨name, r1⟩ := r
    rw [hsd] at h
    simp only at h
    have h1 := plus_length _ _ _ _ hsd
    have h2 := length_dropWhile_le isBlank s
    cases hu : entryUsr r1 (add_section data name) with
    | mk r d =>
      rw [hu] at h
      cases r with
      | none => cases h
      | some r2 =>
        simp only at h
        injection h with h4 _
        injection h4 with h4
        have h3 := entryUsr_length _ _ _ _ hu
        have h5 := entryMails_length fuel r2 d
        rw [h4] at h5
        omega

theorem sectionRule_enough (fuel : Nat) (s : List Char) (data : RequestMessage)
    (h : s.length ≤ fuel) : sectionRule fuel s data = sectionRule s.length s data := by
  unfold sectionRule
  cases hsd : serviceData (s.dropWhile isBlank) with
  | none => rfl
  | some r =>
    obtain ⟨name, r1⟩ := r
    simp only
    have h1 := plus_length _ _ _ _ hsd
    have h2 := length_dropWhile_le isBlank s
    cases hu : entryUsr r1 (add_section data name) with
    | mk r d =>
      cases r with
      | none => rfl
      | some r2 =>
        simp only
        have h3 := entryUsr_length _ _ _ _ hu
        rw [entryMails_enough fuel r2 d (by omega), entryMails_enough s.length r2 d (by omega)]

/-- More rounds than the input has bytes do not change the result of `*section`: the bound
that `Parse` puts on the rounds is never the reason for which the rule ends. -/
theorem requestdata_fuel (fuel : Nat) :
    ∀ (s : List Char) (data : RequestMessage), s.length ≤ fuel →
      requestdata (fuel + 1) s data = requestdata fuel s data := by
  induction fuel with
  | zero =>
    intro s data h
    have : s = [] := List.length_eq_zero.mp (by omega)
    rw [this]
    rfl
  | succ n ih =>
    intro s data h
    rw [requestdata]
    conv_rhs => rw [requestdata]
    cases he : sectionRule s.length s data with
    | mk r d =>
      cases r with
      | none => rfl
      | some s1 =>
        simp only
        have := sectionRule_length _ _ _ _ _ he
        exact ih s1 d (by omega)

theorem findStr_bound (s str : List Char) (k : Nat) (h : findStr s str = some k) :
    k + str.length ≤ s.length := by
  induction s generalizing k with
  | nil =>
    unfold findStr at h
    split at h
    · rename_i hs
      injection h with h
      rw [hs, ← h]
      rfl
    · cases h
  | cons c s ih =>
    rw [findStr] at h
    split at h
    · rename_i hp
      injection h with h
      have := (List.isPrefixOf_iff_prefix.mp hp).length_le
      omega
    · cases hf : findStr s str with
      | none => rw [hf] at h; cases h
      | some j =>
        rw [hf] at h
        simp only [Option.map_some', Option.some.injEq] at h
        have := ih j hf
        simp only [List.length_cons]
        omega

/-- The loop of `ProcessData` ends within as many rounds as the buffer has bytes. -/
theorem requestLoop_returns (appendOk : Bool) (fuel : Nat) :
    ∀ (task : CBaseTask) (file : Option (List Char)) (sent : List (List Char)),
      task.m_strMsgBuffer.length ≤ fuel →
      ∃ result, CBaseTask.requestLoop appendOk fuel
        (findStr task.m_strMsgBuffer g_strRequestTerminator) task file sent = some result := by
  induction fuel with
  | zero =>
    intro task file sent h
    cases hf : findStr task.m_strMsgBuffer g_strRequestTerminator with
    | none => exact ⟨_, by rw [CBaseTask.requestLoop]⟩
    | some k =>
      have := findStr_bound _ _ _ hf
      have h2 : g_strRequestTerminator.length = 2 := rfl
      omega
  | succ n ih =>
    intro task file sent h
    cases hf : findStr task.m_strMsgBuffer g_strRequestTerminator with
    | none => exact ⟨_, by rw [CBaseTask.requestLoop]⟩
    | some k =>
      have hb := findStr_bound _ _ _ hf
      have h2 : g_strRequestTerminator.length = 2 := rfl
      rw [CBaseTask.requestLoop]
      refine ih ⟨_, _⟩ _ _ ?_
      show (task.m_strMsgBuffer.drop (k + g_strRequestTerminator.length)).length ≤ n
      rw [List.length_drop]
      omega

/-- `ProcessData` returns when the bound of its rounds is the length of the buffer. -/
theorem ProcessData_returns (task : CBaseTask) (file : Option (List Char)) (appendOk : Bool) :
    ∃ result, CBaseTask.ProcessData task.m_strMsgBuffer.length task file appendOk
      = some result := by
  unfold CBaseTask.ProcessData
  cases hf : findStr task.m_strMsgBuffer g_strRequestTerminator with
  | none =>
    simp only
    split
    · exact ⟨_, rfl⟩
    · exact ⟨_, rfl⟩
  | some k =>
    simp only
    have := requestLoop_returns appendOk task.m_strMsgBuffer.length task file [] (le_refl _)
    rw [hf] at this
    exact this

end RegisterServer
